import Mathlib

/-!
Snake: a shallow embedding of the simulation core

The C++ sources under `src/` are embedded as pure Lean functions on explicit
state records.  Conventions:

* `int` fields are `Int` (signed overflow is undefined behaviour in C++ and is
  not reachable for the quantities below); `size_t` values are `Nat` with
  explicit arithmetic modulo `2 ^ 64`;
* `std::string` is a list of characters;
* the random generator, the clock and the input devices are inputs of a frame;
* rendering, audio and file output have no effect on the simulation state and
  are not part of the state.
-/

namespace SnakeGame

/-! ## Constants.h -/

namespace Constants

def WINDOW_WIDTH : Int := 800
def WINDOW_HEIGHT : Int := 600
def CELL_SIZE : Int := 20
def GRID_WIDTH : Int := WINDOW_WIDTH / CELL_SIZE
def GRID_HEIGHT : Int := (WINDOW_HEIGHT - 60) / CELL_SIZE
def INITIAL_SNAKE_LENGTH : Nat := 3
def INITIAL_GAME_SPEED : Int := 8
def MIN_GAME_SPEED : Int := 3
def SPEED_INCREASE_INTERVAL : Int := 5
def MAX_HIGH_SCORES : Nat := 10
def INITIALS_LENGTH : Nat := 3

end Constants

/-- Game states (`enum class GameState`). -/
inductive GameState
  | MENU
  | PLAYER_SELECT
  | ENTER_INITIALS
  | PLAYING
  | PAUSED
  | GAME_OVER
  | HIGH_SCORES
  | PLAYER_SWITCH
  | FINAL_RESULTS
  deriving DecidableEq, Repr

/-- Direction enum (`enum class Direction`). -/
inductive Direction
  | UP
  | DOWN
  | LEFT
  | RIGHT
  | NONE
  deriving DecidableEq, Repr

/-- Input action enum (`enum class InputAction`). -/
inductive InputAction
  | UP
  | DOWN
  | LEFT
  | RIGHT
  | SELECT
  | BACK
  | PAUSE
  | NONE
  deriving DecidableEq, Repr

/-! ## Snake.h / Snake.cpp -/

/-- The `struct Position`: two `int` coordinates, equality by coordinate. -/
structure Position where
  x : Int
  y : Int
  deriving DecidableEq, Repr

/-- The data members of `class Snake`. -/
structure Snake where
  segments : List Position
  direction : Direction
  nextDirection : Direction
  alive : Bool
  hasEaten : Bool
  deriving DecidableEq, Repr

namespace Snake

/-- The method `Snake::reset`: the loop pushes `{startX - i, startY}` for
`i = 0 .. INITIAL_SNAKE_LENGTH - 1`. -/
def reset (_s : Snake) : Snake :=
  let startX := Constants.GRID_WIDTH / 2
  let startY := Constants.GRID_HEIGHT / 2
  { segments := (List.range Constants.INITIAL_SNAKE_LENGTH).map
      (fun i => { x := startX - (i : Int), y := startY })
    direction := Direction.RIGHT
    nextDirection := Direction.RIGHT
    alive := true
    hasEaten := false }

/-- The method `Snake::setDirection`. -/
def setDirection (s : Snake) (newDir : Direction) : Snake :=
  if newDir = Direction.NONE then s
  else
    let canChange : Bool :=
      match newDir with
      | Direction.UP => decide (s.direction ≠ Direction.DOWN)
      | Direction.DOWN => decide (s.direction ≠ Direction.UP)
      | Direction.LEFT => decide (s.direction ≠ Direction.RIGHT)
      | Direction.RIGHT => decide (s.direction ≠ Direction.LEFT)
      | Direction.NONE => false
    if canChange then { s with nextDirection := newDir } else s

/-- The new head computed by the `switch (direction)` of `Snake::move`. -/
def step (head : Position) (d : Direction) : Position :=
  match d with
  | Direction.UP => { head with y := head.y - 1 }
  | Direction.DOWN => { head with y := head.y + 1 }
  | Direction.LEFT => { head with x := head.x - 1 }
  | Direction.RIGHT => { head with x := head.x + 1 }
  | Direction.NONE => head

/-- The method `Snake::move`. -/
def move (s : Snake) : Snake :=
  if !s.alive then s
  else
    match s.segments with
    | [] => s
    | front :: rest =>
      let direction := s.nextDirection
      let newHead := step front direction
      let segments := newHead :: front :: rest
      if s.hasEaten then
        { s with direction := direction, segments := segments, hasEaten := false }
      else
        { s with direction := direction, segments := segments.dropLast }

/-- The method `Snake::grow`. -/
def grow (s : Snake) : Snake :=
  { s with hasEaten := true }

/-- The setter `Snake::setAlive`. -/
def setAlive (s : Snake) (value : Bool) : Snake :=
  { s with alive := value }

/-- The method `Snake::checkWallCollision`. -/
def checkWallCollision (s : Snake) : Bool :=
  match s.segments with
  | [] => false
  | head :: _ =>
    decide (head.x < 0) || decide (head.x ≥ Constants.GRID_WIDTH) ||
      decide (head.y < 0) || decide (head.y ≥ Constants.GRID_HEIGHT)

/-- The method `Snake::checkSelfCollision`: the head against the segments of
index 1 and above. -/
def checkSelfCollision (s : Snake) : Bool :=
  match s.segments with
  | [] => false
  | head :: body => body.any (fun seg => decide (head = seg))

/-- The method `Snake::checkCollisionAt`. -/
def checkCollisionAt (s : Snake) (pos : Position) : Bool :=
  s.segments.any (fun seg => decide (seg = pos))

end Snake

/-! ## Food.h / Food.cpp -/

/-- The data members of `class Food` apart from the generator, whose outputs
are passed to `spawn` as a sequence of draws. -/
structure Food where
  position : Position
  pulseTimer : Int
  deriving DecidableEq, Repr

namespace Food

/-- The bound `maxAttempts` of `Food::spawn`. -/
def maxAttempts : Nat := 1000

/-- The `do ... while` loop of `Food::spawn`, entered for the draw of index `i`
with `n` further attempts allowed: the draw is taken (`attempts` becomes
`i + 1`), and the loop goes on while the draw lies on the snake and
`attempts < maxAttempts`, that is while `n` is positive. -/
def spawnLoop (snake : Snake) (draws : Nat → Position) : Nat → Nat → Position
  | 0, i => draws i
  | n + 1, i =>
    if snake.checkCollisionAt (draws i) then spawnLoop snake draws n (i + 1)
    else draws i

/-- The method `Food::spawn`; `draws k` is the pair `(distX(rng), distY(rng))`
of the `k`-th pass through the loop body. -/
def spawn (_f : Food) (snake : Snake) (draws : Nat → Position) : Food :=
  { position := spawnLoop snake draws (maxAttempts - 1) 0
    pulseTimer := 0 }

/-- The method `Food::update`. -/
def update (f : Food) : Food :=
  let t := f.pulseTimer + 1
  { f with pulseTimer := if t > 1000 then 0 else t }

end Food

/-! ## std::string and std::sort -/

/-- A `std::string`, as its sequence of characters. -/
abbrev Str := List Char

/-- The ways in which a call does not return normally: a C++ exception leaves
the function, the behaviour is undefined (an indeterminate value is read, an
array is indexed out of its bounds), or the model of a loop was given too
little fuel. -/
inductive Fault
  | thrown
  | undefined
  | fuel
  deriving DecidableEq, Repr

/-- The constant `std::string::npos`, the largest `size_t`. -/
def npos : Nat := 2 ^ 64 - 1

/-- Addition of `size_t` values. -/
def sizeAdd (a b : Nat) : Nat := (a + b) % 2 ^ 64

/-- Subtraction of `size_t` values. -/
def sizeSub (a b : Nat) : Nat := (a + 2 ^ 64 - b % 2 ^ 64) % 2 ^ 64

/-- Whether `s` begins with `pat`. -/
def startsWith : Str → Str → Bool
  | [], _ => true
  | _ :: _, [] => false
  | p :: ps, c :: cs => decide (p = c) && startsWith ps cs

/-- The first index, counted from `i` at the start of `s`, at which `pat`
occurs in `s`; `npos` if there is none. -/
def findAt (pat : Str) : Str → Nat → Nat
  | [], i => if pat = [] then i else npos
  | c :: cs, i => if startsWith pat (c :: cs) then i else findAt pat cs (i + 1)

/-- The call `s.find(pat, pos)` of `std::string`. -/
def find (s pat : Str) (pos : Nat) : Nat :=
  if pos > s.length then npos else findAt pat (s.drop pos) pos

/-- The call `s.find(c, pos)` of `std::string` for a single character. -/
def findChar (s : Str) (c : Char) (pos : Nat) : Nat :=
  find s [c] pos

/-- The call `s.substr(pos, len)` of `std::string`: throws `std::out_of_range`
when `pos > s.size()`. -/
def substr (s : Str) (pos len : Nat) : Except Fault Str :=
  if pos > s.length then Except.error Fault.thrown
  else Except.ok ((s.drop pos).take len)

/-- The predicate `isspace` of the C locale. -/
def isSpace (c : Char) : Bool :=
  c.toNat = 32 || (9 ≤ c.toNat && c.toNat ≤ 13)

/-- The call `std::stoi(s)`: leading white space, an optional sign, then the
longest run of decimal digits; throws `std::invalid_argument` when there is no
digit and `std::out_of_range` when the value is not an `int`. -/
def stoi (s : Str) : Except Fault Int :=
  let s1 := s.dropWhile isSpace
  let signed : Bool × Str :=
    match s1 with
    | '-' :: r => (true, r)
    | '+' :: r => (false, r)
    | _ => (false, s1)
  let digits := signed.2.takeWhile Char.isDigit
  if digits = [] then Except.error Fault.thrown
  else
    let v : Int := digits.foldl (fun acc c => acc * 10 + ((c.toNat : Int) - 48)) 0
    let r : Int := if signed.1 then -v else v
    if r < -(2 ^ 31) ∨ r > 2 ^ 31 - 1 then Except.error Fault.thrown
    else Except.ok r

/-- The insertion `ss << n` of an `int` into a stream: the decimal digits,
after a minus sign when `n` is negative. -/
def intToStr (n : Int) : Str :=
  if n < 0 then '-' :: Nat.toDigits 10 n.natAbs else Nat.toDigits 10 n.toNat

/-- The insertion step of `stdSort`: `a` goes before the first element that
does not precede it under `comp`. -/
def sortInsert {α : Type} (comp : α → α → Bool) (a : α) : List α → List α
  | [] => [a]
  | b :: l => if comp b a then b :: sortInsert comp a l else a :: b :: l

/-- The call `std::sort(first, last, comp)`, as an insertion sort (which is
stable; the order C++ gives to elements that `comp` does not order is
unspecified). -/
def stdSort {α : Type} (comp : α → α → Bool) : List α → List α
  | [] => []
  | a :: l => sortInsert comp a (stdSort comp l)

/-! ## HighScoreManager.h / HighScoreManager.cpp -/

/-- The `struct HighScoreEntry`. -/
structure HighScoreEntry where
  initials : Str
  score : Int
  date : Str
  deriving DecidableEq, Repr

namespace HighScoreManager

/-- The comparison lambda of `sortAndTrim`: `a.score > b.score`. -/
def byScore (a b : HighScoreEntry) : Bool := decide (a.score > b.score)

/-- The method `HighScoreManager::sortAndTrim`. -/
def sortAndTrim (scores : List HighScoreEntry) : List HighScoreEntry :=
  let sorted := stdSort byScore scores
  if sorted.length > Constants.MAX_HIGH_SCORES then
    sorted.take Constants.MAX_HIGH_SCORES
  else sorted

/-- The method `HighScoreManager::isHighScore`. -/
def isHighScore (scores : List HighScoreEntry) (score : Int) : Bool :=
  if score ≤ 0 then false
  else if scores.length < Constants.MAX_HIGH_SCORES then true
  else
    match scores.getLast? with
    | some back => decide (score > back.score)
    | none => false

/-- The loop of `addScore` that pads the initials with spaces. -/
def padInitials (initials : Str) : Str :=
  initials ++ List.replicate (Constants.INITIALS_LENGTH - initials.length) ' '

/-- The rank loop of `addScore`: the 1-based index of the first entry with the
given score, initials and date, 0 if there is none. -/
def findRank (entry : HighScoreEntry) : List HighScoreEntry → Nat → Int
  | [], _ => 0
  | e :: rest, i =>
    if e.score = entry.score ∧ e.initials = entry.initials ∧ e.date = entry.date then
      ((i + 1 : Nat) : Int)
    else findRank entry rest (i + 1)

/-- The method `HighScoreManager::addScore`, with the result of
`getCurrentDate()` as the argument `date`: the new list and the returned rank.
The call of `save()` writes the file and leaves the list as it is. -/
def addScore (scores : List HighScoreEntry) (initials : Str) (score : Int)
    (date : Str) : List HighScoreEntry × Int :=
  if score ≤ 0 then (scores, 0)
  else
    let entry : HighScoreEntry :=
      { initials := padInitials (initials.take Constants.INITIALS_LENGTH)
        score := score
        date := date }
    let scores := sortAndTrim (scores ++ [entry])
    (scores, findRank entry scores 0)

/-- The method `HighScoreManager::getTopScore`. -/
def getTopScore (scores : List HighScoreEntry) : Int :=
  match scores with
  | [] => 0
  | front :: _ => front.score

/-- The double quote character. -/
def chQuote : Char := Char.ofNat 34

/-- The colon character. -/
def chColon : Char := Char.ofNat 58

/-- The opening bracket character. -/
def chLBracket : Char := Char.ofNat 91

/-- The closing bracket character. -/
def chRBracket : Char := Char.ofNat 93

/-- The opening brace character. -/
def chLBrace : Char := Char.ofNat 123

/-- The closing brace character. -/
def chRBrace : Char := Char.ofNat 125

/-- The key `"scores"` with its quotes. -/
def keyScores : Str := chQuote :: "scores".toList ++ [chQuote]

/-- The key `"initials"` with its quotes. -/
def keyInitials : Str := chQuote :: "initials".toList ++ [chQuote]

/-- The key `"score"` with its quotes. -/
def keyScore : Str := chQuote :: "score".toList ++ [chQuote]

/-- The key `"date"` with its quotes. -/
def keyDate : Str := chQuote :: "date".toList ++ [chQuote]

/-- The quoted value that `parseJson` reads for the initials and for the date:
the text between the first double quote at or after `start` and the next one;
`none` when one of the two quotes is missing (the field keeps its value). -/
def quotedValue (objContent : Str) (start : Nat) : Except Fault (Option Str) :=
  let valueStart := findChar objContent chQuote start
  let valueEnd := findChar objContent chQuote (sizeAdd valueStart 1)
  if valueStart ≠ npos ∧ valueEnd ≠ npos then
    (substr objContent (sizeAdd valueStart 1)
      (sizeSub (sizeSub valueEnd valueStart) 1)).map some
  else Except.ok none

/-- The block `// Parse initials` of `parseJson`: the value read, `none` when
the field keeps its default. -/
def parseInitialsField (objContent : Str) : Except Fault (Option Str) :=
  let initialsPos := find objContent keyInitials 0
  if initialsPos ≠ npos then quotedValue objContent (sizeAdd initialsPos 10)
  else Except.ok none

/-- The block `// Parse score` of `parseJson`: the value read, `none` when
`entry.score` is left as it is. -/
def parseScoreField (objContent : Str) : Except Fault (Option Int) :=
  let scorePos := find objContent keyScore 0
  if scorePos ≠ npos then
    let valueStart := findChar objContent chColon scorePos
    if valueStart ≠ npos then do
      let text ← substr objContent (sizeAdd valueStart 1) npos
      let v ← stoi text
      Except.ok (some v)
    else Except.ok none
  else Except.ok none

/-- The block `// Parse date` of `parseJson`: the value read, `none` when the
field keeps its default. -/
def parseDateField (objContent : Str) : Except Fault (Option Str) :=
  let datePos := find objContent keyDate 0
  if datePos ≠ npos then quotedValue objContent (sizeAdd datePos 6)
  else Except.ok none

/-- The test `!entry.initials.empty() && entry.score > 0` that decides whether
the entry is pushed.  The local `HighScoreEntry entry;` starts with empty
strings and an indeterminate `score`, which this test reads when the initials
are not empty. -/
def finishEntry (initials? : Option Str) (score? : Option Int) (date? : Option Str) :
    Except Fault (Option HighScoreEntry) :=
  let initials := initials?.getD []
  let date := date?.getD []
  if initials ≠ [] then
    match score? with
    | none => Except.error Fault.undefined
    | some score =>
      if score > 0 then
        Except.ok (some { initials := initials, score := score, date := date })
      else Except.ok none
  else Except.ok none

/-- The body of the loop of `parseJson` for the text of one object: the entry
that is pushed, if one is. -/
def parseObject (objContent : Str) : Except Fault (Option HighScoreEntry) := do
  let initials? ← parseInitialsField objContent
  let score? ← parseScoreField objContent
  let date? ← parseDateField objContent
  finishEntry initials? score? date?

/-- The loop `while (pos < arrayContent.length())` of `parseJson`; the first
argument bounds the number of evaluations of the loop condition. -/
def parseLoop (arrayContent : Str) :
    Nat → Nat → List HighScoreEntry → Except Fault (List HighScoreEntry)
  | 0, _, _ => Except.error Fault.fuel
  | fuel + 1, pos, scores =>
    if pos < arrayContent.length then
      let objStart := findChar arrayContent chLBrace pos
      let objEnd := findChar arrayContent chRBrace objStart
      if objStart = npos ∨ objEnd = npos then Except.ok scores
      else do
        let objContent ← substr arrayContent (sizeAdd objStart 1)
          (sizeSub (sizeSub objEnd objStart) 1)
        let entry? ← parseObject objContent
        let scores := match entry? with
          | some entry => scores ++ [entry]
          | none => scores
        parseLoop arrayContent fuel (sizeAdd objEnd 1) scores
    else Except.ok scores

/-- The method `HighScoreManager::parseJson`, from the list before the call to
the list after it (the returned `bool` is always `true`). -/
def parseJson (scores : List HighScoreEntry) (json : Str) :
    Except Fault (List HighScoreEntry) :=
  let scoresStart := find json keyScores 0
  if scoresStart = npos then Except.ok scores
  else
    let arrayStart := findChar json chLBracket scoresStart
    let arrayEnd := findChar json chRBracket arrayStart
    if arrayStart = npos ∨ arrayEnd = npos then Except.ok scores
    else do
      let arrayContent ← substr json (sizeAdd arrayStart 1)
        (sizeSub (sizeSub arrayEnd arrayStart) 1)
      let scores ← parseLoop arrayContent (arrayContent.length + 1) 0 scores
      Except.ok (sortAndTrim scores)

/-- The method `HighScoreManager::load`; `file` is the content of the file, or
`none` when it cannot be opened. -/
def load (_scores : List HighScoreEntry) (file : Option Str) :
    Except Fault (List HighScoreEntry) :=
  match file with
  | none => Except.ok []
  | some json => parseJson [] json

/-- The text that one round of the loop of `toJson` writes for an entry, up to
and including the closing brace. -/
def entryToJson (e : HighScoreEntry) : Str :=
  "    \x7b\"initials\": \"".toList ++ e.initials ++ "\", \"score\": ".toList
    ++ intToStr e.score ++ ", \"date\": \"".toList ++ e.date ++ "\"\x7d".toList

/-- The loop of `toJson`: a comma follows every entry but the last
(`i < scores.size() - 1`), and a line feed follows every entry. -/
def toJsonLoop : List HighScoreEntry → Str
  | [] => []
  | e :: rest =>
    entryToJson e ++ (if rest ≠ [] then [','] else []) ++ ['\n'] ++ toJsonLoop rest

/-- The method `HighScoreManager::toJson`. -/
def toJson (scores : List HighScoreEntry) : Str :=
  "\x7b\n  \"scores\": [\n".toList ++ toJsonLoop scores ++ "  ]\n\x7d".toList

end HighScoreManager

/-! ## InputManager.h: the per-frame input -/

/-- What `InputManager` reports during one frame. -/
structure Input where
  currentAction : InputAction
  currentDirection : Direction
  selectPressed : Bool
  backPressed : Bool
  pausePressed : Bool
  textInput : Char
  deriving DecidableEq, Repr

namespace Input

/-- The getter `InputManager::hasTextInput`. -/
def hasTextInput (i : Input) : Bool := decide (i.textInput ≠ Char.ofNat 0)

end Input

/-- The environment of one pass of `Game::run`: the input, the pairs that the
random generator would produce, and the date of the clock. -/
structure Frame where
  input : Input
  draws : Nat → Position
  date : Str

/-! ## Menu.h / Menu.cpp -/

/-- The data members of `class Menu`. -/
structure Menu where
  selectedOption : Int
  numOptions : Int
  backPressed : Bool
  initials : Str
  cursorPos : Int
  deriving DecidableEq, Repr

namespace Menu

/-- The constructor `Menu::Menu`. -/
def new : Menu :=
  { selectedOption := 0, numOptions := 4, backPressed := false, initials := [],
    cursorPos := 0 }

/-- The method `Menu::reset`. -/
def reset (m : Menu) : Menu :=
  { m with selectedOption := 0, backPressed := false }

/-- The method `Menu::resetInitials`. -/
def resetInitials (m : Menu) : Menu :=
  { m with initials := [], cursorPos := 0 }

/-- The setter `Menu::setNumOptions`. -/
def setNumOptions (m : Menu) (num : Int) : Menu :=
  { m with numOptions := num }

/-- The method `Menu::clearBackPressed`. -/
def clearBackPressed (m : Menu) : Menu :=
  { m with backPressed := false }

/-- The method `Menu::handleInput`: the menu after the call and the returned
flag. -/
def handleInput (m : Menu) (input : Input) : Menu × Bool :=
  match input.currentAction with
  | InputAction.UP =>
    let sel := m.selectedOption - 1
    ({ m with selectedOption := if sel < 0 then m.numOptions - 1 else sel }, false)
  | InputAction.DOWN =>
    let sel := m.selectedOption + 1
    ({ m with selectedOption := if sel ≥ m.numOptions then 0 else sel }, false)
  | InputAction.SELECT => (m, true)
  | InputAction.BACK => ({ m with backPressed := true }, false)
  | _ => (m, false)

/-- The text-input part of `Menu::handleInitialsInput`. -/
def applyTextInput (m : Menu) (input : Input) : Menu :=
  if input.hasTextInput then
    let c := input.textInput
    if c = Char.ofNat 8 then
      if m.initials ≠ [] then
        { m with initials := m.initials.dropLast
                 cursorPos := if m.cursorPos > 0 then m.cursorPos - 1 else m.cursorPos }
      else m
    else if m.initials.length < Constants.INITIALS_LENGTH then
      { m with initials := m.initials ++ [c]
               cursorPos := ((m.initials ++ [c]).length : Int) }
    else m
  else m

/-- The method `Menu::handleInitialsInput`: the menu after the call and the
returned flag. -/
def handleInitialsInput (m : Menu) (input : Input) : Menu × Bool :=
  let m := applyTextInput m input
  if input.selectPressed && decide (m.initials.length = Constants.INITIALS_LENGTH) then
    (m, true)
  else if input.backPressed then ({ m with backPressed := true }, false)
  else (m, false)

end Menu

/-! ## Renderer.cpp: the winner announcement of `drawFinalResults` -/

namespace Renderer

/-- The text that `Renderer::drawFinalResults` draws at `winnerY`: the
announcement of the winner with their initials, or of a tie. -/
def finalResultsText (p1Initials : Str) (p1Score : Int) (p2Initials : Str)
    (p2Score : Int) : Str :=
  if p1Score > p2Score then "WINNER: ".toList ++ p1Initials ++ "!".toList
  else if p2Score > p1Score then "WINNER: ".toList ++ p2Initials ++ "!".toList
  else "IT\x27S A TIE!".toList

end Renderer

/-! ## Game.h / Game.cpp -/

/-- The `struct PlayerData`. -/
structure PlayerData where
  initials : Str
  score : Int
  deriving DecidableEq, Repr

namespace PlayerData

/-- The constructor `PlayerData::PlayerData`. -/
def new : PlayerData := { initials := [], score := 0 }

/-- The method `PlayerData::reset`. -/
def reset (_p : PlayerData) : PlayerData := { initials := [], score := 0 }

end PlayerData

/-- The data members of `class Game` that the simulation reads or writes; the
array `players[2]` is the pair of fields `players0`, `players1`, and
`highScores` is the list held by the `HighScoreManager`. -/
structure Game where
  snake : Snake
  food : Food
  highScores : List HighScoreEntry
  menu : Menu
  currentState : GameState
  running : Bool
  numPlayers : Int
  currentPlayer : Int
  players0 : PlayerData
  players1 : PlayerData
  score : Int
  gameSpeed : Int
  moveTimer : Int
  foodEaten : Int
  newHighScore : Bool
  deriving DecidableEq, Repr

namespace Game

/-- The constructor `Game::Game`, with the constructors of its members. -/
def new : Game :=
  { snake := Snake.reset
      { segments := [], direction := Direction.NONE, nextDirection := Direction.NONE,
        alive := false, hasEaten := false }
    food := { position := { x := 0, y := 0 }, pulseTimer := 0 }
    highScores := []
    menu := Menu.new
    currentState := GameState.MENU
    running := false
    numPlayers := 1
    currentPlayer := 1
    players0 := PlayerData.new
    players1 := PlayerData.new
    score := 0
    gameSpeed := Constants.INITIAL_GAME_SPEED
    moveTimer := 0
    foodEaten := 0
    newHighScore := false }

/-- The read of `players[i]`: undefined outside the two slots. -/
def playerAt (g : Game) (i : Int) : Except Fault PlayerData :=
  if i = 0 then Except.ok g.players0
  else if i = 1 then Except.ok g.players1
  else Except.error Fault.undefined

/-- The write of `players[i]`: undefined outside the two slots. -/
def setPlayerAt (g : Game) (i : Int) (p : PlayerData) : Except Fault Game :=
  if i = 0 then Except.ok { g with players0 := p }
  else if i = 1 then Except.ok { g with players1 := p }
  else Except.error Fault.undefined

/-- The method `Game::setState` (the audio and text-input calls have no effect
on the state). -/
def setState (g : Game) (newState : GameState) : Game :=
  let g := { g with currentState := newState }
  match newState with
  | GameState.MENU => { g with menu := (g.menu.reset).setNumOptions 4 }
  | GameState.PLAYER_SELECT => { g with menu := (g.menu.reset).setNumOptions 2 }
  | GameState.ENTER_INITIALS => { g with menu := g.menu.resetInitials }
  | _ => g

/-- The method `Game::resetCurrentPlayer`. -/
def resetCurrentPlayer (g : Game) (draws : Nat → Position) : Game :=
  let snake := g.snake.reset
  { g with
    snake := snake
    food := g.food.spawn snake draws
    score := 0
    gameSpeed := Constants.INITIAL_GAME_SPEED
    moveTimer := 0
    foodEaten := 0
    newHighScore := false }

/-- The method `Game::startNewGame`. -/
def startNewGame (g : Game) (draws : Nat → Position) : Game :=
  let g := { g with currentPlayer := 1 }
  setState (resetCurrentPlayer g draws) GameState.PLAYING

/-- The method `Game::handleGameOver`. -/
def handleGameOver (g : Game) (date : Str) : Except Fault Game := do
  let g := { g with snake := g.snake.setAlive false }
  let slot ← g.playerAt (g.currentPlayer - 1)
  let g ← g.setPlayerAt (g.currentPlayer - 1) { slot with score := g.score }
  let g := { g with newHighScore := HighScoreManager.isHighScore g.highScores g.score }
  let g ←
    if g.newHighScore then do
      let slot ← g.playerAt (g.currentPlayer - 1)
      Except.ok
        { g with
          highScores := (HighScoreManager.addScore g.highScores slot.initials g.score date).1 }
    else Except.ok g
  Except.ok (setState g GameState.GAME_OVER)

/-- The method `Game::switchToNextPlayer`. -/
def switchToNextPlayer (g : Game) : Game :=
  setState { g with currentPlayer := 2 } GameState.PLAYER_SWITCH

/-- The method `Game::updateMenu`. -/
def updateMenu (g : Game) (f : Frame) : Game :=
  let r := g.menu.handleInput f.input
  let g := { g with menu := r.1 }
  let g :=
    if r.2 then
      let option := g.menu.selectedOption
      if option = 0 then
        setState { g with numPlayers := 1, currentPlayer := 1, players0 := g.players0.reset }
          GameState.ENTER_INITIALS
      else if option = 1 then
        setState
          { g with
            numPlayers := 2, currentPlayer := 1, players0 := g.players0.reset
            players1 := g.players1.reset }
          GameState.ENTER_INITIALS
      else if option = 2 then setState g GameState.HIGH_SCORES
      else if option = 3 then { g with running := false }
      else g
    else g
  if g.menu.backPressed then { g with running := false } else g

/-- The method `Game::updatePlayerSelect`. -/
def updatePlayerSelect (g : Game) (f : Frame) : Game :=
  let r := g.menu.handleInput f.input
  let g := { g with menu := r.1 }
  let g :=
    if r.2 then
      let option := g.menu.selectedOption
      let g := { g with numPlayers := option + 1, currentPlayer := 1, players0 := g.players0.reset }
      let g := if g.numPlayers = 2 then { g with players1 := g.players1.reset } else g
      setState g GameState.ENTER_INITIALS
    else g
  if g.menu.backPressed then
    setState { g with menu := g.menu.clearBackPressed } GameState.MENU
  else g

/-- The method `Game::updateEnterInitials`. -/
def updateEnterInitials (g : Game) (f : Frame) : Except Fault Game := do
  let r := g.menu.handleInitialsInput f.input
  let g := { g with menu := r.1 }
  let g ←
    if r.2 then do
      let slot ← g.playerAt (g.currentPlayer - 1)
      let g ← g.setPlayerAt (g.currentPlayer - 1) { slot with initials := g.menu.initials }
      if g.numPlayers = 2 ∧ g.currentPlayer = 1 then
        Except.ok { g with currentPlayer := 2, menu := g.menu.resetInitials }
      else
        Except.ok (startNewGame { g with currentPlayer := 1 } f.draws)
    else Except.ok g
  if g.menu.backPressed then
    let g := { g with menu := g.menu.clearBackPressed }
    if g.currentPlayer = 2 then
      Except.ok { g with currentPlayer := 1, menu := g.menu.resetInitials }
    else Except.ok (setState g GameState.MENU)
  else Except.ok g

/-- The food branch of `Game::updatePlaying`, taken when the head is on the
food after a move without collision. -/
def eatFood (g : Game) (draws : Nat → Position) : Game :=
  let snake := g.snake.grow
  let score := g.score + 10
  let foodEaten := g.foodEaten + 1
  let gameSpeed :=
    if Int.tmod foodEaten Constants.SPEED_INCREASE_INTERVAL = 0 then
      if g.gameSpeed > Constants.MIN_GAME_SPEED then g.gameSpeed - 1 else g.gameSpeed
    else g.gameSpeed
  { g with
    snake := snake
    score := score
    foodEaten := foodEaten
    gameSpeed := gameSpeed
    food := g.food.spawn snake draws }

/-- The part of `Game::updatePlaying` between the pause test and the test of
the move timer: the direction input, the food animation and `moveTimer++`. -/
def tickInput (g : Game) (f : Frame) : Game :=
  let dir := f.input.currentDirection
  let g := if dir ≠ Direction.NONE then { g with snake := g.snake.setDirection dir } else g
  let g := { g with food := g.food.update }
  { g with moveTimer := g.moveTimer + 1 }

/-- The body of `if (moveTimer >= gameSpeed)` in `Game::updatePlaying`: the
move, the collision checks, then the food check.  `getHead()` on an empty body
is undefined. -/
def moveStep (g : Game) (f : Frame) : Except Fault Game :=
  let g := { g with moveTimer := 0 }
  let g := { g with snake := g.snake.move }
  if g.snake.checkWallCollision || g.snake.checkSelfCollision then
    handleGameOver g f.date
  else
    match g.snake.segments with
    | [] => Except.error Fault.undefined
    | head :: _ =>
      if head = g.food.position then Except.ok (eatFood g f.draws)
      else Except.ok g

/-- The method `Game::updatePlaying`. -/
def updatePlaying (g : Game) (f : Frame) : Except Fault Game :=
  if f.input.pausePressed then Except.ok (setState g GameState.PAUSED)
  else
    let g := tickInput g f
    if g.moveTimer ≥ g.gameSpeed then moveStep g f
    else Except.ok g

/-- The method `Game::updatePaused`. -/
def updatePaused (g : Game) (f : Frame) : Game :=
  let g :=
    if f.input.pausePressed || f.input.selectPressed then setState g GameState.PLAYING
    else g
  if f.input.backPressed then setState g GameState.MENU else g

/-- The method `Game::updateGameOver`. -/
def updateGameOver (g : Game) (f : Frame) : Game :=
  let g :=
    if f.input.selectPressed then
      if g.numPlayers = 2 ∧ g.currentPlayer = 1 then switchToNextPlayer g
      else if g.numPlayers = 2 ∧ g.currentPlayer = 2 then setState g GameState.FINAL_RESULTS
      else setState g GameState.MENU
    else g
  if f.input.backPressed then setState g GameState.MENU else g

/-- The method `Game::updateHighScores`. -/
def updateHighScores (g : Game) (f : Frame) : Game :=
  if f.input.selectPressed || f.input.backPressed then setState g GameState.MENU else g

/-- The method `Game::updatePlayerSwitch`. -/
def updatePlayerSwitch (g : Game) (f : Frame) : Game :=
  let g :=
    if f.input.selectPressed then setState (resetCurrentPlayer g f.draws) GameState.PLAYING
    else g
  if f.input.backPressed then setState g GameState.MENU else g

/-- The method `Game::updateFinalResults`. -/
def updateFinalResults (g : Game) (f : Frame) : Game :=
  if f.input.selectPressed || f.input.backPressed then setState g GameState.MENU else g

/-- The method `Game::update`: the dispatch on the current state. -/
def update (g : Game) (f : Frame) : Except Fault Game :=
  match g.currentState with
  | GameState.MENU => Except.ok (updateMenu g f)
  | GameState.PLAYER_SELECT => Except.ok (updatePlayerSelect g f)
  | GameState.ENTER_INITIALS => updateEnterInitials g f
  | GameState.PLAYING => updatePlaying g f
  | GameState.PAUSED => Except.ok (updatePaused g f)
  | GameState.GAME_OVER => Except.ok (updateGameOver g f)
  | GameState.HIGH_SCORES => Except.ok (updateHighScores g f)
  | GameState.PLAYER_SWITCH => Except.ok (updatePlayerSwitch g f)
  | GameState.FINAL_RESULTS => Except.ok (updateFinalResults g f)

/-- The part of `Game::init` that touches the simulation state: the high
scores are loaded from the content `file` of the score file. -/
def init (g : Game) (file : Option Str) : Except Fault Game := do
  let scores ← HighScoreManager.load g.highScores file
  Except.ok
    { g with
      highScores := scores
      running := true
      currentState := GameState.MENU
      menu := g.menu.setNumOptions 4 }

end Game

/-! ## Notions of the specification -/

/-- Two directions are 180 degrees apart. -/
def isOpposite (a b : Direction) : Bool :=
  match a, b with
  | Direction.UP, Direction.DOWN => true
  | Direction.DOWN, Direction.UP => true
  | Direction.LEFT, Direction.RIGHT => true
  | Direction.RIGHT, Direction.LEFT => true
  | _, _ => false

/-- The creature states reached from `reset()` by calls of `setDirection`,
`grow` and `move` in any order. -/
inductive Snake.Reachable : Snake → Prop
  | reset (s : Snake) : Snake.Reachable s.reset
  | setDirection {s : Snake} (d : Direction) :
      Snake.Reachable s → Snake.Reachable (s.setDirection d)
  | grow {s : Snake} : Snake.Reachable s → Snake.Reachable s.grow
  | move {s : Snake} : Snake.Reachable s → Snake.Reachable s.move

/-- A sequence of `setDirection` calls, in order. -/
def Snake.setDirections (s : Snake) (ds : List Direction) : Snake :=
  ds.foldl Snake.setDirection s

/-- A list of entries is in descending order of score. -/
def SortedDescending (scores : List HighScoreEntry) : Prop :=
  scores.Pairwise (fun a b => a.score ≥ b.score)

/-- The operations that change the list of a `HighScoreManager`. -/
inductive ScoreOp
  | load (file : Option Str)
  | parseJson (json : Str)
  | addScore (initials : Str) (score : Int) (date : Str)

/-- One operation on the list; a load can leave by an exception. -/
def ScoreOp.apply (scores : List HighScoreEntry) :
    ScoreOp → Except Fault (List HighScoreEntry)
  | ScoreOp.load file => HighScoreManager.load scores file
  | ScoreOp.parseJson json => HighScoreManager.parseJson scores json
  | ScoreOp.addScore initials score date =>
    Except.ok (HighScoreManager.addScore scores initials score date).1

/-- A sequence of operations, in order, from the list `scores`. -/
def ScoreOp.applyAll (scores : List HighScoreEntry) :
    List ScoreOp → Except Fault (List HighScoreEntry)
  | [] => Except.ok scores
  | op :: ops =>
    match op.apply scores with
    | Except.ok scores => ScoreOp.applyAll scores ops
    | Except.error e => Except.error e

/-- The states of one attempt: the state in which `startNewGame` and
`updatePlayerSwitch` leave the game after `resetCurrentPlayer`, and the states
that ticks in PLAYING (and in PAUSED) lead to from there. -/
inductive Game.InAttempt : Game → Prop
  | fresh (g0 : Game) (draws : Nat → Position) :
      Game.InAttempt (Game.setState (g0.resetCurrentPlayer draws) GameState.PLAYING)
  | tick {g g1 : Game} (f : Frame) :
      Game.InAttempt g →
      g.currentState = GameState.PLAYING ∨ g.currentState = GameState.PAUSED →
      g.update f = Except.ok g1 → Game.InAttempt g1

/-- The game states reached from the constructed and initialised game by any
sequence of ticks. -/
inductive Game.Reachable : Game → Prop
  | start (file : Option Str) (g : Game) :
      Game.init Game.new file = Except.ok g → Game.Reachable g
  | tick {g g1 : Game} (f : Frame) :
      Game.Reachable g → g.update f = Except.ok g1 → Game.Reachable g1

/-- A sequence of ticks, in order; it stops at the first fault. -/
def Game.updates (g : Game) : List Frame → Except Fault Game
  | [] => Except.ok g
  | f :: fs =>
    match g.update f with
    | Except.ok g1 => Game.updates g1 fs
    | Except.error e => Except.error e

/-- A cell of the grid `[0, GRID_WIDTH) x [0, GRID_HEIGHT)`. -/
def InGrid (p : Position) : Prop :=
  0 ≤ p.x ∧ p.x < 40 ∧ 0 ≤ p.y ∧ p.y < 27

/-- Two cells at Manhattan distance 1. -/
def Adjacent (a b : Position) : Prop :=
  |a.x - b.x| + |a.y - b.y| = 1

/-- A body as the game keeps it: inside the grid, without repetition, each
segment next to the following one. -/
def WellFormedBody (segments : List Position) : Prop :=
  (∀ p ∈ segments, InGrid p) ∧ segments.Nodup ∧ segments.Chain' Adjacent

/-- The player fields as `Game.h` means them: `numPlayers` is 1 or 2,
`currentPlayer` is 1, or 2 in a two-player game; and the creature has at least
its three initial segments. -/
def Game.PlayersOK (g : Game) : Prop :=
  (g.numPlayers = 1 ∨ g.numPlayers = 2) ∧
    (g.currentPlayer = 1 ∨ (g.currentPlayer = 2 ∧ g.numPlayers = 2)) ∧
    3 ≤ g.snake.segments.length

/-- The characters that `toJson` writes between the braces of one entry, for
the given initials, digits of the score and date. -/
def HighScoreManager.objectText (initials digits date : Str) : Str :=
  keyInitials ++ (':' :: ' ' :: chQuote :: (initials ++ (chQuote :: ',' :: ' ' ::
    (keyScore ++ (':' :: ' ' :: (digits ++ (',' :: ' ' ::
      (keyDate ++ (':' :: ' ' :: chQuote :: (date ++ [chQuote]))))))))))

/-- A date of the form YYYY-MM-DD, as `getCurrentDate` writes it. -/
def isDateForm : Str → Bool
  | [y1, y2, y3, y4, a, m1, m2, b, d1, d2] =>
    y1.isDigit && y2.isDigit && y3.isDigit && y4.isDigit && a == '-' &&
      m1.isDigit && m2.isDigit && b == '-' && d1.isDigit && d2.isDigit
  | _ => false

/-- An entry as the round trip of the store takes it: a positive score that is
an `int`, non-empty initials of uppercase letters and spaces, and a date of
the form YYYY-MM-DD. -/
def StorableEntry (e : HighScoreEntry) : Prop :=
  0 < e.score ∧ e.score ≤ 2 ^ 31 - 1 ∧ e.initials ≠ [] ∧
    (∀ c ∈ e.initials, c.isUpper = true ∨ c = ' ') ∧ isDateForm e.date = true

instance : DecidablePred StorableEntry := fun e =>
  inferInstanceAs (Decidable (0 < e.score ∧ e.score ≤ 2 ^ 31 - 1 ∧ e.initials ≠ [] ∧
    (∀ c ∈ e.initials, c.isUpper = true ∨ c = ' ') ∧ isDateForm e.date = true))

/-! ## Concrete states used to exercise the theorems -/

/-- The creature right after construction. -/
def Snake.fresh : Snake :=
  Snake.reset (Snake.mk [] Direction.NONE Direction.NONE false false)

/-- A sequence of draws that starts on the fresh creature and then leaves it. -/
def exampleDraws : Nat → Position :=
  fun k => if k < 2 then { x := 20 - (k : Int), y := 13 } else { x := 7, y := (k : Int) }

/-- A score file with two entries in ascending order. -/
def exampleJson : Str :=
  ("\x7b\"scores\": [\x7b\"initials\": \"AAA\", \"score\": 100, \"date\": \"2025-12-12\"\x7d, " ++
    "\x7b\"initials\": \"BBB\", \"score\": 300, \"date\": \"2025-12-13\"\x7d]\x7d").toList

/-- A load followed by two insertions, the second with a score of zero. -/
def exampleOps : List ScoreOp :=
  [ScoreOp.load (some exampleJson),
    ScoreOp.addScore "ZED4".toList 200 "2026-01-01".toList,
    ScoreOp.addScore "NO".toList 0 "2026-01-02".toList]

/-- The list that `exampleOps` produces. -/
def exampleScores : List HighScoreEntry :=
  [{ initials := "BBB".toList, score := 300, date := "2025-12-13".toList },
    { initials := "ZED".toList, score := 200, date := "2026-01-01".toList },
    { initials := "AAA".toList, score := 100, date := "2025-12-12".toList }]

/-- A frame without any input, with the draws of `exampleDraws`. -/
def quietFrame : Frame :=
  { input :=
      { currentAction := InputAction.NONE, currentDirection := Direction.NONE
        selectPressed := false, backPressed := false, pausePressed := false
        textInput := Char.ofNat 0 }
    draws := exampleDraws
    date := "2026-01-01".toList }

/-- A frame in which only select is pressed. -/
def selectFrame : Frame :=
  { quietFrame with input := { quietFrame.input with
      currentAction := InputAction.SELECT, selectPressed := true } }

/-- A game in the playing state whose creature lies at (5,5), (4,5), (3,5)
and heads right, with the food at (6,5), the move timer about to fire, four
pieces of food eaten and a score of 40. -/
def scenarioGame : Game :=
  { Game.new with
    snake :=
      { segments := [{ x := 5, y := 5 }, { x := 4, y := 5 }, { x := 3, y := 5 }]
        direction := Direction.RIGHT, nextDirection := Direction.RIGHT
        alive := true, hasEaten := false }
    food := { position := { x := 6, y := 5 }, pulseTimer := 17 }
    currentState := GameState.PLAYING
    running := true
    score := 40
    foodEaten := 4
    moveTimer := 7 }

/-- The state of `scenarioGame` one tick later. -/
def scenarioAfter : Game :=
  { scenarioGame with
    snake :=
      { segments := [{ x := 6, y := 5 }, { x := 5, y := 5 }, { x := 4, y := 5 }]
        direction := Direction.RIGHT, nextDirection := Direction.RIGHT
        alive := true, hasEaten := true }
    food := { position := { x := 20, y := 13 }, pulseTimer := 0 }
    score := 50
    foodEaten := 5
    gameSpeed := 7
    moveTimer := 0 }

/-- A game in the playing state whose creature heads right with its head in
the last column, during the turn of player 2. -/
def edgeGame : Game :=
  { scenarioGame with
    snake :=
      { segments := [{ x := 39, y := 5 }, { x := 38, y := 5 }, { x := 37, y := 5 }]
        direction := Direction.RIGHT, nextDirection := Direction.RIGHT
        alive := true, hasEaten := false }
    numPlayers := 2
    currentPlayer := 2 }

/-- A two-player game in which player 1 has just finished with a score of 50. -/
def gameOverGame : Game :=
  { scenarioGame with
    currentState := GameState.GAME_OVER
    numPlayers := 2
    currentPlayer := 1
    players0 := { initials := "ANN".toList, score := 50 }
    score := 50 }

/-- A two-player game in which player 2 has just finished with a score of 80. -/
def gameOverGame2 : Game :=
  { gameOverGame with
    currentPlayer := 2
    players1 := { initials := "BOB".toList, score := 80 }
    score := 80 }

/-- The getter `Snake::getHead`: `segments.front()`, undefined on an empty
body. -/
def Snake.getHead (s : Snake) : Except Fault Position :=
  match s.segments with
  | [] => Except.error Fault.undefined
  | head :: _ => Except.ok head

/-- The calls that the public interface of `Snake` offers on a creature. -/
inductive SnakeOp
  | reset
  | setDirection (d : Direction)
  | grow
  | move
  | setAlive (value : Bool)
  deriving DecidableEq, Repr

/-- One call on a creature. -/
def SnakeOp.apply (s : Snake) : SnakeOp → Snake
  | SnakeOp.reset => s.reset
  | SnakeOp.setDirection d => s.setDirection d
  | SnakeOp.grow => s.grow
  | SnakeOp.move => s.move
  | SnakeOp.setAlive value => s.setAlive value

/-- A sequence of calls, in order, on a creature. -/
def Snake.applyOps (s : Snake) (ops : List SnakeOp) : Snake :=
  ops.foldl SnakeOp.apply s

/-- The call `grow()` made `n` times in a row. -/
def Snake.growTimes (s : Snake) : Nat → Snake
  | 0 => s
  | n + 1 => (s.growTimes n).grow

/-- A creature that heads right and has UP buffered. -/
def Snake.turning : Snake :=
  Snake.fresh.setDirection Direction.UP

/-- The initials menu with two letters entered. -/
def Menu.twoLetters : Menu :=
  { Menu.new with initials := "AB".toList, cursorPos := 2 }

/-- A frame in which the letter C is typed and select is pressed. -/
def typeAndSelectFrame : Frame :=
  { quietFrame with input := { quietFrame.input with
      currentAction := InputAction.SELECT, selectPressed := true, textInput := 'C' } }

/-- A game in the initials entry of a single player with two letters typed. -/
def initialsGame : Game :=
  { Game.new with
    menu := Menu.twoLetters
    currentState := GameState.ENTER_INITIALS
    running := true }

/-- A full list: ten entries of the same player and day, with the scores 100,
90, ..., 10. -/
def fullScores : List HighScoreEntry :=
  [100, 90, 80, 70, 60, 50, 40, 30, 20, 10].map
    (fun score => { initials := "AAA".toList, score := score, date := "2026-01-01".toList })

/-- A score file whose only object has a score that is not a number. -/
def badScoreJson : Str :=
  ("\x7b\"scores\": [\x7b\"initials\": \"AAA\", \"score\": \"abc\", " ++
    "\"date\": \"2025-12-12\"\x7d]\x7d").toList

/-- A score file whose only object has initials and no score. -/
def noScoreJson : Str :=
  "\x7b\"scores\": [\x7b\"initials\": \"AAA\"\x7d]\x7d".toList

/-- The value of `attempts` when the loop of `Food::spawn` ends, for the loop
entered at the draw of index `i` with `n` further attempts allowed (see
`Food.spawnLoop`). -/
def Food.attemptsLoop (snake : Snake) (draws : Nat → Position) : Nat → Nat → Nat
  | 0, i => i + 1
  | n + 1, i =>
    if snake.checkCollisionAt (draws i) then Food.attemptsLoop snake draws n (i + 1)
    else i + 1

/-- The number of draws that `Food::spawn` takes. -/
def Food.spawnAttempts (snake : Snake) (draws : Nat → Position) : Nat :=
  Food.attemptsLoop snake draws (Food.maxAttempts - 1) 0

/-- A sequence of draws that stays on the head of the fresh creature. -/
def stuckDraws : Nat → Position :=
  fun _ => { x := 20, y := 13 }

/-- A frame with pause, a direction and a letter, and neither select nor
back. -/
def pauseFrame : Frame :=
  { quietFrame with input := { quietFrame.input with
      currentAction := InputAction.PAUSE, currentDirection := Direction.UP
      pausePressed := true, textInput := 'Q' } }

/-- A frame in which only back is pressed. -/
def backFrame : Frame :=
  { quietFrame with input := { quietFrame.input with
      currentAction := InputAction.BACK, backPressed := true } }

/-- A game in the playing state whose creature is about to turn left into its
own body, onto the cell (4,5) where the food lies. -/
def selfHitGame : Game :=
  { scenarioGame with
    snake :=
      { segments :=
          [{ x := 5, y := 5 }, { x := 5, y := 6 }, { x := 4, y := 6 }, { x := 4, y := 5 },
            { x := 3, y := 5 }]
        direction := Direction.UP, nextDirection := Direction.LEFT
        alive := true, hasEaten := false }
    food := { position := { x := 4, y := 5 }, pulseTimer := 17 } }

/-- A sequence of draws that starts on the cell in front of the fresh creature
and then stays in the third column. -/
def nearDraws : Nat → Position :=
  fun k => if k = 0 then { x := 21, y := 13 } else { x := 3, y := 3 + (k : Int) }

/-- A frame without any input, with the draws of `nearDraws`. -/
def nearFrame : Frame :=
  { quietFrame with draws := nearDraws }

/-- The start of an attempt with the food right in front of the creature. -/
def nearGame : Game :=
  Game.setState (Game.new.resetCurrentPlayer nearDraws) GameState.PLAYING

/-- The game `nearGame` after `k` ticks of waiting. -/
def nearGameAfter : Nat → Game
  | 0 => nearGame
  | k + 1 => (nearGameAfter k).tickInput nearFrame

/-- The game `nearGame` after the eighth tick, in which the creature moves onto
the food. -/
def afterMeal : Game :=
  { nearGame with
    snake :=
      { segments := [{ x := 21, y := 13 }, { x := 20, y := 13 }, { x := 19, y := 13 }]
        direction := Direction.RIGHT, nextDirection := Direction.RIGHT
        alive := true, hasEaten := true }
    food := { position := { x := 3, y := 4 }, pulseTimer := 0 }
    score := 10
    foodEaten := 1
    moveTimer := 0 }

/-- Seven frames without input: the ticks before the move at the initial
speed of 8. -/
def sevenNearFrames : List Frame :=
  List.replicate 7 nearFrame

/-- The game after `init()` without a score file. -/
def startedGame : Game :=
  { Game.new with running := true }

/-- The game `startedGame` after the menu entry for two players is chosen and
player 1 has entered and confirmed three letters. -/
def secondInitialsGame : Game :=
  { startedGame with
    menu := { Menu.new with selectedOption := 1 }
    currentState := GameState.ENTER_INITIALS
    numPlayers := 2
    currentPlayer := 2
    players0 := { initials := "ABC".toList, score := 0 } }

/-- A frame in which the menu cursor is moved down. -/
def downFrame : Frame :=
  { quietFrame with input := { quietFrame.input with
      currentAction := InputAction.DOWN, currentDirection := Direction.DOWN } }

/-- A frame in which the letter `c` is typed. -/
def letterFrame (c : Char) : Frame :=
  { quietFrame with input := { quietFrame.input with textInput := c } }

/-- A stored list with two equal scores, the largest `int`, a one-digit score
and initials that contain a space. -/
def storedScores : List HighScoreEntry :=
  [{ initials := "TOP".toList, score := 2147483647, date := "2026-10-31".toList },
    { initials := "ZED".toList, score := 200, date := "2026-01-01".toList },
    { initials := "A B".toList, score := 200, date := "2025-12-12".toList },
    { initials := "Q".toList, score := 7, date := "2025-01-02".toList }]

/-! ## Creature: length, direction buffer -/

theorem Snake.move_of_alive_cons (s : Snake) (front : Position) (rest : List Position)
    (hAlive : s.alive = true) (hseg : s.segments = front :: rest) :
    s.move =
      if s.hasEaten then
        { s with
          direction := s.nextDirection
          segments := Snake.step front s.nextDirection :: front :: rest
          hasEaten := false }
      else
        { s with
          direction := s.nextDirection
          segments := (Snake.step front s.nextDirection :: front :: rest).dropLast } := by
  simp [Snake.move, hAlive, hseg]

/-- C1: for an alive creature with a non-empty body, the body length after
`move()` is the length before plus one when growth was pending (`hasEaten`),
and the length before otherwise. -/
theorem Snake.move_length (s : Snake) (hAlive : s.alive = true)
    (hne : s.segments ≠ []) :
    s.move.segments.length =
      if s.hasEaten then s.segments.length + 1 else s.segments.length := by
  obtain ⟨front, rest, hseg⟩ := List.exists_cons_of_ne_nil hne
  rw [Snake.move_of_alive_cons s front rest hAlive hseg, hseg]
  by_cases hE : s.hasEaten = true <;> simp [hE]

theorem Snake.move_length_witness :
    Snake.fresh.grow.alive = true ∧ Snake.fresh.grow.segments ≠ [] ∧
      Snake.fresh.grow.move.segments.length =
        if Snake.fresh.grow.hasEaten then Snake.fresh.grow.segments.length + 1
        else Snake.fresh.grow.segments.length :=
  ⟨by decide, by decide, Snake.move_length Snake.fresh.grow (by decide) (by decide)⟩

theorem Snake.reset_eq_fresh (s : Snake) : s.reset = Snake.fresh := rfl

/-- In every reachable creature state the creature is alive, its body is not
empty, and the buffered direction is not the opposite of the committed one. -/
theorem Snake.Reachable.invariant {s : Snake} (h : Snake.Reachable s) :
    s.alive = true ∧ s.segments ≠ [] ∧ isOpposite s.nextDirection s.direction = false := by
  induction h with
  | reset s =>
    rw [Snake.reset_eq_fresh]
    decide
  | @setDirection s d _ ih =>
    obtain ⟨hA, hS, hO⟩ := ih
    unfold Snake.setDirection
    cases d <;> cases hd : s.direction <;> simp_all [isOpposite]
  | @grow s _ ih => simpa [Snake.grow] using ih
  | @move s _ ih =>
    obtain ⟨hA, hS, hO⟩ := ih
    obtain ⟨front, rest, hseg⟩ := List.exists_cons_of_ne_nil hS
    rw [Snake.move_of_alive_cons s front rest hA hseg]
    by_cases hE : s.hasEaten = true
    · simp only [hE, if_true]
      refine ⟨hA, by simp, ?_⟩
      cases s.nextDirection <;> rfl
    · simp only [hE]
      refine ⟨hA, by simp [List.dropLast], ?_⟩
      cases s.nextDirection <;> rfl

theorem Snake.setDirections_reachable {s : Snake} (h : Snake.Reachable s)
    (ds : List Direction) : Snake.Reachable (s.setDirections ds) := by
  induction ds generalizing s with
  | nil => exact h
  | cons d ds ih => exact ih (Snake.Reachable.setDirection d h)

theorem Snake.setDirection_direction (s : Snake) (d : Direction) :
    (s.setDirection d).direction = s.direction := by
  cases d <;> cases h : s.direction <;> simp [Snake.setDirection, h]

theorem Snake.setDirections_direction (s : Snake) (ds : List Direction) :
    (s.setDirections ds).direction = s.direction := by
  induction ds generalizing s with
  | nil => rfl
  | cons d ds ih =>
    show ((s.setDirection d).setDirections ds).direction = s.direction
    rw [ih, Snake.setDirection_direction]

/-- C2: in a creature state reached from `reset()` by `setDirection`, `grow`
and `move`, after any finite sequence of `setDirection` calls the committed
direction is unchanged and the buffered direction is not its 180-degree
opposite; the next `move()` commits that buffered direction, which therefore
is not the opposite of the previously committed one. -/
theorem Snake.no_reverse (s : Snake) (ds : List Direction) (h : Snake.Reachable s) :
    (s.setDirections ds).direction = s.direction ∧
      isOpposite (s.setDirections ds).nextDirection s.direction = false ∧
      (s.setDirections ds).move.direction = (s.setDirections ds).nextDirection ∧
      isOpposite (s.setDirections ds).move.direction s.direction = false := by
  have hr := Snake.setDirections_reachable h ds
  obtain ⟨hA, hS, hO⟩ := hr.invariant
  have hd := Snake.setDirections_direction s ds
  obtain ⟨front, rest, hseg⟩ := List.exists_cons_of_ne_nil hS
  have hm : (s.setDirections ds).move.direction = (s.setDirections ds).nextDirection := by
    rw [Snake.move_of_alive_cons _ front rest hA hseg]
    split <;> rfl
  rw [hd] at hO
  exact ⟨hd, hO, hm, by rw [hm]; exact hO⟩

theorem Snake.no_reverse_witness :
    Snake.Reachable Snake.fresh.move ∧
      (Snake.fresh.move.setDirections [Direction.UP, Direction.LEFT]).direction =
        Snake.fresh.move.direction ∧
      isOpposite (Snake.fresh.move.setDirections [Direction.UP, Direction.LEFT]).nextDirection
        Snake.fresh.move.direction = false ∧
      (Snake.fresh.move.setDirections [Direction.UP, Direction.LEFT]).move.direction =
        (Snake.fresh.move.setDirections [Direction.UP, Direction.LEFT]).nextDirection ∧
      isOpposite (Snake.fresh.move.setDirections [Direction.UP, Direction.LEFT]).move.direction
        Snake.fresh.move.direction = false :=
  ⟨Snake.Reachable.move (Snake.Reachable.reset _),
    Snake.no_reverse Snake.fresh.move [Direction.UP, Direction.LEFT]
      (Snake.Reachable.move (Snake.Reachable.reset _))⟩

/-! ## Food placement -/

/-- The loop of `spawn` stops at the first draw that is off the creature, when
that draw comes within the attempts left. -/
theorem Food.spawnLoop_first_free (snake : Snake) (draws : Nat → Position) :
    ∀ (n i k : Nat), i ≤ k → k ≤ i + n →
      snake.checkCollisionAt (draws k) = false →
      (∀ j, i ≤ j → j < k → snake.checkCollisionAt (draws j) = true) →
      Food.spawnLoop snake draws n i = draws k := by
  intro n
  induction n with
  | zero =>
    intro i k hik hkn _ _
    have : k = i := by omega
    subst this
    rfl
  | succ n ih =>
    intro i k hik hkn hfree hocc
    rcases Nat.eq_or_lt_of_le hik with hEq | hLt
    · subst hEq
      simp [Food.spawnLoop, hfree]
    · have hi := hocc i (Nat.le_refl i) hLt
      simp only [Food.spawnLoop, hi, if_true]
      exact ih (i + 1) k hLt (by omega) hfree
        (fun j hj hjk => hocc j (by omega) hjk)

/-- C3: with the generator as an arbitrary sequence of draws, if one of the
first 1000 draws is off the creature, then after `Food::spawn` the food
position is the first such draw, and `checkCollisionAt` is false there. -/
theorem Food.spawn_first_free (f : Food) (snake : Snake) (draws : Nat → Position)
    (h : ∃ j, j < 1000 ∧ snake.checkCollisionAt (draws j) = false) :
    ∃ k, k < 1000 ∧ snake.checkCollisionAt (draws k) = false ∧
      (∀ j, j < k → snake.checkCollisionAt (draws j) = true) ∧
      (f.spawn snake draws).position = draws k ∧
      snake.checkCollisionAt (f.spawn snake draws).position = false := by
  have hex : ∃ j, snake.checkCollisionAt (draws j) = false := by
    obtain ⟨j, _, hj⟩ := h
    exact ⟨j, hj⟩
  have hfree := Nat.find_spec hex
  have hlt : Nat.find hex < 1000 := by
    obtain ⟨j, hj, hjf⟩ := h
    exact lt_of_le_of_lt (Nat.find_min' hex hjf) hj
  have hocc : ∀ j, j < Nat.find hex → snake.checkCollisionAt (draws j) = true := by
    intro j hj
    have := Nat.find_min hex hj
    simpa using this
  have hpos : (f.spawn snake draws).position = draws (Nat.find hex) := by
    show Food.spawnLoop snake draws (Food.maxAttempts - 1) 0 = _
    exact Food.spawnLoop_first_free snake draws _ 0 _ (Nat.zero_le _)
      (by simp only [Food.maxAttempts]; omega) hfree (fun j _ hj => hocc j hj)
  exact ⟨Nat.find hex, hlt, hfree, hocc, hpos, by rw [hpos]; exact hfree⟩

theorem Food.spawn_first_free_witness :
    (∃ j, j < 1000 ∧ Snake.fresh.checkCollisionAt (exampleDraws j) = false) ∧
      ∃ k, k < 1000 ∧ Snake.fresh.checkCollisionAt (exampleDraws k) = false ∧
        (∀ j, j < k → Snake.fresh.checkCollisionAt (exampleDraws j) = true) ∧
        ((Food.mk (Position.mk 0 0) 5).spawn Snake.fresh exampleDraws).position =
          exampleDraws k ∧
        Snake.fresh.checkCollisionAt
          ((Food.mk (Position.mk 0 0) 5).spawn Snake.fresh exampleDraws).position = false :=
  ⟨⟨2, by decide, by decide⟩,
    Food.spawn_first_free (Food.mk (Position.mk 0 0) 5) Snake.fresh exampleDraws
      ⟨2, by decide, by decide⟩⟩

/-! ## High scores: order and capacity -/

theorem sortInsert_mem {α : Type} (comp : α → α → Bool) (a x : α) (l : List α) :
    x ∈ sortInsert comp a l ↔ x = a ∨ x ∈ l := by
  induction l with
  | nil => simp [sortInsert]
  | cons b l ih =>
    unfold sortInsert
    split
    · simp only [List.mem_cons, ih]
      tauto
    · simp only [List.mem_cons]

theorem sortInsert_length {α : Type} (comp : α → α → Bool) (a : α) (l : List α) :
    (sortInsert comp a l).length = l.length + 1 := by
  induction l with
  | nil => rfl
  | cons b l ih =>
    unfold sortInsert
    split
    · simp [ih]
    · simp

theorem stdSort_length {α : Type} (comp : α → α → Bool) (l : List α) :
    (stdSort comp l).length = l.length := by
  induction l with
  | nil => rfl
  | cons a l ih => simp [stdSort, sortInsert_length, ih]

theorem HighScoreManager.sortInsert_sorted (a : HighScoreEntry) (l : List HighScoreEntry)
    (h : SortedDescending l) :
    SortedDescending (sortInsert HighScoreManager.byScore a l) := by
  induction l with
  | nil => simp [sortInsert, SortedDescending]
  | cons b l ih =>
    have hb := List.pairwise_cons.mp h
    unfold sortInsert
    by_cases hc : HighScoreManager.byScore b a = true
    · simp only [hc, if_true]
      have hba : b.score > a.score := by simpa [HighScoreManager.byScore] using hc
      refine List.pairwise_cons.mpr ⟨?_, ih hb.2⟩
      intro x hx
      rcases (sortInsert_mem _ a x l).mp hx with hxa | hxl
      · subst hxa
        exact le_of_lt hba
      · exact hb.1 x hxl
    · simp only [hc]
      have hba : b.score ≤ a.score := by simpa [HighScoreManager.byScore] using hc
      refine List.pairwise_cons.mpr ⟨?_, h⟩
      intro x hx
      rcases List.mem_cons.mp hx with hxb | hxl
      · subst hxb
        exact hba
      · exact le_trans (hb.1 x hxl) hba

theorem HighScoreManager.stdSort_sorted (l : List HighScoreEntry) :
    SortedDescending (stdSort HighScoreManager.byScore l) := by
  induction l with
  | nil => exact List.Pairwise.nil
  | cons a l ih => exact HighScoreManager.sortInsert_sorted a _ ih

/-- Whatever the list, `sortAndTrim` leaves it in descending order of score
with at most `MAX_HIGH_SCORES` entries. -/
theorem HighScoreManager.sortAndTrim_invariant (l : List HighScoreEntry) :
    SortedDescending (HighScoreManager.sortAndTrim l) ∧
      (HighScoreManager.sortAndTrim l).length ≤ Constants.MAX_HIGH_SCORES := by
  unfold HighScoreManager.sortAndTrim
  by_cases hlen : (stdSort HighScoreManager.byScore l).length > Constants.MAX_HIGH_SCORES
  · simp only [hlen, if_true]
    exact ⟨List.Pairwise.sublist (List.take_sublist _ _) (HighScoreManager.stdSort_sorted l),
      by simp⟩
  · simp only [hlen]
    exact ⟨HighScoreManager.stdSort_sorted l, by simpa using hlen⟩

/-- A call of `parseJson` that returns either leaves the list as it was (the
early returns) or ends with `sortAndTrim`. -/
theorem HighScoreManager.parseJson_ok (scores l : List HighScoreEntry) (json : Str)
    (h : HighScoreManager.parseJson scores json = Except.ok l) :
    l = scores ∨ ∃ l0, l = HighScoreManager.sortAndTrim l0 := by
  unfold HighScoreManager.parseJson at h
  simp only at h
  split at h
  · left
    cases h
    rfl
  · split at h
    · left
      cases h
      rfl
    · right
      cases hsub : substr json
          (sizeAdd (findChar json HighScoreManager.chLBracket
            (find json HighScoreManager.keyScores 0)) 1)
          (sizeSub (sizeSub (findChar json HighScoreManager.chRBracket
            (findChar json HighScoreManager.chLBracket
              (find json HighScoreManager.keyScores 0)))
            (findChar json HighScoreManager.chLBracket
              (find json HighScoreManager.keyScores 0))) 1) with
      | error e =>
        rw [hsub] at h
        cases h
      | ok arrayContent =>
        rw [hsub] at h
        cases hloop : HighScoreManager.parseLoop arrayContent (arrayContent.length + 1) 0
            scores with
        | error e =>
          simp only [bind, Except.bind, hloop] at h
          cases h
        | ok l0 =>
          simp only [bind, Except.bind, hloop] at h
          cases h
          exact ⟨l0, rfl⟩

theorem ScoreOp.apply_invariant (scores l : List HighScoreEntry) (op : ScoreOp)
    (hinv : SortedDescending scores ∧ scores.length ≤ Constants.MAX_HIGH_SCORES)
    (h : op.apply scores = Except.ok l) :
    SortedDescending l ∧ l.length ≤ Constants.MAX_HIGH_SCORES := by
  have hparse : ∀ (start : List HighScoreEntry) (json : Str),
      (SortedDescending start ∧ start.length ≤ Constants.MAX_HIGH_SCORES) →
      HighScoreManager.parseJson start json = Except.ok l →
      SortedDescending l ∧ l.length ≤ Constants.MAX_HIGH_SCORES := by
    intro start json hstart hp
    rcases HighScoreManager.parseJson_ok start l json hp with hEq | ⟨l0, hl0⟩
    · rw [hEq]
      exact hstart
    · rw [hl0]
      exact HighScoreManager.sortAndTrim_invariant l0
  cases op with
  | load file =>
    cases file with
    | none =>
      simp only [ScoreOp.apply, HighScoreManager.load] at h
      cases h
      exact ⟨List.Pairwise.nil, Nat.zero_le _⟩
    | some json =>
      exact hparse [] json ⟨List.Pairwise.nil, Nat.zero_le _⟩ h
  | parseJson json => exact hparse scores json hinv h
  | addScore initials score date =>
    simp only [ScoreOp.apply, HighScoreManager.addScore] at h
    by_cases hs : score ≤ 0
    · simp only [hs, if_true] at h
      cases h
      exact hinv
    · simp only [hs] at h
      cases h
      exact HighScoreManager.sortAndTrim_invariant _

theorem ScoreOp.applyAll_invariant (ops : List ScoreOp) :
    ∀ (scores l : List HighScoreEntry),
      (SortedDescending scores ∧ scores.length ≤ Constants.MAX_HIGH_SCORES) →
      ScoreOp.applyAll scores ops = Except.ok l →
      SortedDescending l ∧ l.length ≤ Constants.MAX_HIGH_SCORES := by
  induction ops with
  | nil =>
    intro scores l hinv h
    simp only [ScoreOp.applyAll] at h
    cases h
    exact hinv
  | cons op ops ih =>
    intro scores l hinv h
    unfold ScoreOp.applyAll at h
    cases hop : op.apply scores with
    | error e =>
      rw [hop] at h
      cases h
    | ok mid =>
      rw [hop] at h
      exact ih mid l (ScoreOp.apply_invariant scores mid op hinv hop) h

/-- C4: starting from the empty list, after any sequence of loads
(`load`, `parseJson`) and `addScore` calls that return, the high-score list is
sorted in descending order of score and has at most `MAX_HIGH_SCORES` = 10
entries. -/
theorem HighScoreManager.sorted_and_bounded (ops : List ScoreOp) (l : List HighScoreEntry)
    (h : ScoreOp.applyAll [] ops = Except.ok l) :
    SortedDescending l ∧ l.length ≤ 10 :=
  ScoreOp.applyAll_invariant ops [] l ⟨List.Pairwise.nil, Nat.zero_le _⟩ h

set_option maxRecDepth 100000 in
theorem HighScoreManager.sorted_and_bounded_witness :
    ScoreOp.applyAll [] exampleOps = Except.ok exampleScores ∧
      SortedDescending exampleScores ∧ exampleScores.length ≤ 10 :=
  ⟨rfl, HighScoreManager.sorted_and_bounded exampleOps exampleScores rfl⟩

/-- A sequence of `addScore` calls always returns: only a load can leave by an
exception. -/
theorem ScoreOp.applyAll_addScore_ok (adds : List (Str × Int × Str))
    (scores : List HighScoreEntry) :
    ∃ l, ScoreOp.applyAll scores
      (adds.map (fun a => ScoreOp.addScore a.1 a.2.1 a.2.2)) = Except.ok l := by
  induction adds generalizing scores with
  | nil => exact ⟨scores, rfl⟩
  | cons a adds ih =>
    simp only [List.map_cons, ScoreOp.applyAll, ScoreOp.apply]
    exact ih _

/-- C6: for every high-score list and every score at most 0, `isHighScore` is
false, and `addScore` returns 0 and leaves the list unchanged. -/
theorem HighScoreManager.nonpositive_rejected (scores : List HighScoreEntry)
    (initials date : Str) (score : Int) (h : score ≤ 0) :
    HighScoreManager.isHighScore scores score = false ∧
      (HighScoreManager.addScore scores initials score date).2 = 0 ∧
      (HighScoreManager.addScore scores initials score date).1 = scores := by
  have hhigh : HighScoreManager.isHighScore scores score = false := by
    unfold HighScoreManager.isHighScore
    rw [if_pos h]
  have hadd : HighScoreManager.addScore scores initials score date = (scores, 0) := by
    unfold HighScoreManager.addScore
    rw [if_pos h]
  rw [hadd]
  exact ⟨hhigh, rfl, rfl⟩

theorem HighScoreManager.nonpositive_rejected_witness :
    (-5 : Int) ≤ 0 ∧
      HighScoreManager.isHighScore exampleScores (-5) = false ∧
      (HighScoreManager.addScore exampleScores "ABC".toList (-5) "2026-01-01".toList).2 = 0 ∧
      (HighScoreManager.addScore exampleScores "ABC".toList (-5) "2026-01-01".toList).1 =
        exampleScores :=
  ⟨by decide,
    HighScoreManager.nonpositive_rejected exampleScores "ABC".toList "2026-01-01".toList (-5)
      (by decide)⟩

/-! ## The playing state -/

theorem Game.setState_fields (g : Game) (st : GameState) :
    (g.setState st).currentState = st ∧ (g.setState st).snake = g.snake ∧
      (g.setState st).food = g.food ∧ (g.setState st).score = g.score ∧
      (g.setState st).gameSpeed = g.gameSpeed ∧ (g.setState st).moveTimer = g.moveTimer ∧
      (g.setState st).foodEaten = g.foodEaten ∧
      (g.setState st).currentPlayer = g.currentPlayer ∧
      (g.setState st).numPlayers = g.numPlayers ∧
      (g.setState st).players0 = g.players0 ∧ (g.setState st).players1 = g.players1 ∧
      (g.setState st).highScores = g.highScores ∧
      (g.setState st).newHighScore = g.newHighScore ∧
      (g.setState st).running = g.running := by
  cases st <;> simp [Game.setState]

/-- The three outcomes of `handleGameOver`: the score goes to the slot of
player 1 or of player 2, and any other `currentPlayer` indexes `players`
out of its bounds. -/
theorem Game.handleGameOver_eq (g : Game) (date : Str) :
    g.handleGameOver date =
      if g.currentPlayer = 1 then
        Except.ok (Game.setState
          { g with
            snake := g.snake.setAlive false
            players0 := { g.players0 with score := g.score }
            newHighScore := HighScoreManager.isHighScore g.highScores g.score
            highScores :=
              if HighScoreManager.isHighScore g.highScores g.score then
                (HighScoreManager.addScore g.highScores g.players0.initials g.score date).1
              else g.highScores }
          GameState.GAME_OVER)
      else if g.currentPlayer = 2 then
        Except.ok (Game.setState
          { g with
            snake := g.snake.setAlive false
            players1 := { g.players1 with score := g.score }
            newHighScore := HighScoreManager.isHighScore g.highScores g.score
            highScores :=
              if HighScoreManager.isHighScore g.highScores g.score then
                (HighScoreManager.addScore g.highScores g.players1.initials g.score date).1
              else g.highScores }
          GameState.GAME_OVER)
      else Except.error Fault.undefined := by
  by_cases h1 : g.currentPlayer = 1
  · by_cases hs : HighScoreManager.isHighScore g.highScores g.score = true <;>
      simp [Game.handleGameOver, Game.playerAt, Game.setPlayerAt, h1, hs, bind, Except.bind]
  · by_cases h2 : g.currentPlayer = 2
    · by_cases hs : HighScoreManager.isHighScore g.highScores g.score = true <;>
        simp [Game.handleGameOver, Game.playerAt, Game.setPlayerAt, h2, hs, bind, Except.bind]
    · have h3 : ¬ g.currentPlayer - 1 = 0 := by omega
      have h4 : ¬ g.currentPlayer - 1 = 1 := by omega
      simp [Game.handleGameOver, Game.playerAt, Game.setPlayerAt, h1, h2, h3, h4, bind,
        Except.bind]

theorem Game.handleGameOver_gameSpeed (g g1 : Game) (date : Str)
    (h : g.handleGameOver date = Except.ok g1) : g1.gameSpeed = g.gameSpeed := by
  rw [Game.handleGameOver_eq] at h
  split at h
  · cases h
    exact (Game.setState_fields _ _).2.2.2.2.1
  · split at h
    · cases h
      exact (Game.setState_fields _ _).2.2.2.2.1
    · cases h

theorem Game.tickInput_gameSpeed (g : Game) (f : Frame) :
    (g.tickInput f).gameSpeed = g.gameSpeed := by
  unfold Game.tickInput
  by_cases hd : f.input.currentDirection ≠ Direction.NONE <;> simp [hd]

theorem Game.eatFood_gameSpeed (g : Game) (draws : Nat → Position)
    (h : Constants.MIN_GAME_SPEED ≤ g.gameSpeed) :
    (g.eatFood draws).gameSpeed ≤ g.gameSpeed ∧
      Constants.MIN_GAME_SPEED ≤ (g.eatFood draws).gameSpeed := by
  simp only [Game.eatFood]
  split
  · split
    · constructor <;> omega
    · exact ⟨le_refl _, h⟩
  · exact ⟨le_refl _, h⟩

theorem Game.moveStep_gameSpeed (g g1 : Game) (f : Frame)
    (h : Constants.MIN_GAME_SPEED ≤ g.gameSpeed) (hstep : g.moveStep f = Except.ok g1) :
    g1.gameSpeed ≤ g.gameSpeed ∧ Constants.MIN_GAME_SPEED ≤ g1.gameSpeed := by
  unfold Game.moveStep at hstep
  simp only at hstep
  split at hstep
  · have := Game.handleGameOver_gameSpeed _ _ _ hstep
    simp only at this
    rw [this]
    exact ⟨le_refl _, h⟩
  · split at hstep
    · cases hstep
    · split at hstep
      · cases hstep
        exact Game.eatFood_gameSpeed _ _ h
      · cases hstep
        exact ⟨le_refl _, h⟩

theorem Game.moveStep_defined (g : Game) (f : Frame)
    (hp : g.currentPlayer = 1 ∨ g.currentPlayer = 2) (hne : g.snake.segments ≠ []) :
    ∃ g1, g.moveStep f = Except.ok g1 := by
  have hmove : g.snake.move.segments ≠ [] := by
    obtain ⟨front, rest, hseg⟩ := List.exists_cons_of_ne_nil hne
    unfold Snake.move
    split
    · exact hne
    · simp only [hseg]
      split <;> simp [List.dropLast]
  unfold Game.moveStep
  simp only
  split
  · rw [Game.handleGameOver_eq]
    rcases hp with h1 | h2
    · simp [h1]
    · simp [h2]
  · split
    · rename_i hnil
      exact absurd hnil hmove
    · split <;> exact ⟨_, rfl⟩

/-- C5: for every tick of the playing state (`Game::updatePlaying`) started
with `MIN_GAME_SPEED` = 3 ≤ `gameSpeed`, the tick is defined whenever
`currentPlayer` is 1 or 2 and the body is not empty, and the `gameSpeed` after
the tick is at most the `gameSpeed` before it and still at least 3. -/
theorem Game.updatePlaying_gameSpeed (g : Game) (f : Frame) (h : 3 ≤ g.gameSpeed) :
    ((g.currentPlayer = 1 ∨ g.currentPlayer = 2) → g.snake.segments ≠ [] →
        ∃ g1, g.updatePlaying f = Except.ok g1) ∧
      ∀ g1, g.updatePlaying f = Except.ok g1 →
        g1.gameSpeed ≤ g.gameSpeed ∧ 3 ≤ g1.gameSpeed ∧ 0 < g1.gameSpeed := by
  have key : ∀ g1, g.updatePlaying f = Except.ok g1 →
      g1.gameSpeed ≤ g.gameSpeed ∧ Constants.MIN_GAME_SPEED ≤ g1.gameSpeed := by
    intro g1 hup
    unfold Game.updatePlaying at hup
    split at hup
    · cases hup
      rw [(Game.setState_fields _ _).2.2.2.2.1]
      exact ⟨le_refl _, h⟩
    · simp only at hup
      split at hup
      · have := Game.moveStep_gameSpeed (g.tickInput f) g1 f
          (by rw [Game.tickInput_gameSpeed]; exact h) hup
        rw [Game.tickInput_gameSpeed] at this
        exact this
      · cases hup
        rw [Game.tickInput_gameSpeed]
        exact ⟨le_refl _, h⟩
  constructor
  · intro hp hne
    unfold Game.updatePlaying
    split
    · exact ⟨_, rfl⟩
    · simp only
      split
      · apply Game.moveStep_defined _ _
        · unfold Game.tickInput
          by_cases hd : f.input.currentDirection ≠ Direction.NONE <;> simpa [hd] using hp
        · unfold Game.tickInput
          by_cases hd : f.input.currentDirection ≠ Direction.NONE
          · simp only [hd, if_true]
            cases hdir : f.input.currentDirection <;> cases hsd : g.snake.direction <;>
              simp [Snake.setDirection, hdir, hsd, hne]
          · simpa [hd] using hne
      · exact ⟨_, rfl⟩
  · intro g1 hup
    have := key g1 hup
    have h3 : Constants.MIN_GAME_SPEED = 3 := rfl
    rw [h3] at this
    exact ⟨this.1, this.2, by omega⟩

theorem Game.updatePlaying_gameSpeed_witness :
    (3 : Int) ≤ scenarioGame.gameSpeed ∧
      scenarioGame.updatePlaying quietFrame = Except.ok scenarioAfter ∧
      scenarioAfter.gameSpeed ≤ scenarioGame.gameSpeed ∧ 3 ≤ scenarioAfter.gameSpeed ∧
      0 < scenarioAfter.gameSpeed :=
  ⟨by decide, rfl,
    (Game.updatePlaying_gameSpeed scenarioGame quietFrame (by decide)).2 scenarioAfter rfl⟩

/-- Counterexample to C7 as stated: in the scenario the body after the tick
has three segments, (6,5), (5,5), (4,5), not the four of the claim; the growth
is only pending. -/
theorem Game.scenario_body_not_grown :
    scenarioGame.currentState = GameState.PLAYING ∧
      scenarioGame.snake =
        { segments := [{ x := 5, y := 5 }, { x := 4, y := 5 }, { x := 3, y := 5 }]
          direction := Direction.RIGHT, nextDirection := Direction.RIGHT
          alive := true, hasEaten := false } ∧
      scenarioGame.food.position = { x := 6, y := 5 } ∧
      quietFrame.input.pausePressed = false ∧
      quietFrame.input.currentDirection = Direction.NONE ∧
      scenarioGame.moveTimer + 1 ≥ scenarioGame.gameSpeed ∧
      scenarioGame.update quietFrame = Except.ok scenarioAfter ∧
      scenarioAfter.snake.segments = [{ x := 6, y := 5 }, { x := 5, y := 5 }, { x := 4, y := 5 }] ∧
      scenarioAfter.snake.segments ≠
        [{ x := 6, y := 5 }, { x := 5, y := 5 }, { x := 4, y := 5 }, { x := 3, y := 5 }] ∧
      scenarioAfter.snake.segments.length ≠ 4 :=
  ⟨rfl, rfl, rfl, rfl, rfl, by decide, rfl, rfl, by decide, by decide⟩

/-- C7 (amended): when an alive creature with body (5,5), (4,5), (3,5),
committed and buffered direction RIGHT and no growth pending takes one
simulation step of the PLAYING state (`moveTimer + 1 ≥ gameSpeed`, no pause, no
direction input) with the food at (6,5), then after that tick the body is
(6,5), (5,5), (4,5) (length 3) with growth pending, the score has increased by
10 and the food has been respawned against the new body; the body reaches
length 4, as (7,5), (6,5), (5,5), (4,5), on the following move. -/
theorem Game.scenario_eat (g : Game) (f : Frame)
    (hstate : g.currentState = GameState.PLAYING)
    (hsnake : g.snake =
      { segments := [{ x := 5, y := 5 }, { x := 4, y := 5 }, { x := 3, y := 5 }]
        direction := Direction.RIGHT, nextDirection := Direction.RIGHT
        alive := true, hasEaten := false })
    (hfood : g.food.position = { x := 6, y := 5 })
    (hpause : f.input.pausePressed = false)
    (hdir : f.input.currentDirection = Direction.NONE)
    (htimer : g.moveTimer + 1 ≥ g.gameSpeed) :
    ∃ g1, g.update f = Except.ok g1 ∧
      g1.currentState = GameState.PLAYING ∧
      g1.snake.segments = [{ x := 6, y := 5 }, { x := 5, y := 5 }, { x := 4, y := 5 }] ∧
      g1.snake.segments.length = 3 ∧
      g1.snake.hasEaten = true ∧
      g1.score = g.score + 10 ∧
      g1.food = g.food.update.spawn g1.snake f.draws ∧
      g1.snake.move.segments =
        [{ x := 7, y := 5 }, { x := 6, y := 5 }, { x := 5, y := 5 }, { x := 4, y := 5 }] := by
  have hpos : (g.food.update).position = { x := 6, y := 5 } := by
    simpa [Food.update] using hfood
  refine ⟨Game.eatFood
    { g.tickInput f with moveTimer := 0, snake := (g.tickInput f).snake.move } f.draws, ?_, ?_⟩
  · have ht : (g.tickInput f).moveTimer ≥ (g.tickInput f).gameSpeed := by
      simpa [Game.tickInput, hdir] using htimer
    simp only [Game.update, hstate, Game.updatePlaying, hpause, ht, if_true, Game.moveStep]
    simp [Game.tickInput, hdir, hsnake, hpos, Snake.move, Snake.step, Snake.checkWallCollision,
      Snake.checkSelfCollision, Constants.GRID_WIDTH, Constants.GRID_HEIGHT,
      Constants.WINDOW_WIDTH, Constants.WINDOW_HEIGHT, Constants.CELL_SIZE]
  · simp [Game.eatFood, Game.tickInput, hdir, hsnake, hstate, Snake.move, Snake.step,
      Snake.grow, Food.spawn]

theorem Game.scenario_eat_witness :
    scenarioGame.currentState = GameState.PLAYING ∧
      scenarioGame.food.position = { x := 6, y := 5 } ∧
      scenarioGame.moveTimer + 1 ≥ scenarioGame.gameSpeed ∧
      ∃ g1, scenarioGame.update quietFrame = Except.ok g1 ∧
        g1.currentState = GameState.PLAYING ∧
        g1.snake.segments = [{ x := 6, y := 5 }, { x := 5, y := 5 }, { x := 4, y := 5 }] ∧
        g1.snake.segments.length = 3 ∧
        g1.snake.hasEaten = true ∧
        g1.score = scenarioGame.score + 10 ∧
        g1.food = scenarioGame.food.update.spawn g1.snake quietFrame.draws ∧
        g1.snake.move.segments =
          [{ x := 7, y := 5 }, { x := 6, y := 5 }, { x := 5, y := 5 }, { x := 4, y := 5 }] :=
  ⟨rfl, rfl, by decide,
    Game.scenario_eat scenarioGame quietFrame rfl rfl rfl rfl rfl (by decide)⟩

/-- C8: in a PLAYING state whose alive creature has its head in the last
column (x = `GRID_WIDTH` - 1 = 39) with buffered direction RIGHT, whatever the
committed direction (so also when it is RIGHT), and `currentPlayer` 1 or 2, a
tick with no pause, no direction input and `moveTimer + 1 ≥ gameSpeed` leads to
GAME_OVER with the creature not alive and the current score, unchanged,
recorded in `players[currentPlayer - 1]`. -/
theorem Game.right_edge_game_over (g : Game) (f : Frame) (head : Position)
    (rest : List Position)
    (hstate : g.currentState = GameState.PLAYING)
    (halive : g.snake.alive = true)
    (hseg : g.snake.segments = head :: rest)
    (hx : head.x = 39)
    (hnd : g.snake.nextDirection = Direction.RIGHT)
    (hpause : f.input.pausePressed = false)
    (hdir : f.input.currentDirection = Direction.NONE)
    (htimer : g.moveTimer + 1 ≥ g.gameSpeed)
    (hp : g.currentPlayer = 1 ∨ g.currentPlayer = 2) :
    ∃ g1 slot, g.update f = Except.ok g1 ∧
      g1.currentState = GameState.GAME_OVER ∧
      g1.snake.alive = false ∧
      g1.currentPlayer = g.currentPlayer ∧
      g1.score = g.score ∧
      g1.playerAt (g1.currentPlayer - 1) = Except.ok slot ∧
      slot.score = g1.score := by
  have ht : (g.tickInput f).moveTimer ≥ (g.tickInput f).gameSpeed := by
    simpa [Game.tickInput, hdir] using htimer
  have hsnake : (g.tickInput f).snake = g.snake := by
    simp [Game.tickInput, hdir]
  have hmove : g.snake.move.segments =
      if g.snake.hasEaten then { x := 40, y := head.y } :: head :: rest
      else ({ x := 40, y := head.y } :: head :: rest).dropLast := by
    rw [Snake.move_of_alive_cons g.snake head rest halive hseg, hnd]
    by_cases hE : g.snake.hasEaten = true <;> simp [hE, Snake.step, hx]
  have hwall : g.snake.move.checkWallCollision = true := by
    unfold Snake.checkWallCollision
    rw [hmove]
    by_cases hE : g.snake.hasEaten = true <;>
      simp [hE, List.dropLast, Constants.GRID_WIDTH, Constants.WINDOW_WIDTH,
        Constants.CELL_SIZE]
  have hup : g.update f =
      Game.handleGameOver
        { g.tickInput f with moveTimer := 0, snake := g.snake.move } f.date := by
    simp only [Game.update, hstate, Game.updatePlaying, hpause, ht, if_true, Game.moveStep,
      hsnake, hwall, Bool.true_or]
    simp
  have hcp : (g.tickInput f).currentPlayer = g.currentPlayer := by
    simp [Game.tickInput, hdir]
  have hscore : (g.tickInput f).score = g.score := by
    simp [Game.tickInput, hdir]
  rw [hup, Game.handleGameOver_eq]
  rcases hp with h1 | h2
  · simp [hcp, h1, hscore, Game.setState, Game.playerAt, Snake.setAlive]
  · simp [hcp, h2, hscore, Game.setState, Game.playerAt, Snake.setAlive]

theorem Game.right_edge_game_over_witness :
    edgeGame.currentState = GameState.PLAYING ∧ edgeGame.snake.alive = true ∧
      edgeGame.snake.segments =
        { x := 39, y := 5 } :: [{ x := 38, y := 5 }, { x := 37, y := 5 }] ∧
      edgeGame.snake.direction = Direction.RIGHT ∧
      edgeGame.snake.nextDirection = Direction.RIGHT ∧
      edgeGame.moveTimer + 1 ≥ edgeGame.gameSpeed ∧
      ∃ g1 slot, edgeGame.update quietFrame = Except.ok g1 ∧
        g1.currentState = GameState.GAME_OVER ∧
        g1.snake.alive = false ∧
        g1.currentPlayer = edgeGame.currentPlayer ∧
        g1.score = edgeGame.score ∧
        g1.playerAt (g1.currentPlayer - 1) = Except.ok slot ∧
        slot.score = g1.score :=
  ⟨rfl, rfl, rfl, rfl, rfl, by decide,
    Game.right_edge_game_over edgeGame quietFrame { x := 39, y := 5 }
      [{ x := 38, y := 5 }, { x := 37, y := 5 }] rfl rfl rfl rfl rfl rfl rfl (by decide)
      (Or.inr rfl)⟩

/-! ## Two-player turn taking -/

/-- C9: in a two-player session, from GAME_OVER with `currentPlayer` = 1 a
confirm (select, no back) gives PLAYER_SWITCH with `currentPlayer` = 2; a
further confirm gives PLAYING with score 0, `foodEaten` 0, `moveTimer` 0,
`gameSpeed` = `INITIAL_GAME_SPEED`, the reset creature, fresh food, and the
score recorded for player 1 unchanged; and from GAME_OVER with `currentPlayer`
= 2 (the state `gB`) a confirm gives FINAL_RESULTS with both recorded scores
unchanged. -/
theorem Game.two_player_turns (g gB : Game) (f1 f2 : Frame)
    (hstate : g.currentState = GameState.GAME_OVER)
    (hnum : g.numPlayers = 2) (hcp : g.currentPlayer = 1)
    (hstateB : gB.currentState = GameState.GAME_OVER)
    (hnumB : gB.numPlayers = 2) (hcpB : gB.currentPlayer = 2)
    (hsel1 : f1.input.selectPressed = true) (hback1 : f1.input.backPressed = false)
    (hsel2 : f2.input.selectPressed = true) (hback2 : f2.input.backPressed = false) :
    (∃ g1 g2, g.update f1 = Except.ok g1 ∧
        g1.currentState = GameState.PLAYER_SWITCH ∧ g1.currentPlayer = 2 ∧
        g1.players0.score = g.players0.score ∧
        g1.update f2 = Except.ok g2 ∧
        g2.currentState = GameState.PLAYING ∧ g2.currentPlayer = 2 ∧
        g2.score = 0 ∧ g2.foodEaten = 0 ∧ g2.moveTimer = 0 ∧
        g2.gameSpeed = Constants.INITIAL_GAME_SPEED ∧
        g2.snake = g.snake.reset ∧
        g2.food = g.food.spawn g.snake.reset f2.draws ∧
        g2.players0.score = g.players0.score) ∧
      (∃ g1, gB.update f1 = Except.ok g1 ∧
        g1.currentState = GameState.FINAL_RESULTS ∧
        g1.players0.score = gB.players0.score ∧
        g1.players1.score = gB.players1.score) := by
  constructor
  · refine ⟨Game.switchToNextPlayer g,
      Game.setState (Game.resetCurrentPlayer (Game.switchToNextPlayer g) f2.draws)
        GameState.PLAYING, ?_, rfl, rfl, rfl, ?_, rfl, rfl, rfl, rfl, rfl, rfl, rfl, rfl, rfl⟩
    · simp [Game.update, hstate, Game.updateGameOver, hsel1, hback1, hnum, hcp]
    · simp [Game.update, Game.switchToNextPlayer, Game.setState, Game.updatePlayerSwitch,
        hsel2, hback2]
  · refine ⟨Game.setState gB GameState.FINAL_RESULTS, ?_, rfl, rfl, rfl⟩
    simp [Game.update, hstateB, Game.updateGameOver, hsel1, hback1, hnumB, hcpB]

theorem Game.two_player_turns_witness :
    gameOverGame.currentState = GameState.GAME_OVER ∧ gameOverGame.numPlayers = 2 ∧
      gameOverGame.currentPlayer = 1 ∧ gameOverGame.players0.score = 50 ∧
      gameOverGame2.currentState = GameState.GAME_OVER ∧ gameOverGame2.numPlayers = 2 ∧
      gameOverGame2.currentPlayer = 2 ∧ gameOverGame2.players1.score = 80 ∧
      (∃ g1 g2, gameOverGame.update selectFrame = Except.ok g1 ∧
        g1.currentState = GameState.PLAYER_SWITCH ∧ g1.currentPlayer = 2 ∧
        g1.players0.score = gameOverGame.players0.score ∧
        g1.update selectFrame = Except.ok g2 ∧
        g2.currentState = GameState.PLAYING ∧ g2.currentPlayer = 2 ∧
        g2.score = 0 ∧ g2.foodEaten = 0 ∧ g2.moveTimer = 0 ∧
        g2.gameSpeed = Constants.INITIAL_GAME_SPEED ∧
        g2.snake = gameOverGame.snake.reset ∧
        g2.food = gameOverGame.food.spawn gameOverGame.snake.reset selectFrame.draws ∧
        g2.players0.score = gameOverGame.players0.score) ∧
      (∃ g1, gameOverGame2.update selectFrame = Except.ok g1 ∧
        g1.currentState = GameState.FINAL_RESULTS ∧
        g1.players0.score = gameOverGame2.players0.score ∧
        g1.players1.score = gameOverGame2.players1.score) :=
  ⟨rfl, rfl, rfl, rfl, rfl, rfl, rfl, rfl,
    Game.two_player_turns gameOverGame gameOverGame2 selectFrame selectFrame
      rfl rfl rfl rfl rfl rfl rfl rfl rfl rfl⟩

/-! ## Final results -/

theorem Renderer.winner_ne_tie (i : Str) :
    "WINNER: ".toList ++ i ++ "!".toList ≠ "IT\x27S A TIE!".toList := by
  intro h
  simp at h

theorem Renderer.winner_inj (i j : Str)
    (h : "WINNER: ".toList ++ i ++ "!".toList = "WINNER: ".toList ++ j ++ "!".toList) :
    i = j := by
  simpa using h

theorem Renderer.finalResultsText_gt (i1 i2 : Str) (p1 p2 : Int) (h : p1 > p2) :
    Renderer.finalResultsText i1 p1 i2 p2 = "WINNER: ".toList ++ i1 ++ "!".toList := by
  unfold Renderer.finalResultsText
  rw [if_pos h]

theorem Renderer.finalResultsText_lt (i1 i2 : Str) (p1 p2 : Int) (h : p2 > p1) :
    Renderer.finalResultsText i1 p1 i2 p2 = "WINNER: ".toList ++ i2 ++ "!".toList := by
  unfold Renderer.finalResultsText
  rw [if_neg (by omega), if_pos h]

theorem Renderer.finalResultsText_eq (i1 i2 : Str) (p1 p2 : Int) (h : p1 = p2) :
    Renderer.finalResultsText i1 p1 i2 p2 = "IT\x27S A TIE!".toList := by
  unfold Renderer.finalResultsText
  rw [if_neg (by omega), if_neg (by omega)]

/-- C10: for every pair of final scores, the text that `drawFinalResults` draws
as the announcement is WINNER with the initials of player 1, whatever the
initials are, iff `p1 > p2`; it is WINNER with the initials of player 2 iff
`p2 > p1`; and it is the tie text iff `p1 = p2`. For given initials the text
is the one of player 1 iff `p1 > p2`, or `p2 > p1` and both players have the
same initials, and likewise for player 2. With 50 against 80 the text is
WINNER with the initials of player 2. -/
theorem Renderer.finalResults_winner (p1 p2 : Int) :
    ((∀ i1 i2 : Str, Renderer.finalResultsText i1 p1 i2 p2
        = "WINNER: ".toList ++ i1 ++ "!".toList) ↔ p1 > p2) ∧
      ((∀ i1 i2 : Str, Renderer.finalResultsText i1 p1 i2 p2
        = "WINNER: ".toList ++ i2 ++ "!".toList) ↔ p2 > p1) ∧
      (∀ i1 i2 : Str,
        (Renderer.finalResultsText i1 p1 i2 p2 = "IT\x27S A TIE!".toList ↔ p1 = p2) ∧
        (Renderer.finalResultsText i1 p1 i2 p2 = "WINNER: ".toList ++ i1 ++ "!".toList
          ↔ p1 > p2 ∨ (p2 > p1 ∧ i2 = i1)) ∧
        (Renderer.finalResultsText i1 p1 i2 p2 = "WINNER: ".toList ++ i2 ++ "!".toList
          ↔ p2 > p1 ∨ (p1 > p2 ∧ i1 = i2))) ∧
      (∀ i1 i2 : Str, Renderer.finalResultsText i1 50 i2 80
        = "WINNER: ".toList ++ i2 ++ "!".toList) := by
  have hpoint : ∀ i1 i2 : Str,
      (Renderer.finalResultsText i1 p1 i2 p2 = "IT\x27S A TIE!".toList ↔ p1 = p2) ∧
      (Renderer.finalResultsText i1 p1 i2 p2 = "WINNER: ".toList ++ i1 ++ "!".toList
        ↔ p1 > p2 ∨ (p2 > p1 ∧ i2 = i1)) ∧
      (Renderer.finalResultsText i1 p1 i2 p2 = "WINNER: ".toList ++ i2 ++ "!".toList
        ↔ p2 > p1 ∨ (p1 > p2 ∧ i1 = i2)) := by
    intro i1 i2
    rcases lt_trichotomy p1 p2 with hlt | heq | hgt
    · rw [Renderer.finalResultsText_lt i1 i2 p1 p2 hlt]
      refine ⟨⟨fun h => absurd h (Renderer.winner_ne_tie i2), fun h => by omega⟩,
        ⟨fun h => Or.inr ⟨hlt, Renderer.winner_inj i2 i1 h⟩, fun h => ?_⟩,
        ⟨fun _ => Or.inl hlt, fun _ => rfl⟩⟩
      rcases h with h | h
      · omega
      · rw [h.2]
    · rw [Renderer.finalResultsText_eq i1 i2 p1 p2 heq]
      refine ⟨⟨fun _ => heq, fun _ => rfl⟩,
        ⟨fun h => absurd h.symm (Renderer.winner_ne_tie i1), fun h => ?_⟩,
        ⟨fun h => absurd h.symm (Renderer.winner_ne_tie i2), fun h => ?_⟩⟩
      · rcases h with h | h <;> omega
      · rcases h with h | h <;> omega
    · rw [Renderer.finalResultsText_gt i1 i2 p1 p2 hgt]
      refine ⟨⟨fun h => absurd h (Renderer.winner_ne_tie i1), fun h => by omega⟩,
        ⟨fun _ => Or.inl hgt, fun _ => rfl⟩,
        ⟨fun h => Or.inr ⟨hgt, Renderer.winner_inj i1 i2 h⟩, fun h => ?_⟩⟩
      rcases h with h | h
      · omega
      · rw [h.2]
  refine ⟨⟨fun h => ?_, fun h i1 i2 => Renderer.finalResultsText_gt i1 i2 p1 p2 h⟩,
    ⟨fun h => ?_, fun h i1 i2 => Renderer.finalResultsText_lt i1 i2 p1 p2 h⟩, hpoint,
    fun i1 i2 => Renderer.finalResultsText_lt i1 i2 50 80 (by decide)⟩
  · rcases ((hpoint [] ['A']).2.1).1 (h [] ['A']) with hgt | hlt
    · exact hgt
    · exact absurd hlt.2 (by decide)
  · rcases ((hpoint [] ['A']).2.2).1 (h [] ['A']) with hlt | hgt
    · exact hlt
    · exact absurd hgt.2 (by decide)

theorem Renderer.finalResults_winner_witness :
    Renderer.finalResultsText "AAA".toList 50 "BBB".toList 80 = "WINNER: BBB!".toList ∧
      Renderer.finalResultsText "AAA".toList 80 "BBB".toList 50 = "WINNER: AAA!".toList ∧
      Renderer.finalResultsText "AAA".toList 70 "BBB".toList 70 = "IT\x27S A TIE!".toList :=
  ⟨(Renderer.finalResults_winner 50 80).2.2.2 "AAA".toList "BBB".toList,
    ((Renderer.finalResults_winner 80 50).1.2 (by decide)) "AAA".toList "BBB".toList,
    (((Renderer.finalResults_winner 70 70).2.2.1 "AAA".toList "BBB".toList).1).2 rfl⟩

/-! ## The parser always has enough fuel -/

theorem Except.bind_ne_fuel {α β : Type} (x : Except Fault α) (k : α → Except Fault β)
    (hx : x ≠ Except.error Fault.fuel) (hk : ∀ a, k a ≠ Except.error Fault.fuel) :
    (x >>= k) ≠ Except.error Fault.fuel := by
  cases x with
  | error e =>
    intro h
    apply hx
    simpa [bind, Except.bind] using h
  | ok a => exact hk a

theorem substr_ne_fuel (s : Str) (pos len : Nat) :
    substr s pos len ≠ Except.error Fault.fuel := by
  unfold substr
  split <;> simp

theorem stoi_ne_fuel (s : Str) : stoi s ≠ Except.error Fault.fuel := by
  unfold stoi
  simp only
  split_ifs <;> simp

theorem HighScoreManager.quotedValue_ne_fuel (objContent : Str) (start : Nat) :
    HighScoreManager.quotedValue objContent start ≠ Except.error Fault.fuel := by
  unfold HighScoreManager.quotedValue
  simp only
  split
  · intro h
    cases hs : substr objContent
        (sizeAdd (findChar objContent HighScoreManager.chQuote start) 1)
        (sizeSub (sizeSub (findChar objContent HighScoreManager.chQuote
          (sizeAdd (findChar objContent HighScoreManager.chQuote start) 1))
          (findChar objContent HighScoreManager.chQuote start)) 1) with
    | error e =>
      rw [hs] at h
      simp only [Except.map] at h
      cases h
      exact substr_ne_fuel _ _ _ hs
    | ok v =>
      rw [hs] at h
      simp [Except.map] at h
  · simp

theorem HighScoreManager.parseObject_ne_fuel (objContent : Str) :
    HighScoreManager.parseObject objContent ≠ Except.error Fault.fuel := by
  unfold HighScoreManager.parseObject
  apply Except.bind_ne_fuel
  · unfold HighScoreManager.parseInitialsField
    simp only
    split
    · exact HighScoreManager.quotedValue_ne_fuel _ _
    · simp
  · intro initials
    apply Except.bind_ne_fuel
    · unfold HighScoreManager.parseScoreField
      simp only
      split
      · split
        · apply Except.bind_ne_fuel
          · exact substr_ne_fuel _ _ _
          · intro text
            apply Except.bind_ne_fuel
            · exact stoi_ne_fuel _
            · intro v
              simp
        · simp
      · simp
    · intro score
      apply Except.bind_ne_fuel
      · unfold HighScoreManager.parseDateField
        simp only
        split
        · exact HighScoreManager.quotedValue_ne_fuel _ _
        · simp
      · intro date
        unfold HighScoreManager.finishEntry
        simp only
        split
        · split
          · simp
          · split <;> simp
        · simp

theorem findAt_bounds (pat : Str) (hpat : pat ≠ []) :
    ∀ (s : Str) (i : Nat), findAt pat s i ≠ npos →
      i ≤ findAt pat s i ∧ findAt pat s i < i + s.length := by
  intro s
  induction s with
  | nil =>
    intro i h
    simp [findAt, hpat] at h
  | cons c cs ih =>
    intro i h
    unfold findAt at h ⊢
    split
    · simp
    · rename_i hsw
      simp only [hsw] at h
      have := ih (i + 1) h
      simp only [List.length_cons]
      omega

theorem find_bounds (s pat : Str) (pos : Nat) (hpat : pat ≠ []) (h : find s pat pos ≠ npos) :
    pos ≤ find s pat pos ∧ find s pat pos < s.length := by
  unfold find at h ⊢
  split
  · rename_i hgt
    simp [hgt] at h
  · rename_i hle
    simp only [hle, if_false] at h
    have := findAt_bounds pat hpat (s.drop pos) pos h
    simp only [List.length_drop] at this
    omega

theorem findChar_bounds (s : Str) (c : Char) (pos : Nat) (h : findChar s c pos ≠ npos) :
    pos ≤ findChar s c pos ∧ findChar s c pos < s.length :=
  find_bounds s [c] pos (by simp) h

/-- The loop of `parseJson` ends within `arrayContent.length() + 1` tests of
its condition: the model never runs out of fuel on a string that fits in
memory. -/
theorem HighScoreManager.parseLoop_ne_fuel (arrayContent : Str)
    (hlen : arrayContent.length < 2 ^ 64) :
    ∀ (fuel pos : Nat) (scores : List HighScoreEntry),
      arrayContent.length < pos + (fuel + 1) →
      HighScoreManager.parseLoop arrayContent (fuel + 1) pos scores ≠
        Except.error Fault.fuel := by
  intro fuel
  induction fuel with
  | zero =>
    intro pos scores h
    have : ¬ pos < arrayContent.length := by omega
    simp [HighScoreManager.parseLoop, this]
  | succ fuel ih =>
    intro pos scores h
    unfold HighScoreManager.parseLoop
    split
    · simp only
      split
      · simp
      · rename_i hpos hnp
        push_neg at hnp
        have hb1 := findChar_bounds arrayContent HighScoreManager.chLBrace pos hnp.1
        have hb2 := findChar_bounds arrayContent HighScoreManager.chRBrace _ hnp.2
        apply Except.bind_ne_fuel
        · exact substr_ne_fuel _ _ _
        · intro objContent
          apply Except.bind_ne_fuel
          · exact HighScoreManager.parseObject_ne_fuel _
          · intro entry
            apply ih
            have hadd : sizeAdd (findChar arrayContent HighScoreManager.chRBrace
                (findChar arrayContent HighScoreManager.chLBrace pos)) 1 =
                findChar arrayContent HighScoreManager.chRBrace
                  (findChar arrayContent HighScoreManager.chLBrace pos) + 1 := by
              unfold sizeAdd
              apply Nat.mod_eq_of_lt
              omega
            rw [hadd]
            omega
    · simp

theorem substr_length_le (s t : Str) (pos len : Nat) (h : substr s pos len = Except.ok t) :
    t.length ≤ s.length := by
  unfold substr at h
  split at h
  · cases h
  · cases h
    simp only [List.length_take, List.length_drop]
    omega

/-- On a text that fits in memory, `parseJson` returns, throws or reads an
indeterminate value: its loop always comes to an end. -/
theorem HighScoreManager.parseJson_ne_fuel (scores : List HighScoreEntry) (json : Str)
    (hlen : json.length < 2 ^ 64) :
    HighScoreManager.parseJson scores json ≠ Except.error Fault.fuel := by
  unfold HighScoreManager.parseJson
  simp only
  split
  · simp
  · split
    · simp
    · intro h
      cases hsub : substr json
          (sizeAdd (findChar json HighScoreManager.chLBracket
            (find json HighScoreManager.keyScores 0)) 1)
          (sizeSub (sizeSub (findChar json HighScoreManager.chRBracket
            (findChar json HighScoreManager.chLBracket
              (find json HighScoreManager.keyScores 0)))
            (findChar json HighScoreManager.chLBracket
              (find json HighScoreManager.keyScores 0))) 1) with
      | error e =>
        rw [hsub] at h
        simp only [bind, Except.bind] at h
        cases h
        exact substr_ne_fuel _ _ _ hsub
      | ok arrayContent =>
        rw [hsub] at h
        have hle := substr_length_le _ _ _ _ hsub
        have hloop := HighScoreManager.parseLoop_ne_fuel arrayContent (by omega)
          arrayContent.length 0 scores (by omega)
        cases hl : HighScoreManager.parseLoop arrayContent (arrayContent.length + 1) 0
            scores with
        | error e =>
          simp only [bind, Except.bind, hl] at h
          cases h
          exact hloop hl
        | ok l0 =>
          simp only [bind, Except.bind, hl] at h
          cases h

/-! ## Creature: the contracts of the single operations -/

/-- C13: for every creature state and every direction `d`: if `d` is NONE or
the exact opposite of the committed direction, `setDirection(d)` leaves the
whole state unchanged (whatever the buffered direction is); otherwise the
buffered direction becomes `d` and nothing else changes. -/
theorem Snake.setDirection_frame (s : Snake) (d : Direction) :
    ((d = Direction.NONE ∨ isOpposite d s.direction = true) → s.setDirection d = s) ∧
      (¬ (d = Direction.NONE ∨ isOpposite d s.direction = true) →
        s.setDirection d = { s with nextDirection := d } ∧
          (s.setDirection d).nextDirection = d ∧
          (s.setDirection d).segments = s.segments ∧
          (s.setDirection d).direction = s.direction ∧
          (s.setDirection d).alive = s.alive ∧
          (s.setDirection d).hasEaten = s.hasEaten) := by
  constructor
  · intro h
    cases d <;> cases hd : s.direction <;>
      simp_all [Snake.setDirection, isOpposite]
  · intro h
    have hset : s.setDirection d = { s with nextDirection := d } := by
      cases d <;> cases hd : s.direction <;>
        simp_all [Snake.setDirection, isOpposite]
    rw [hset]
    exact ⟨rfl, rfl, rfl, rfl, rfl, rfl⟩

theorem Snake.setDirection_frame_witness :
    isOpposite Direction.LEFT Snake.turning.direction = true ∧
      isOpposite Direction.LEFT Snake.turning.nextDirection = false ∧
      Snake.turning.setDirection Direction.LEFT = Snake.turning ∧
      Snake.turning.setDirection Direction.NONE = Snake.turning ∧
      (Snake.turning.setDirection Direction.DOWN =
          { Snake.turning with nextDirection := Direction.DOWN } ∧
        (Snake.turning.setDirection Direction.DOWN).nextDirection = Direction.DOWN ∧
        (Snake.turning.setDirection Direction.DOWN).segments = Snake.turning.segments ∧
        (Snake.turning.setDirection Direction.DOWN).direction = Snake.turning.direction ∧
        (Snake.turning.setDirection Direction.DOWN).alive = Snake.turning.alive ∧
        (Snake.turning.setDirection Direction.DOWN).hasEaten = Snake.turning.hasEaten) :=
  ⟨by decide, by decide,
    (Snake.setDirection_frame Snake.turning Direction.LEFT).1 (Or.inr (by decide)),
    (Snake.setDirection_frame Snake.turning Direction.NONE).1 (Or.inl rfl),
    (Snake.setDirection_frame Snake.turning Direction.DOWN).2 (by decide)⟩

/-- C14: if the creature is not alive or its body is empty, `move()` leaves
the state unchanged; otherwise the committed direction becomes the buffered
one, the new head is the old head moved by one cell in that direction (UP:
y-1, DOWN: y+1, LEFT: x-1, RIGHT: x+1, without wraparound or clamping; the
value NONE, which no call ever buffers, leaves it in place), the body is the
new head followed by the old body, with the old tail dropped exactly when no
growth was pending, and the growth flag is false afterwards. -/
theorem Snake.move_spec (s : Snake) :
    ((s.alive = false ∨ s.segments = []) → s.move = s) ∧
      ∀ front rest, s.alive = true → s.segments = front :: rest →
        s.move.direction = s.nextDirection ∧
        s.move.nextDirection = s.nextDirection ∧
        s.move.alive = true ∧
        s.move.hasEaten = false ∧
        ∃ newHead : Position,
          (s.nextDirection = Direction.UP → newHead = { x := front.x, y := front.y - 1 }) ∧
          (s.nextDirection = Direction.DOWN → newHead = { x := front.x, y := front.y + 1 }) ∧
          (s.nextDirection = Direction.LEFT → newHead = { x := front.x - 1, y := front.y }) ∧
          (s.nextDirection = Direction.RIGHT → newHead = { x := front.x + 1, y := front.y }) ∧
          (s.nextDirection = Direction.NONE → newHead = front) ∧
          (s.hasEaten = true → s.move.segments = newHead :: front :: rest) ∧
          (s.hasEaten = false → s.move.segments = newHead :: (front :: rest).dropLast) := by
  constructor
  · intro h
    unfold Snake.move
    rcases h with h | h
    · simp [h]
    · simp [h]
  · intro front rest hAlive hseg
    have hstep : ∀ d,
        (d = Direction.UP → Snake.step front d = { x := front.x, y := front.y - 1 }) ∧
        (d = Direction.DOWN → Snake.step front d = { x := front.x, y := front.y + 1 }) ∧
        (d = Direction.LEFT → Snake.step front d = { x := front.x - 1, y := front.y }) ∧
        (d = Direction.RIGHT → Snake.step front d = { x := front.x + 1, y := front.y }) ∧
        (d = Direction.NONE → Snake.step front d = front) := by
      intro d
      cases d <;> simp [Snake.step]
    obtain ⟨h1, h2, h3, h4, h5⟩ := hstep s.nextDirection
    have hmove := Snake.move_of_alive_cons s front rest hAlive hseg
    by_cases hE : s.hasEaten = true
    · have hm : s.move =
          { s with
            direction := s.nextDirection
            segments := Snake.step front s.nextDirection :: front :: rest
            hasEaten := false } := by
        rw [hmove, if_pos hE]
      refine ⟨by rw [hm], by rw [hm], by rw [hm]; exact hAlive, by rw [hm],
        Snake.step front s.nextDirection, h1, h2, h3, h4, h5, fun _ => by rw [hm], ?_⟩
      intro hF
      rw [hE] at hF
      cases hF
    · have hF : s.hasEaten = false := by simpa using hE
      have hm : s.move =
          { s with
            direction := s.nextDirection
            segments := (Snake.step front s.nextDirection :: front :: rest).dropLast } := by
        rw [hmove, if_neg hE]
      refine ⟨by rw [hm], by rw [hm], by rw [hm]; exact hAlive, by rw [hm]; exact hF,
        Snake.step front s.nextDirection, h1, h2, h3, h4, h5, ?_, fun _ => ?_⟩
      · intro hT
        rw [hF] at hT
        cases hT
      · rw [hm]
        simp [List.dropLast]

theorem Snake.move_spec_witness :
    Snake.turning.alive = true ∧
      Snake.turning.segments =
        { x := 20, y := 13 } :: [{ x := 19, y := 13 }, { x := 18, y := 13 }] ∧
      Snake.turning.nextDirection = Direction.UP ∧
      Snake.turning.hasEaten = false ∧
      Snake.turning.move.segments =
        [{ x := 20, y := 12 }, { x := 20, y := 13 }, { x := 19, y := 13 }] ∧
      (Snake.turning.move.direction = Snake.turning.nextDirection ∧
        Snake.turning.move.nextDirection = Snake.turning.nextDirection ∧
        Snake.turning.move.alive = true ∧
        Snake.turning.move.hasEaten = false ∧
        ∃ newHead : Position,
          (Snake.turning.nextDirection = Direction.UP → newHead = { x := 20, y := 13 - 1 }) ∧
          (Snake.turning.nextDirection = Direction.DOWN → newHead = { x := 20, y := 13 + 1 }) ∧
          (Snake.turning.nextDirection = Direction.LEFT → newHead = { x := 20 - 1, y := 13 }) ∧
          (Snake.turning.nextDirection = Direction.RIGHT → newHead = { x := 20 + 1, y := 13 }) ∧
          (Snake.turning.nextDirection = Direction.NONE → newHead = { x := 20, y := 13 }) ∧
          (Snake.turning.hasEaten = true →
            Snake.turning.move.segments =
              newHead :: { x := 20, y := 13 } :: [{ x := 19, y := 13 }, { x := 18, y := 13 }]) ∧
          (Snake.turning.hasEaten = false →
            Snake.turning.move.segments =
              newHead ::
                ({ x := 20, y := 13 } :: [{ x := 19, y := 13 }, { x := 18, y := 13 }]).dropLast)) :=
  ⟨rfl, rfl, rfl, rfl, rfl,
    (Snake.move_spec Snake.turning).2 { x := 20, y := 13 }
      [{ x := 19, y := 13 }, { x := 18, y := 13 }] rfl rfl⟩

theorem Snake.growTimes_fields (s : Snake) (n : Nat) :
    (s.growTimes n).segments = s.segments ∧ (s.growTimes n).alive = s.alive ∧
      (s.growTimes n).direction = s.direction ∧
      (s.growTimes n).nextDirection = s.nextDirection := by
  induction n with
  | zero => exact ⟨rfl, rfl, rfl, rfl⟩
  | succ n ih => exact ih

theorem Snake.growTimes_succ_hasEaten (s : Snake) (n : Nat) :
    (s.growTimes (n + 1)).hasEaten = true := rfl

/-- C15: for an alive creature with a non-empty body, `grow()` leaves the
segments unchanged, and `grow()` called one or more times followed by two
`move()` calls yields a body exactly one segment longer than before: the first
move adds one segment and the second adds none. -/
theorem Snake.grow_takes_effect_once (s : Snake) (n : Nat) (hAlive : s.alive = true)
    (hne : s.segments ≠ []) :
    s.grow.segments = s.segments ∧
      (s.growTimes (n + 1)).segments = s.segments ∧
      (s.growTimes (n + 1)).move.segments.length = s.segments.length + 1 ∧
      (s.growTimes (n + 1)).move.move.segments.length = s.segments.length + 1 := by
  obtain ⟨front, rest, hseg⟩ := List.exists_cons_of_ne_nil hne
  obtain ⟨hgs, hga, _, _⟩ := Snake.growTimes_fields s (n + 1)
  have hge := Snake.growTimes_succ_hasEaten s n
  have hm1 := Snake.move_of_alive_cons (s.growTimes (n + 1)) front rest
    (hga.trans hAlive) (hgs.trans hseg)
  rw [if_pos hge] at hm1
  have hlen1 : (s.growTimes (n + 1)).move.segments.length = s.segments.length + 1 := by
    rw [hm1, hseg]
    rfl
  have hm2 := Snake.move_of_alive_cons (s.growTimes (n + 1)).move
    (Snake.step front (s.growTimes (n + 1)).nextDirection) (front :: rest)
    (by rw [hm1]; exact hga.trans hAlive) (by rw [hm1])
  have hne2 : (s.growTimes (n + 1)).move.hasEaten = false := by rw [hm1]
  rw [hne2] at hm2
  refine ⟨rfl, hgs, hlen1, ?_⟩
  rw [hm2, hseg]
  simp [List.dropLast]

theorem Snake.grow_takes_effect_once_witness :
    Snake.fresh.alive = true ∧ Snake.fresh.segments ≠ [] ∧
      Snake.fresh.segments.length = 3 ∧
      Snake.fresh.grow.segments = Snake.fresh.segments ∧
      (Snake.fresh.growTimes (1 + 1)).segments = Snake.fresh.segments ∧
      (Snake.fresh.growTimes (1 + 1)).move.segments.length = Snake.fresh.segments.length + 1 ∧
      (Snake.fresh.growTimes (1 + 1)).move.move.segments.length =
        Snake.fresh.segments.length + 1 :=
  ⟨by decide, by decide, by decide,
    Snake.grow_takes_effect_once Snake.fresh 1 (by decide) (by decide)⟩

/-- C16: for a creature with a non-empty body, `checkWallCollision()` is true
iff the head (x, y) does not satisfy 0 ≤ x < `GRID_WIDTH` = 40 and
0 ≤ y < `GRID_HEIGHT` = 27. -/
theorem Snake.checkWallCollision_iff (s : Snake) (head : Position) (rest : List Position)
    (hseg : s.segments = head :: rest) :
    Constants.GRID_WIDTH = 40 ∧ Constants.GRID_HEIGHT = 27 ∧
      (s.checkWallCollision = true ↔
        ¬ (0 ≤ head.x ∧ head.x < 40 ∧ 0 ≤ head.y ∧ head.y < 27)) := by
  have hw : Constants.GRID_WIDTH = 40 := by decide
  have hh : Constants.GRID_HEIGHT = 27 := by decide
  refine ⟨hw, hh, ?_⟩
  unfold Snake.checkWallCollision
  rw [hseg]
  simp only [hw, hh, Bool.or_eq_true, decide_eq_true_eq]
  constructor
  · intro h
    omega
  · intro h
    omega

theorem Snake.checkWallCollision_iff_witness :
    (Snake.mk [{ x := 39, y := 27 }, { x := 38, y := 27 }] Direction.DOWN Direction.DOWN
        true false).segments = { x := 39, y := 27 } :: [{ x := 38, y := 27 }] ∧
      (Snake.mk [{ x := 39, y := 27 }, { x := 38, y := 27 }] Direction.DOWN Direction.DOWN
        true false).checkWallCollision = true ∧
      (Constants.GRID_WIDTH = 40 ∧ Constants.GRID_HEIGHT = 27 ∧
        ((Snake.mk [{ x := 39, y := 27 }, { x := 38, y := 27 }] Direction.DOWN Direction.DOWN
            true false).checkWallCollision = true ↔
          ¬ ((0 : Int) ≤ 39 ∧ (39 : Int) < 40 ∧ (0 : Int) ≤ 27 ∧ (27 : Int) < 27))) :=
  ⟨rfl, by decide,
    Snake.checkWallCollision_iff
      (Snake.mk [{ x := 39, y := 27 }, { x := 38, y := 27 }] Direction.DOWN Direction.DOWN
        true false)
      { x := 39, y := 27 } [{ x := 38, y := 27 }] rfl⟩

/-- C17: whatever the prior state, `reset()` yields the body (20,13), (19,13),
(18,13) (`INITIAL_SNAKE_LENGTH` = 3 segments laid out to the left of the grid
centre), committed and buffered direction RIGHT, alive and no growth pending;
the result does not depend on the prior state, and neither
`checkWallCollision` nor `checkSelfCollision` holds in it. -/
theorem Snake.reset_spec (s t : Snake) :
    s.reset =
        { segments := [{ x := 20, y := 13 }, { x := 19, y := 13 }, { x := 18, y := 13 }]
          direction := Direction.RIGHT, nextDirection := Direction.RIGHT
          alive := true, hasEaten := false } ∧
      s.reset.segments.length = Constants.INITIAL_SNAKE_LENGTH ∧
      s.reset = t.reset ∧
      s.reset.checkWallCollision = false ∧
      s.reset.checkSelfCollision = false := by
  rw [Snake.reset_eq_fresh s, Snake.reset_eq_fresh t]
  exact ⟨by decide, by decide, rfl, by decide, by decide⟩

/-! ## Creature: the neck and the length of the body -/

/-- In every reachable creature state the body has a head and a neck, the head
lies one cell from the neck in the committed direction, and the buffered
direction is a real direction that is not the opposite of the committed one. -/
theorem Snake.Reachable.neck_invariant {s : Snake} (h : Snake.Reachable s) :
    ∃ head neck rest, s.segments = head :: neck :: rest ∧ s.alive = true ∧
      s.direction ≠ Direction.NONE ∧ s.nextDirection ≠ Direction.NONE ∧
      isOpposite s.nextDirection s.direction = false ∧
      head = Snake.step neck s.direction := by
  induction h with
  | reset s =>
    rw [Snake.reset_eq_fresh]
    exact ⟨{ x := 20, y := 13 }, { x := 19, y := 13 }, [{ x := 18, y := 13 }],
      by decide, by decide, by decide, by decide, by decide, by decide⟩
  | @setDirection s d _ ih =>
    obtain ⟨head, neck, rest, hseg, hA, hD, hN, hO, hH⟩ := ih
    refine ⟨head, neck, rest, ?_, ?_, ?_, ?_, ?_, ?_⟩
    · cases d <;> cases hd : s.direction <;> simp_all [Snake.setDirection]
    · cases d <;> cases hd : s.direction <;> simp_all [Snake.setDirection]
    · rw [Snake.setDirection_direction]
      exact hD
    · cases d <;> cases hd : s.direction <;> simp_all [Snake.setDirection]
    · rw [Snake.setDirection_direction]
      cases d <;> cases hd : s.direction <;> simp_all [Snake.setDirection, isOpposite]
    · rw [Snake.setDirection_direction]
      exact hH
  | @grow s _ ih => exact ih
  | @move s _ ih =>
    obtain ⟨head, neck, rest, hseg, hA, hD, hN, hO, hH⟩ := ih
    have hmove := Snake.move_of_alive_cons s head (neck :: rest) hA hseg
    have hself : isOpposite s.nextDirection s.nextDirection = false := by
      cases s.nextDirection <;> rfl
    by_cases hE : s.hasEaten = true
    · rw [if_pos hE] at hmove
      rw [hmove]
      exact ⟨Snake.step head s.nextDirection, head, neck :: rest, rfl, hA, hN, hN, hself,
        rfl⟩
    · rw [if_neg hE] at hmove
      rw [hmove]
      exact ⟨Snake.step head s.nextDirection, head, (neck :: rest).dropLast, rfl, hA, hN,
        hN, hself, rfl⟩

theorem Snake.step_step_ne (neck : Position) (d nd : Direction)
    (hd : d ≠ Direction.NONE) (hnd : nd ≠ Direction.NONE) (ho : isOpposite nd d = false) :
    Snake.step (Snake.step neck d) nd ≠ neck := by
  obtain ⟨x, y⟩ := neck
  cases d <;> cases nd <;> simp_all [Snake.step, isOpposite] <;> omega

/-- C19: in every creature state reached from `reset()` by `setDirection`
(with any directions), `grow` and `move`, the creature is alive with a head and
a neck, and `move()` puts the new head on a cell other than the one the neck
occupied before the move. -/
theorem Snake.move_avoids_neck (s : Snake) (h : Snake.Reachable s) :
    ∃ head neck rest newHead tail, s.segments = head :: neck :: rest ∧ s.alive = true ∧
      s.move.segments = newHead :: tail ∧ newHead ≠ neck := by
  obtain ⟨head, neck, rest, hseg, hA, hD, hN, hO, hH⟩ := h.neck_invariant
  have hmove := Snake.move_of_alive_cons s head (neck :: rest) hA hseg
  have hne : Snake.step head s.nextDirection ≠ neck := by
    rw [hH]
    exact Snake.step_step_ne neck s.direction s.nextDirection hD hN hO
  by_cases hE : s.hasEaten = true
  · rw [if_pos hE] at hmove
    exact ⟨head, neck, rest, Snake.step head s.nextDirection, head :: neck :: rest, hseg, hA,
      by rw [hmove], hne⟩
  · rw [if_neg hE] at hmove
    exact ⟨head, neck, rest, Snake.step head s.nextDirection, head :: (neck :: rest).dropLast,
      hseg, hA, by rw [hmove]; rfl, hne⟩

theorem Snake.move_avoids_neck_witness :
    Snake.Reachable (Snake.turning.move.setDirection Direction.DOWN) ∧
      (Snake.turning.move.setDirection Direction.DOWN).move.segments =
        [{ x := 20, y := 11 }, { x := 20, y := 12 }, { x := 20, y := 13 }] ∧
      ∃ head neck rest newHead tail,
        (Snake.turning.move.setDirection Direction.DOWN).segments = head :: neck :: rest ∧
        (Snake.turning.move.setDirection Direction.DOWN).alive = true ∧
        (Snake.turning.move.setDirection Direction.DOWN).move.segments = newHead :: tail ∧
        newHead ≠ neck :=
  ⟨Snake.Reachable.setDirection _ (Snake.Reachable.move
      (Snake.Reachable.setDirection _ (Snake.Reachable.reset _))),
    rfl,
    Snake.move_avoids_neck (Snake.turning.move.setDirection Direction.DOWN)
      (Snake.Reachable.setDirection _ (Snake.Reachable.move
        (Snake.Reachable.setDirection _ (Snake.Reachable.reset _))))⟩

theorem Snake.move_length_ge (s : Snake) : s.segments.length ≤ s.move.segments.length := by
  unfold Snake.move
  split
  · exact le_refl _
  · split
    · exact le_refl _
    · rename_i front rest hseg
      simp only [hseg]
      split <;> simp [List.dropLast]

theorem SnakeOp.apply_length (s : Snake) (op : SnakeOp) (h : 3 ≤ s.segments.length) :
    3 ≤ (op.apply s).segments.length ∧
      (op ≠ SnakeOp.reset → s.segments.length ≤ (op.apply s).segments.length) := by
  cases op with
  | reset =>
    refine ⟨?_, fun hne => absurd rfl hne⟩
    show 3 ≤ s.reset.segments.length
    rw [Snake.reset_eq_fresh]
    decide
  | setDirection d =>
    have hseg : (s.setDirection d).segments = s.segments := by
      cases d <;> cases hd : s.direction <;> simp [Snake.setDirection, hd]
    show 3 ≤ (s.setDirection d).segments.length ∧
      (_ → s.segments.length ≤ (s.setDirection d).segments.length)
    rw [hseg]
    exact ⟨h, fun _ => le_refl _⟩
  | grow => exact ⟨h, fun _ => le_refl _⟩
  | move =>
    exact ⟨le_trans h (Snake.move_length_ge s), fun _ => Snake.move_length_ge s⟩
  | setAlive value => exact ⟨h, fun _ => le_refl _⟩

theorem Snake.applyOps_length (ops : List SnakeOp) :
    ∀ s : Snake, 3 ≤ s.segments.length → 3 ≤ (s.applyOps ops).segments.length := by
  induction ops with
  | nil =>
    intro s h
    exact h
  | cons op ops ih =>
    intro s h
    exact ih (op.apply s) (SnakeOp.apply_length s op h).1

/-- C20: in every creature state reached from construction by any sequence of
`reset`, `setDirection`, `grow`, `move` and `setAlive`, the body has at least
`INITIAL_SNAKE_LENGTH` = 3 segments, so it is not empty and `getHead()` is
defined; and no call other than `reset` makes the body shorter. -/
theorem Snake.body_never_empty (ops : List SnakeOp) (op : SnakeOp) :
    Constants.INITIAL_SNAKE_LENGTH ≤ (Snake.fresh.applyOps ops).segments.length ∧
      3 ≤ (Snake.fresh.applyOps ops).segments.length ∧
      1 ≤ (Snake.fresh.applyOps ops).segments.length ∧
      (∃ head, (Snake.fresh.applyOps ops).getHead = Except.ok head) ∧
      (op ≠ SnakeOp.reset →
        (Snake.fresh.applyOps ops).segments.length ≤
          (op.apply (Snake.fresh.applyOps ops)).segments.length) := by
  have h3 : 3 ≤ (Snake.fresh.applyOps ops).segments.length :=
    Snake.applyOps_length ops Snake.fresh (by decide)
  refine ⟨h3, h3, by omega, ?_, (SnakeOp.apply_length _ op h3).2⟩
  unfold Snake.getHead
  cases hseg : (Snake.fresh.applyOps ops).segments with
  | nil =>
    rw [hseg] at h3
    simp at h3
  | cons head rest => exact ⟨head, rfl⟩

theorem Snake.body_never_empty_witness :
    (Snake.fresh.applyOps
        [SnakeOp.grow, SnakeOp.move, SnakeOp.setAlive false, SnakeOp.move]).segments.length
        = 4 ∧
      (Snake.fresh.applyOps
        [SnakeOp.grow, SnakeOp.move, SnakeOp.setAlive false, SnakeOp.move]).segments.length ≤
        (SnakeOp.move.apply (Snake.fresh.applyOps
          [SnakeOp.grow, SnakeOp.move, SnakeOp.setAlive false, SnakeOp.move])).segments.length :=
  ⟨by decide,
    (Snake.body_never_empty
      [SnakeOp.grow, SnakeOp.move, SnakeOp.setAlive false, SnakeOp.move] SnakeOp.move).2.2.2.2
      (by decide)⟩

/-! ## Initials entry -/

theorem Menu.applyTextInput_initials (m : Menu) (input : Input) :
    (input.hasTextInput = false → (m.applyTextInput input).initials = m.initials) ∧
      (input.hasTextInput = true → input.textInput = Char.ofNat 8 →
        (m.applyTextInput input).initials = m.initials.dropLast) ∧
      (input.hasTextInput = true → input.textInput ≠ Char.ofNat 8 →
        m.initials.length < 3 →
        (m.applyTextInput input).initials = m.initials ++ [input.textInput]) ∧
      (input.hasTextInput = true → input.textInput ≠ Char.ofNat 8 →
        ¬ m.initials.length < 3 →
        (m.applyTextInput input).initials = m.initials) := by
  refine ⟨?_, ?_, ?_, ?_⟩
  · intro h
    simp [Menu.applyTextInput, h]
  · intro h hc
    unfold Menu.applyTextInput
    simp only [h, if_true, hc]
    by_cases hne : m.initials = []
    · simp [hne]
    · simp [hne]
  · intro h hc hlen
    unfold Menu.applyTextInput
    simp only [h, if_true, hc, if_false]
    have : m.initials.length < Constants.INITIALS_LENGTH := hlen
    simp [this]
  · intro h hc hlen
    unfold Menu.applyTextInput
    simp only [h, if_true, hc, if_false]
    have : ¬ m.initials.length < Constants.INITIALS_LENGTH := hlen
    simp [this]

theorem Menu.applyTextInput_length (m : Menu) (input : Input)
    (hlen : m.initials.length ≤ 3) : (m.applyTextInput input).initials.length ≤ 3 := by
  obtain ⟨h1, h2, h3, h4⟩ := Menu.applyTextInput_initials m input
  by_cases ht : input.hasTextInput = true
  · by_cases hc : input.textInput = Char.ofNat 8
    · rw [h2 ht hc, List.length_dropLast]
      omega
    · by_cases hl : m.initials.length < 3
      · rw [h3 ht hc hl]
        simp only [List.length_append, List.length_singleton]
        omega
      · rw [h4 ht hc hl]
        exact hlen
  · have hf : input.hasTextInput = false := by simpa using ht
    rw [h1 hf]
    exact hlen

theorem Menu.handleInitialsInput_fst_initials (m : Menu) (input : Input) :
    (m.handleInitialsInput input).1.initials = (m.applyTextInput input).initials := by
  unfold Menu.handleInitialsInput
  simp only
  split
  · rfl
  · split <;> rfl

theorem Menu.handleInitialsInput_snd (m : Menu) (input : Input) :
    ((m.handleInitialsInput input).2 = true ↔
      input.selectPressed = true ∧ (m.applyTextInput input).initials.length = 3) := by
  unfold Menu.handleInitialsInput
  simp only
  by_cases hc : (input.selectPressed &&
      decide ((m.applyTextInput input).initials.length = Constants.INITIALS_LENGTH)) = true
  · rw [if_pos hc]
    simp only [Bool.and_eq_true, decide_eq_true_eq] at hc
    exact ⟨fun _ => hc, fun _ => rfl⟩
  · rw [if_neg hc]
    simp only [Bool.and_eq_true, decide_eq_true_eq] at hc
    constructor
    · intro h
      split at h <;> cases h
    · intro h
      exact absurd h hc

/-- C18: for an initials buffer of length at most `INITIALS_LENGTH` = 3 and
every frame input, `Menu::handleInitialsInput` keeps the buffer length at most
3 (a character is appended only when the length is below 3, backspace removes
the last letter if any, and no text input leaves the buffer alone), and it
returns true iff select is pressed and the buffer, after that frame's text
input, has length exactly 3.  A confirm with a shorter buffer is ignored:
`Game::updateEnterInitials` then only stores the edited buffer in the menu. -/
theorem Menu.handleInitialsInput_spec (m : Menu) (input : Input)
    (hlen : m.initials.length ≤ 3) :
    (m.handleInitialsInput input).1.initials.length ≤ 3 ∧
      (input.hasTextInput = false → (m.handleInitialsInput input).1.initials = m.initials) ∧
      (input.hasTextInput = true → input.textInput = Char.ofNat 8 →
        (m.handleInitialsInput input).1.initials = m.initials.dropLast) ∧
      (input.hasTextInput = true → input.textInput ≠ Char.ofNat 8 →
        m.initials.length < 3 →
        (m.handleInitialsInput input).1.initials = m.initials ++ [input.textInput]) ∧
      (input.hasTextInput = true → input.textInput ≠ Char.ofNat 8 →
        ¬ m.initials.length < 3 →
        (m.handleInitialsInput input).1.initials = m.initials) ∧
      ((m.handleInitialsInput input).2 = true ↔
        input.selectPressed = true ∧ (m.handleInitialsInput input).1.initials.length = 3) ∧
      (∀ (g : Game) (f : Frame), g.menu = m → f.input = input →
        input.selectPressed = true → input.backPressed = false →
        (m.handleInitialsInput input).1.initials.length < 3 →
        g.menu.backPressed = false →
        g.updateEnterInitials f = Except.ok { g with menu := m.applyTextInput input }) := by
  have hinit := Menu.handleInitialsInput_fst_initials m input
  obtain ⟨h1, h2, h3, h4⟩ := Menu.applyTextInput_initials m input
  rw [hinit]
  refine ⟨Menu.applyTextInput_length m input hlen, h1, h2, h3, h4,
    Menu.handleInitialsInput_snd m input, ?_⟩
  intro g f hm hf hsel hback hshort hmb
  have hne : ¬ (m.applyTextInput input).initials.length = Constants.INITIALS_LENGTH := by
    have : Constants.INITIALS_LENGTH = 3 := rfl
    omega
  have hres : m.handleInitialsInput input = (m.applyTextInput input, false) := by
    unfold Menu.handleInitialsInput
    simp [hsel, hback, hne]
  have hbp : (m.applyTextInput input).backPressed = false := by
    rw [hm] at hmb
    rw [← hmb]
    simp only [Menu.applyTextInput]
    split_ifs <;> rfl
  unfold Game.updateEnterInitials
  rw [hm, hf, hres]
  simp [hbp, bind, Except.bind]

theorem Menu.handleInitialsInput_spec_witness :
    Menu.twoLetters.initials.length ≤ 3 ∧
      (Menu.twoLetters.handleInitialsInput typeAndSelectFrame.input).1.initials = "ABC".toList ∧
      (Menu.twoLetters.handleInitialsInput typeAndSelectFrame.input).2 = true ∧
      (Menu.twoLetters.handleInitialsInput selectFrame.input).2 = false ∧
      initialsGame.updateEnterInitials selectFrame = Except.ok initialsGame ∧
      (Menu.twoLetters.handleInitialsInput typeAndSelectFrame.input).1.initials.length ≤ 3 :=
  ⟨by decide, by decide, by decide, by decide, rfl,
    (Menu.handleInitialsInput_spec Menu.twoLetters typeAndSelectFrame.input (by decide)).1⟩

/-! ## High scores: the rank returned by `addScore` -/

/-- C11 fails on the code: on a full list whose last entry has the score 10,
`isHighScore(10)` is false, yet `addScore` with the initials and the date of
that entry returns the rank 10 and not 0; the rank loop finds the old entry,
the list being what it was. -/
theorem HighScoreManager.addScore_rank_of_duplicate :
    SortedDescending fullScores ∧ fullScores.length = 10 ∧
      HighScoreManager.isHighScore fullScores 10 = false ∧
      (HighScoreManager.addScore fullScores "AAA".toList 10 "2026-01-01".toList).2 = 10 ∧
      (HighScoreManager.addScore fullScores "AAA".toList 10 "2026-01-01".toList).1 =
        fullScores := by
  refine ⟨?_, rfl, rfl, rfl, rfl⟩
  unfold SortedDescending
  decide

theorem sortInsert_perm {α : Type} (comp : α → α → Bool) (a : α) (l : List α) :
    (sortInsert comp a l).Perm (a :: l) := by
  induction l with
  | nil => exact List.Perm.refl _
  | cons b l ih =>
    unfold sortInsert
    split
    · exact (List.Perm.cons b ih).trans (List.Perm.swap a b l)
    · exact List.Perm.refl _

theorem stdSort_perm {α : Type} (comp : α → α → Bool) (l : List α) :
    (stdSort comp l).Perm l := by
  induction l with
  | nil => exact List.Perm.refl _
  | cons a l ih => exact (sortInsert_perm comp a _).trans (List.Perm.cons a ih)

theorem HighScoreManager.findRank_bounds (entry : HighScoreEntry) :
    ∀ (l : List HighScoreEntry) (i : Nat),
      0 ≤ HighScoreManager.findRank entry l i ∧
        HighScoreManager.findRank entry l i ≤ ((i + l.length : Nat) : Int) := by
  intro l
  induction l with
  | nil =>
    intro i
    simp [HighScoreManager.findRank]
  | cons e rest ih =>
    intro i
    unfold HighScoreManager.findRank
    split
    · simp only [List.length_cons]
      omega
    · have := ih (i + 1)
      simp only [List.length_cons]
      omega

/-- When the entry is in the list, the rank loop returns the 1-based position
of an entry equal to it. -/
theorem HighScoreManager.findRank_of_mem (entry : HighScoreEntry) :
    ∀ (l : List HighScoreEntry) (i : Nat), entry ∈ l →
      ∃ k, k < l.length ∧ l[k]? = some entry ∧
        HighScoreManager.findRank entry l i = ((i + k + 1 : Nat) : Int) := by
  intro l
  induction l with
  | nil =>
    intro i h
    cases h
  | cons e rest ih =>
    intro i h
    unfold HighScoreManager.findRank
    by_cases hm : e.score = entry.score ∧ e.initials = entry.initials ∧ e.date = entry.date
    · rw [if_pos hm]
      have heq : e = entry := by
        cases e
        cases entry
        simp only [HighScoreEntry.mk.injEq]
        exact ⟨hm.2.1, hm.1, hm.2.2⟩
      exact ⟨0, by simp, by simp [heq], rfl⟩
    · rw [if_neg hm]
      have hrest : entry ∈ rest := by
        rcases List.mem_cons.mp h with h0 | h0
        · exact absurd ⟨by rw [h0], by rw [h0], by rw [h0]⟩ hm
        · exact h0
      obtain ⟨k, hk, hget, hrank⟩ := ih (i + 1) hrest
      refine ⟨k + 1, by simp only [List.length_cons]; omega, by simpa using hget, ?_⟩
      rw [hrank]
      congr 1
      omega

/-- When `isHighScore` holds for the score of `entry`, the entry is still in
the list after `sortAndTrim`. -/
theorem HighScoreManager.mem_sortAndTrim_of_isHighScore (scores : List HighScoreEntry)
    (entry : HighScoreEntry) (hlen : scores.length ≤ 10)
    (hhigh : HighScoreManager.isHighScore scores entry.score = true) :
    entry ∈ HighScoreManager.sortAndTrim (scores ++ [entry]) := by
  have hperm := stdSort_perm HighScoreManager.byScore (scores ++ [entry])
  have hsorted := HighScoreManager.stdSort_sorted (scores ++ [entry])
  have hmem : entry ∈ stdSort HighScoreManager.byScore (scores ++ [entry]) :=
    hperm.mem_iff.mpr (by simp)
  have hl : (stdSort HighScoreManager.byScore (scores ++ [entry])).length =
      scores.length + 1 := by
    rw [hperm.length_eq]
    simp
  unfold HighScoreManager.sortAndTrim
  simp only [Constants.MAX_HIGH_SCORES]
  by_cases hbig : (stdSort HighScoreManager.byScore (scores ++ [entry])).length > 10
  · rw [if_pos hbig]
    have hten : scores.length = 10 := by omega
    unfold HighScoreManager.isHighScore at hhigh
    simp only [Constants.MAX_HIGH_SCORES, hten, lt_irrefl, if_false] at hhigh
    split at hhigh
    · cases hhigh
    · cases hlast : scores.getLast? with
      | none =>
        rw [hlast] at hhigh
        cases hhigh
      | some back =>
        rw [hlast] at hhigh
        have hgt : entry.score > back.score := by simpa using hhigh
        have hback : back ∈ scores := List.mem_of_getLast?_eq_some hlast
        by_contra hnot
        have hsplit := List.take_append_drop 10 (stdSort HighScoreManager.byScore
          (scores ++ [entry]))
        have hdroplen : (List.drop 10 (stdSort HighScoreManager.byScore
            (scores ++ [entry]))).length = 1 := by
          rw [List.length_drop, hl, hten]
        obtain ⟨x, hx⟩ := List.length_eq_one.mp hdroplen
        rw [hx] at hsplit
        have hxe : x = entry := by
          rw [← hsplit] at hmem
          rcases List.mem_append.mp hmem with h1 | h1
          · exact absurd h1 hnot
          · exact (List.mem_singleton.mp h1).symm
        rw [hxe] at hsplit
        have hperm2 : (List.take 10 (stdSort HighScoreManager.byScore
            (scores ++ [entry]))).Perm scores := by
          apply (List.perm_append_right_iff [entry]).mp
          rw [hsplit]
          exact hperm
        have hbackIn := hperm2.mem_iff.mpr hback
        rw [← hsplit] at hsorted
        have := (List.pairwise_append.mp hsorted).2.2 back hbackIn entry (by simp)
        omega
  · rw [if_neg hbig]
    exact hmem

theorem HighScoreManager.padInitials_length (initials : Str) :
    (HighScoreManager.padInitials (initials.take Constants.INITIALS_LENGTH)).length = 3 := by
  unfold HighScoreManager.padInitials
  simp only [List.length_append, List.length_replicate, List.length_take,
    Constants.INITIALS_LENGTH]
  omega

/-- What holds of the returned rank: on a list of at most 10 entries `addScore`
returns an integer in 0..10, and when `isHighScore` holds for the score it
returns a rank `r` in 1..10 such that the entry at the 1-based position `r` of
the new list has that score, the date of the call and the initials cut to 3
characters and padded with spaces. -/
theorem HighScoreManager.addScore_rank_of_isHighScore (scores : List HighScoreEntry)
    (initials date : Str) (score : Int) (hlen : scores.length ≤ 10) :
    0 ≤ (HighScoreManager.addScore scores initials score date).2 ∧
      (HighScoreManager.addScore scores initials score date).2 ≤ 10 ∧
      (HighScoreManager.isHighScore scores score = true →
        ∃ r : Nat, 1 ≤ r ∧ r ≤ 10 ∧
          (HighScoreManager.addScore scores initials score date).2 = (r : Int) ∧
          (HighScoreManager.addScore scores initials score date).1[r - 1]? =
            some { initials := HighScoreManager.padInitials (initials.take 3)
                   score := score, date := date } ∧
          (HighScoreManager.padInitials (initials.take 3)).length = 3) := by
  by_cases hs : score ≤ 0
  · have hadd : HighScoreManager.addScore scores initials score date = (scores, 0) := by
      unfold HighScoreManager.addScore
      rw [if_pos hs]
    rw [hadd]
    refine ⟨le_refl _, by norm_num, ?_⟩
    intro hhigh
    unfold HighScoreManager.isHighScore at hhigh
    rw [if_pos hs] at hhigh
    cases hhigh
  · have hadd : HighScoreManager.addScore scores initials score date =
        (HighScoreManager.sortAndTrim (scores ++
            [{ initials := HighScoreManager.padInitials (initials.take 3)
               score := score, date := date }]),
          HighScoreManager.findRank
            { initials := HighScoreManager.padInitials (initials.take 3)
              score := score, date := date }
            (HighScoreManager.sortAndTrim (scores ++
              [{ initials := HighScoreManager.padInitials (initials.take 3)
                 score := score, date := date }])) 0) := by
      unfold HighScoreManager.addScore
      rw [if_neg hs]
      rfl
    rw [hadd]
    have hb := HighScoreManager.findRank_bounds
      { initials := HighScoreManager.padInitials (initials.take 3), score := score, date := date }
      (HighScoreManager.sortAndTrim (scores ++
        [{ initials := HighScoreManager.padInitials (initials.take 3)
           score := score, date := date }])) 0
    have hl := (HighScoreManager.sortAndTrim_invariant (scores ++
        [{ initials := HighScoreManager.padInitials (initials.take 3)
           score := score, date := date }])).2
    simp only [Constants.MAX_HIGH_SCORES] at hl
    refine ⟨hb.1, by omega, ?_⟩
    intro hhigh
    have hmem := HighScoreManager.mem_sortAndTrim_of_isHighScore scores
      { initials := HighScoreManager.padInitials (initials.take 3), score := score, date := date }
      hlen hhigh
    obtain ⟨k, hk, hget, hrank⟩ := HighScoreManager.findRank_of_mem _ _ 0 hmem
    refine ⟨k + 1, by omega, by omega, ?_, ?_, HighScoreManager.padInitials_length initials⟩
    · rw [hrank]
      omega
    · simpa using hget

theorem HighScoreManager.addScore_rank_of_isHighScore_witness :
    exampleScores.length ≤ 10 ∧
      HighScoreManager.isHighScore exampleScores 250 = true ∧
      (HighScoreManager.addScore exampleScores "QUIZ".toList 250 "2026-02-02".toList).2 = 2 ∧
      0 ≤ (HighScoreManager.addScore exampleScores "QUIZ".toList 250 "2026-02-02".toList).2 ∧
      (HighScoreManager.addScore exampleScores "QUIZ".toList 250 "2026-02-02".toList).2 ≤ 10 :=
  ⟨by decide, by decide, by decide,
    (HighScoreManager.addScore_rank_of_isHighScore exampleScores "QUIZ".toList
      "2026-02-02".toList 250 (by decide)).1,
    (HighScoreManager.addScore_rank_of_isHighScore exampleScores "QUIZ".toList
      "2026-02-02".toList 250 (by decide)).2.1⟩

/-! ## High scores: loading a malformed store -/

set_option maxRecDepth 100000 in
/-- C12 fails on the code: for a store whose object has a score that is not a
number, `std::stoi` throws, and the exception leaves `parseJson` and `load`;
the load does not complete.  A store whose object has initials and no score
makes `parseJson` read the uninitialised `entry.score`. -/
theorem HighScoreManager.load_throws_on_bad_score :
    HighScoreManager.parseJson [] badScoreJson = Except.error Fault.thrown ∧
      HighScoreManager.load [] (some badScoreJson) = Except.error Fault.thrown ∧
      HighScoreManager.load [] (some noScoreJson) = Except.error Fault.undefined :=
  ⟨rfl, rfl, rfl⟩

/-- What holds of a malformed store: when the file is missing, or its text has
no `"scores"` key, no opening bracket after the key or no closing bracket
after that one, the load returns and leaves the list empty. -/
theorem HighScoreManager.load_empty_on_missing_array (scores : List HighScoreEntry)
    (json : Str)
    (h : find json HighScoreManager.keyScores 0 = npos ∨
      findChar json HighScoreManager.chLBracket (find json HighScoreManager.keyScores 0)
        = npos ∨
      findChar json HighScoreManager.chRBracket
        (findChar json HighScoreManager.chLBracket (find json HighScoreManager.keyScores 0))
        = npos) :
    HighScoreManager.load scores none = Except.ok [] ∧
      HighScoreManager.load scores (some json) = Except.ok [] ∧
      HighScoreManager.parseJson scores json = Except.ok scores := by
  have hparse : ∀ start, HighScoreManager.parseJson start json = Except.ok start := by
    intro start
    unfold HighScoreManager.parseJson
    simp only
    by_cases h1 : find json HighScoreManager.keyScores 0 = npos
    · rw [if_pos h1]
    · rw [if_neg h1]
      have h2 : findChar json HighScoreManager.chLBracket
            (find json HighScoreManager.keyScores 0) = npos ∨
          findChar json HighScoreManager.chRBracket
            (findChar json HighScoreManager.chLBracket
              (find json HighScoreManager.keyScores 0)) = npos := by
        rcases h with h | h
        · exact absurd h h1
        · exact h
      rw [if_pos h2]
  exact ⟨rfl, hparse [], hparse scores⟩

theorem HighScoreManager.load_empty_on_missing_array_witness :
    find "\x7b\"points\": []\x7d".toList HighScoreManager.keyScores 0 = npos ∧
      HighScoreManager.load exampleScores (some "\x7b\"points\": []\x7d".toList) =
        Except.ok [] :=
  ⟨by decide,
    (HighScoreManager.load_empty_on_missing_array exampleScores
      "\x7b\"points\": []\x7d".toList (Or.inl (by decide))).2.1⟩

/-! ## Pause, and inputs without effect -/

/-- C24: in a PLAYING state a tick with pause pressed only changes the state
to PAUSED: creature, food position and phase, score, `gameSpeed`, `moveTimer`
and `foodEaten` are unchanged, whatever the direction input of that frame; from
there a resume (pause or select, without back) gives back the PLAYING state as
it was, and a back press leads to MENU. -/
theorem Game.pause_and_resume (g : Game) (f fr fb : Frame)
    (hstate : g.currentState = GameState.PLAYING)
    (hpause : f.input.pausePressed = true)
    (hres : fr.input.pausePressed = true ∨ fr.input.selectPressed = true)
    (hnoback : fr.input.backPressed = false)
    (hback : fb.input.backPressed = true) :
    ∃ gp gm, g.update f = Except.ok gp ∧
      gp = { g with currentState := GameState.PAUSED } ∧
      gp.snake = g.snake ∧ gp.food = g.food ∧ gp.score = g.score ∧
      gp.gameSpeed = g.gameSpeed ∧ gp.moveTimer = g.moveTimer ∧
      gp.foodEaten = g.foodEaten ∧
      gp.update fr = Except.ok g ∧
      gp.update fb = Except.ok gm ∧ gm.currentState = GameState.MENU := by
  have hup : g.update f = Except.ok { g with currentState := GameState.PAUSED } := by
    simp [Game.update, hstate, Game.updatePlaying, hpause, Game.setState]
  have hresume : Game.update { g with currentState := GameState.PAUSED } fr = Except.ok g := by
    have hor : (fr.input.pausePressed || fr.input.selectPressed) = true := by
      rcases hres with h | h <;> simp [h]
    have hg : ({ g with currentState := GameState.PLAYING } : Game) = g := by
      rw [← hstate]
    simp [Game.update, Game.updatePaused, hor, hnoback, Game.setState, hg]
  refine ⟨{ g with currentState := GameState.PAUSED },
    Game.setState
      (if (fb.input.pausePressed || fb.input.selectPressed) = true then
        Game.setState { g with currentState := GameState.PAUSED } GameState.PLAYING
      else { g with currentState := GameState.PAUSED })
      GameState.MENU,
    hup, rfl, rfl, rfl, rfl, rfl, rfl, rfl, hresume, ?_, (Game.setState_fields _ _).1⟩
  simp [Game.update, Game.updatePaused, hback]

theorem Game.pause_and_resume_witness :
    scenarioGame.currentState = GameState.PLAYING ∧
      pauseFrame.input.pausePressed = true ∧
      pauseFrame.input.currentDirection = Direction.UP ∧
      ∃ gp gm, scenarioGame.update pauseFrame = Except.ok gp ∧
        gp = { scenarioGame with currentState := GameState.PAUSED } ∧
        gp.snake = scenarioGame.snake ∧ gp.food = scenarioGame.food ∧
        gp.score = scenarioGame.score ∧
        gp.gameSpeed = scenarioGame.gameSpeed ∧ gp.moveTimer = scenarioGame.moveTimer ∧
        gp.foodEaten = scenarioGame.foodEaten ∧
        gp.update selectFrame = Except.ok scenarioGame ∧
        gp.update backFrame = Except.ok gm ∧ gm.currentState = GameState.MENU :=
  ⟨rfl, rfl, rfl,
    Game.pause_and_resume scenarioGame pauseFrame selectFrame backFrame rfl rfl (Or.inr rfl)
      rfl rfl⟩

/-- C25: an input irrelevant to the current state is a no-op: in GAME_OVER,
HIGH_SCORES, PLAYER_SWITCH and FINAL_RESULTS a frame with neither select nor
back pressed (whatever the pause, direction and text inputs), and in PAUSED a
frame with none of pause, select and back pressed, leaves the whole game state
unchanged. -/
theorem Game.irrelevant_input_noop (g : Game) (f : Frame)
    (hsel : f.input.selectPressed = false) (hback : f.input.backPressed = false)
    (hstate : g.currentState = GameState.GAME_OVER ∨
      g.currentState = GameState.HIGH_SCORES ∨
      g.currentState = GameState.PLAYER_SWITCH ∨
      g.currentState = GameState.FINAL_RESULTS ∨
      (g.currentState = GameState.PAUSED ∧ f.input.pausePressed = false)) :
    g.update f = Except.ok g := by
  rcases hstate with h | h | h | h | ⟨h, hp⟩
  · simp [Game.update, h, Game.updateGameOver, hsel, hback]
  · simp [Game.update, h, Game.updateHighScores, hsel, hback]
  · simp [Game.update, h, Game.updatePlayerSwitch, hsel, hback]
  · simp [Game.update, h, Game.updateFinalResults, hsel, hback]
  · simp [Game.update, h, Game.updatePaused, hsel, hback, hp]

theorem Game.irrelevant_input_noop_witness :
    pauseFrame.input.selectPressed = false ∧ pauseFrame.input.backPressed = false ∧
      pauseFrame.input.pausePressed = true ∧
      gameOverGame.currentState = GameState.GAME_OVER ∧
      gameOverGame.update pauseFrame = Except.ok gameOverGame :=
  ⟨rfl, rfl, rfl, rfl,
    Game.irrelevant_input_noop gameOverGame pauseFrame rfl rfl (Or.inl rfl)⟩

/-! ## Food placement: the retry bound -/

theorem Food.spawnLoop_eq_draw (snake : Snake) (draws : Nat → Position) :
    ∀ (n i : Nat), i + 1 ≤ Food.attemptsLoop snake draws n i ∧
      Food.attemptsLoop snake draws n i ≤ i + n + 1 ∧
      Food.spawnLoop snake draws n i = draws (Food.attemptsLoop snake draws n i - 1) := by
  intro n
  induction n with
  | zero =>
    intro i
    exact ⟨le_refl _, le_refl _, rfl⟩
  | succ n ih =>
    intro i
    unfold Food.attemptsLoop Food.spawnLoop
    by_cases hc : snake.checkCollisionAt (draws i) = true
    · rw [if_pos hc, if_pos hc]
      obtain ⟨h1, h2, h3⟩ := ih (i + 1)
      exact ⟨by omega, by omega, h3⟩
    · rw [if_neg hc, if_neg hc]
      exact ⟨le_refl _, by omega, rfl⟩

theorem Food.spawnLoop_congr (snake : Snake) (draws draws2 : Nat → Position) :
    ∀ (n i : Nat), (∀ k, i ≤ k → k ≤ i + n → draws2 k = draws k) →
      Food.spawnLoop snake draws2 n i = Food.spawnLoop snake draws n i := by
  intro n
  induction n with
  | zero =>
    intro i h
    exact h i (le_refl _) (le_refl _)
  | succ n ih =>
    intro i h
    unfold Food.spawnLoop
    rw [h i (le_refl _) (by omega)]
    by_cases hc : snake.checkCollisionAt (draws i) = true
    · rw [if_pos hc, if_pos hc]
      exact ih (i + 1) (fun k hk1 hk2 => h k (by omega) (by omega))
    · rw [if_neg hc, if_neg hc]

theorem Food.attemptsLoop_all_occupied (snake : Snake) (draws : Nat → Position) :
    ∀ (n i : Nat), (∀ k, i ≤ k → k ≤ i + n → snake.checkCollisionAt (draws k) = true) →
      Food.attemptsLoop snake draws n i = i + n + 1 := by
  intro n
  induction n with
  | zero =>
    intro i _
    rfl
  | succ n ih =>
    intro i h
    unfold Food.attemptsLoop
    rw [if_pos (h i (le_refl _) (by omega))]
    rw [ih (i + 1) (fun k hk1 hk2 => h k (by omega) (by omega))]
    omega

/-- C26: `Food::spawn` ends after at least 1 and at most 1000 draws and puts
the food on the last draw taken, so that its result depends on the first 1000
draws only; when each of the first 1000 draws lies on the creature, the food is
placed on the 1000th draw all the same, on a creature segment; and in every
case `pulseTimer` is 0 after the spawn. -/
theorem Food.spawn_bounded (f : Food) (snake : Snake) (draws : Nat → Position) :
    1 ≤ Food.spawnAttempts snake draws ∧ Food.spawnAttempts snake draws ≤ 1000 ∧
      (f.spawn snake draws).position = draws (Food.spawnAttempts snake draws - 1) ∧
      (∀ draws2 : Nat → Position, (∀ k, k < 1000 → draws2 k = draws k) →
        f.spawn snake draws2 = f.spawn snake draws) ∧
      ((∀ k, k < 1000 → snake.checkCollisionAt (draws k) = true) →
        Food.spawnAttempts snake draws = 1000 ∧
        (f.spawn snake draws).position = draws 999 ∧
        snake.checkCollisionAt (f.spawn snake draws).position = true) ∧
      (f.spawn snake draws).pulseTimer = 0 := by
  obtain ⟨h1, h2, h3⟩ := Food.spawnLoop_eq_draw snake draws (Food.maxAttempts - 1) 0
  have hmax : Food.maxAttempts - 1 = 999 := rfl
  refine ⟨h1, ?_, h3, ?_, ?_, rfl⟩
  · unfold Food.spawnAttempts
    rw [hmax] at h2 ⊢
    omega
  · intro draws2 hsame
    unfold Food.spawn
    rw [Food.spawnLoop_congr snake draws draws2 (Food.maxAttempts - 1) 0
      (fun k _ hk => hsame k (by rw [hmax] at hk; omega))]
  · intro hall
    have hatt : Food.spawnAttempts snake draws = 1000 := by
      unfold Food.spawnAttempts
      rw [Food.attemptsLoop_all_occupied snake draws (Food.maxAttempts - 1) 0
        (fun k _ hk => hall k (by rw [hmax] at hk; omega)), hmax]
    have hpos : (f.spawn snake draws).position = draws 999 := by
      show Food.spawnLoop snake draws (Food.maxAttempts - 1) 0 = draws 999
      rw [h3]
      have : Food.attemptsLoop snake draws (Food.maxAttempts - 1) 0 = 1000 := hatt
      rw [this]
    exact ⟨hatt, hpos, by rw [hpos]; exact hall 999 (by omega)⟩

theorem Food.spawn_bounded_witness :
    (∀ k, k < 1000 → Snake.fresh.checkCollisionAt (stuckDraws k) = true) ∧
      Food.spawnAttempts Snake.fresh stuckDraws = 1000 ∧
      ((Food.mk (Position.mk 3 4) 17).spawn Snake.fresh stuckDraws).position =
        stuckDraws 999 ∧
      Snake.fresh.checkCollisionAt
        ((Food.mk (Position.mk 3 4) 17).spawn Snake.fresh stuckDraws).position = true :=
  ⟨fun _ _ => rfl,
    (Food.spawn_bounded (Food.mk (Position.mk 3 4) 17) Snake.fresh stuckDraws).2.2.2.2.1
      (fun _ _ => rfl)⟩

/-! ## The playing state: collisions come before food -/

theorem Snake.setDirection_cases (s : Snake) (d : Direction) :
    s.setDirection d = s ∨ s.setDirection d = { s with nextDirection := d } := by
  cases d <;> cases hd : s.direction <;> simp [Snake.setDirection, hd]

/-- The creature after the direction input of a frame. -/
theorem Game.tickInput_eq (g : Game) (f : Frame) :
    g.tickInput f =
      { g with
        snake :=
          if f.input.currentDirection ≠ Direction.NONE then
            g.snake.setDirection f.input.currentDirection
          else g.snake
        food := g.food.update
        moveTimer := g.moveTimer + 1 } := by
  by_cases hd : f.input.currentDirection = Direction.NONE
  · simp [Game.tickInput, hd]
  · simp [Game.tickInput, hd]

theorem Game.tickInput_snake (g : Game) (f : Frame) :
    (g.tickInput f).snake = g.snake ∨
      (f.input.currentDirection ≠ Direction.NONE ∧
        (g.tickInput f).snake =
          { g.snake with nextDirection := f.input.currentDirection }) := by
  rw [Game.tickInput_eq]
  by_cases hd : f.input.currentDirection ≠ Direction.NONE
  · rw [if_pos hd]
    rcases Snake.setDirection_cases g.snake f.input.currentDirection with h | h
    · exact Or.inl h
    · exact Or.inr ⟨hd, h⟩
  · rw [if_neg hd]
    exact Or.inl rfl

theorem Game.tickInput_fields (g : Game) (f : Frame) :
    (g.tickInput f).score = g.score ∧ (g.tickInput f).foodEaten = g.foodEaten ∧
      (g.tickInput f).gameSpeed = g.gameSpeed ∧
      (g.tickInput f).food.position = g.food.position ∧
      (g.tickInput f).currentPlayer = g.currentPlayer ∧
      (g.tickInput f).numPlayers = g.numPlayers ∧
      (g.tickInput f).currentState = g.currentState ∧
      (g.tickInput f).moveTimer = g.moveTimer + 1 ∧
      (g.tickInput f).snake.alive = g.snake.alive ∧
      (g.tickInput f).snake.segments = g.snake.segments ∧
      (g.tickInput f).snake.hasEaten = g.snake.hasEaten ∧
      (g.tickInput f).snake.direction = g.snake.direction := by
  have hs := Game.tickInput_snake g f
  refine ⟨by rw [Game.tickInput_eq], by rw [Game.tickInput_eq], by rw [Game.tickInput_eq],
    by rw [Game.tickInput_eq]; rfl, by rw [Game.tickInput_eq], by rw [Game.tickInput_eq],
    by rw [Game.tickInput_eq], by rw [Game.tickInput_eq], ?_, ?_, ?_, ?_⟩ <;>
  · rcases hs with h | ⟨_, h⟩ <;> rw [h]

theorem Game.update_playing_move (g : Game) (f : Frame)
    (hstate : g.currentState = GameState.PLAYING) (hpause : f.input.pausePressed = false)
    (htimer : g.moveTimer + 1 ≥ g.gameSpeed) :
    g.update f = Game.moveStep (g.tickInput f) f := by
  have ht : (g.tickInput f).moveTimer ≥ (g.tickInput f).gameSpeed := by
    obtain ⟨_, _, hs, _, _, _, _, hm, _⟩ := Game.tickInput_fields g f
    rw [hs, hm]
    exact htimer
  simp only [Game.update, hstate, Game.updatePlaying, hpause, ht, if_true]
  simp

theorem Game.update_playing_wait (g : Game) (f : Frame)
    (hstate : g.currentState = GameState.PLAYING) (hpause : f.input.pausePressed = false)
    (htimer : g.moveTimer + 1 < g.gameSpeed) :
    g.update f = Except.ok (g.tickInput f) := by
  have ht : ¬ (g.tickInput f).moveTimer ≥ (g.tickInput f).gameSpeed := by
    obtain ⟨_, _, hs, _, _, _, _, hm, _⟩ := Game.tickInput_fields g f
    rw [hs, hm]
    omega
  simp only [Game.update, hstate, Game.updatePlaying, hpause, ht, if_false]
  simp

theorem Game.moveStep_collision (g : Game) (f : Frame)
    (hcol : (g.snake.move.checkWallCollision || g.snake.move.checkSelfCollision) = true) :
    g.moveStep f =
      Game.handleGameOver { g with moveTimer := 0, snake := g.snake.move } f.date := by
  unfold Game.moveStep
  simp only [hcol, if_true]

theorem Game.moveStep_no_collision (g : Game) (f : Frame) (head : Position)
    (tail : List Position)
    (hcol : (g.snake.move.checkWallCollision || g.snake.move.checkSelfCollision) = false)
    (hseg : g.snake.move.segments = head :: tail) :
    g.moveStep f =
      if head = g.food.position then
        Except.ok (Game.eatFood { g with moveTimer := 0, snake := g.snake.move } f.draws)
      else Except.ok { g with moveTimer := 0, snake := g.snake.move } := by
  unfold Game.moveStep
  simp only [hcol, hseg]
  simp

/-- C21: in a PLAYING tick (alive creature, `currentPlayer` 1 or 2) whose move
ends in a wall or self collision, the attempt ends before the food is looked
at: score, `foodEaten`, `gameSpeed` and the food position keep their values and
the growth flag is not set, wherever the food lies; the state becomes GAME_OVER
and `players[currentPlayer - 1].score` is that unchanged score. -/
theorem Game.collision_before_food (g : Game) (f : Frame)
    (hstate : g.currentState = GameState.PLAYING)
    (halive : g.snake.alive = true)
    (hpause : f.input.pausePressed = false)
    (htimer : g.moveTimer + 1 ≥ g.gameSpeed)
    (hcol : (g.tickInput f).snake.move.checkWallCollision = true ∨
      (g.tickInput f).snake.move.checkSelfCollision = true)
    (hp : g.currentPlayer = 1 ∨ g.currentPlayer = 2) :
    ∃ g1 slot, g.update f = Except.ok g1 ∧
      g1.currentState = GameState.GAME_OVER ∧
      g1.score = g.score ∧ g1.foodEaten = g.foodEaten ∧ g1.gameSpeed = g.gameSpeed ∧
      g1.food.position = g.food.position ∧
      g1.snake.hasEaten = false ∧ g1.snake.alive = false ∧
      g1.snake.segments = (g.tickInput f).snake.move.segments ∧
      g1.currentPlayer = g.currentPlayer ∧
      g1.playerAt (g1.currentPlayer - 1) = Except.ok slot ∧
      slot.score = g.score := by
  obtain ⟨hsc, hfe, hgs, hfp, hcp, _, _, _, hal, _, _, _⟩ := Game.tickInput_fields g f
  have hcol2 : ((g.tickInput f).snake.move.checkWallCollision ||
      (g.tickInput f).snake.move.checkSelfCollision) = true := by
    rcases hcol with h | h <;> simp [h]
  have hne : (g.tickInput f).snake.segments ≠ [] := by
    intro hnil
    have hm : (g.tickInput f).snake.move = (g.tickInput f).snake := by
      simp [Snake.move, hnil]
    rw [hm] at hcol2
    simp [Snake.checkWallCollision, Snake.checkSelfCollision, hnil] at hcol2
  obtain ⟨front, rest, hseg⟩ := List.exists_cons_of_ne_nil hne
  have hE : (g.tickInput f).snake.move.hasEaten = false := by
    rw [Snake.move_of_alive_cons _ front rest (hal.trans halive) hseg]
    by_cases hE : (g.tickInput f).snake.hasEaten = true
    · rw [if_pos hE]
    · rw [if_neg hE]
      simpa using hE
  rw [Game.update_playing_move g f hstate hpause htimer,
    Game.moveStep_collision _ f hcol2, Game.handleGameOver_eq]
  rcases hp with h1 | h2
  · simp [hcp, h1, hsc, hfe, hgs, hfp, hE, Game.setState, Game.playerAt, Snake.setAlive]
  · simp [hcp, h2, hsc, hfe, hgs, hfp, hE, Game.setState, Game.playerAt, Snake.setAlive]

theorem Game.collision_before_food_witness :
    selfHitGame.currentState = GameState.PLAYING ∧ selfHitGame.snake.alive = true ∧
      selfHitGame.moveTimer + 1 ≥ selfHitGame.gameSpeed ∧
      (selfHitGame.tickInput quietFrame).snake.move.checkSelfCollision = true ∧
      (selfHitGame.tickInput quietFrame).snake.move.segments.head? =
        some selfHitGame.food.position ∧
      ∃ g1 slot, selfHitGame.update quietFrame = Except.ok g1 ∧
        g1.currentState = GameState.GAME_OVER ∧
        g1.score = selfHitGame.score ∧ g1.foodEaten = selfHitGame.foodEaten ∧
        g1.gameSpeed = selfHitGame.gameSpeed ∧
        g1.food.position = selfHitGame.food.position ∧
        g1.snake.hasEaten = false ∧ g1.snake.alive = false ∧
        g1.snake.segments = (selfHitGame.tickInput quietFrame).snake.move.segments ∧
        g1.currentPlayer = selfHitGame.currentPlayer ∧
        g1.playerAt (g1.currentPlayer - 1) = Except.ok slot ∧
        slot.score = selfHitGame.score :=
  ⟨rfl, rfl, by decide, by decide, by decide,
    Game.collision_before_food selfHitGame quietFrame rfl rfl rfl (by decide)
      (Or.inr (by decide)) (Or.inl rfl)⟩

/-! ## The ticks of the playing state, case by case -/

theorem Game.handleGameOver_fields (g g1 : Game) (date : Str)
    (h : g.handleGameOver date = Except.ok g1) :
    g1.currentState = GameState.GAME_OVER ∧ g1.snake = g.snake.setAlive false ∧
      g1.food = g.food ∧ g1.score = g.score ∧ g1.gameSpeed = g.gameSpeed ∧
      g1.moveTimer = g.moveTimer ∧ g1.foodEaten = g.foodEaten ∧
      g1.currentPlayer = g.currentPlayer ∧ g1.numPlayers = g.numPlayers ∧
      (g.currentPlayer = 1 ∨ g.currentPlayer = 2) := by
  rw [Game.handleGameOver_eq] at h
  split at h
  · rename_i h1
    cases h
    exact ⟨rfl, rfl, rfl, rfl, rfl, rfl, rfl, rfl, rfl, Or.inl h1⟩
  · split at h
    · rename_i h2
      cases h
      exact ⟨rfl, rfl, rfl, rfl, rfl, rfl, rfl, rfl, rfl, Or.inr h2⟩
    · cases h

/-- The outcomes of a tick in the PLAYING state. -/
theorem Game.update_playing_cases (g g1 : Game) (f : Frame)
    (hstate : g.currentState = GameState.PLAYING) (h : g.update f = Except.ok g1) :
    (f.input.pausePressed = true ∧ g1 = Game.setState g GameState.PAUSED) ∨
      (f.input.pausePressed = false ∧ g.moveTimer + 1 < g.gameSpeed ∧
        g1 = g.tickInput f) ∨
      (f.input.pausePressed = false ∧ g.moveTimer + 1 ≥ g.gameSpeed ∧
        (((g.tickInput f).snake.move.checkWallCollision ||
            (g.tickInput f).snake.move.checkSelfCollision) = true ∧
          Game.handleGameOver
            { g.tickInput f with moveTimer := 0, snake := (g.tickInput f).snake.move }
            f.date = Except.ok g1 ∨
         ((g.tickInput f).snake.move.checkWallCollision ||
            (g.tickInput f).snake.move.checkSelfCollision) = false ∧
          ∃ head tail, (g.tickInput f).snake.move.segments = head :: tail ∧
            (head = (g.tickInput f).food.position ∧
              g1 = Game.eatFood
                { g.tickInput f with moveTimer := 0, snake := (g.tickInput f).snake.move }
                f.draws ∨
             head ≠ (g.tickInput f).food.position ∧
              g1 = { g.tickInput f with
                moveTimer := 0, snake := (g.tickInput f).snake.move }))) := by
  by_cases hp : f.input.pausePressed = true
  · left
    refine ⟨hp, ?_⟩
    simp [Game.update, hstate, Game.updatePlaying, hp] at h
    exact h.symm
  · have hpf : f.input.pausePressed = false := by simpa using hp
    right
    by_cases ht : g.moveTimer + 1 < g.gameSpeed
    · left
      rw [Game.update_playing_wait g f hstate hpf ht] at h
      cases h
      exact ⟨hpf, ht, rfl⟩
    · right
      have hge : g.moveTimer + 1 ≥ g.gameSpeed := by omega
      refine ⟨hpf, hge, ?_⟩
      rw [Game.update_playing_move g f hstate hpf hge] at h
      by_cases hc : ((g.tickInput f).snake.move.checkWallCollision ||
          (g.tickInput f).snake.move.checkSelfCollision) = true
      · left
        rw [Game.moveStep_collision _ f hc] at h
        exact ⟨hc, h⟩
      · right
        have hcf : ((g.tickInput f).snake.move.checkWallCollision ||
            (g.tickInput f).snake.move.checkSelfCollision) = false := by simpa using hc
        refine ⟨hcf, ?_⟩
        cases hseg : (g.tickInput f).snake.move.segments with
        | nil =>
          unfold Game.moveStep at h
          simp only [hcf, hseg] at h
          simp at h
        | cons head tail =>
          rw [Game.moveStep_no_collision _ f head tail hcf hseg] at h
          refine ⟨head, tail, rfl, ?_⟩
          by_cases hf : head = (g.tickInput f).food.position
          · left
            rw [if_pos hf] at h
            cases h
            exact ⟨hf, rfl⟩
          · right
            rw [if_neg hf] at h
            cases h
            exact ⟨hf, rfl⟩

theorem Game.update_paused_eq (g : Game) (f : Frame)
    (hstate : g.currentState = GameState.PAUSED) :
    g.update f = Except.ok (g.updatePaused f) := by
  simp [Game.update, hstate]

theorem Game.updatePaused_fields (g : Game) (f : Frame) :
    (g.updatePaused f).snake = g.snake ∧ (g.updatePaused f).food = g.food ∧
      (g.updatePaused f).score = g.score ∧ (g.updatePaused f).gameSpeed = g.gameSpeed ∧
      (g.updatePaused f).moveTimer = g.moveTimer ∧
      (g.updatePaused f).foodEaten = g.foodEaten ∧
      (g.updatePaused f).currentPlayer = g.currentPlayer ∧
      (g.updatePaused f).numPlayers = g.numPlayers := by
  unfold Game.updatePaused
  by_cases h1 : (f.input.pausePressed || f.input.selectPressed) = true <;>
    by_cases h2 : f.input.backPressed = true <;>
    simp [h1, h2, Game.setState]

/-! ## The counters of an attempt -/

theorem Game.eatFood_counters (g : Game) (draws : Nat → Position) :
    (g.eatFood draws).foodEaten = g.foodEaten + 1 ∧
      (g.eatFood draws).score = g.score + 10 ∧
      (g.eatFood draws).moveTimer = g.moveTimer ∧
      (g.eatFood draws).currentState = g.currentState ∧
      (g.eatFood draws).snake = g.snake.grow ∧
      (g.eatFood draws).currentPlayer = g.currentPlayer ∧
      (g.eatFood draws).numPlayers = g.numPlayers ∧
      (g.eatFood draws).gameSpeed =
        if Int.tmod (g.foodEaten + 1) 5 = 0 then
          if g.gameSpeed > 3 then g.gameSpeed - 1 else g.gameSpeed
        else g.gameSpeed :=
  ⟨rfl, rfl, rfl, rfl, rfl, rfl, rfl, rfl⟩

/-- In every state of an attempt the score is ten times the food eaten, the
speed follows from the food eaten, and the move timer is below the speed. -/
theorem Game.InAttempt.counters {g : Game} (h : Game.InAttempt g) :
    0 ≤ g.foodEaten ∧ g.score = 10 * g.foodEaten ∧
      g.gameSpeed = max 3 (8 - g.foodEaten / 5) ∧
      0 ≤ g.moveTimer ∧ g.moveTimer < g.gameSpeed := by
  induction h with
  | fresh g0 draws =>
    obtain ⟨_, _, _, hs, hg, hm, hf, _⟩ := Game.setState_fields
      (g0.resetCurrentPlayer draws) GameState.PLAYING
    rw [hs, hg, hm, hf]
    simp only [Game.resetCurrentPlayer, Constants.INITIAL_GAME_SPEED]
    decide
  | @tick g g1 f _ hst hup ih =>
    obtain ⟨i0, i1, i2, i3, i4⟩ := ih
    rcases hst with hst | hst
    · obtain ⟨tsc, tfe, tgs, _, _, _, _, tmt, _⟩ := Game.tickInput_fields g f
      rcases Game.update_playing_cases g g1 f hst hup with
        ⟨_, h1⟩ | ⟨_, hlt, h1⟩ | ⟨_, hge, ⟨_, h1⟩ | ⟨_, head, tail, _, ⟨_, h1⟩ | ⟨_, h1⟩⟩⟩
      · obtain ⟨_, _, _, hs, hg, hm, hf, _⟩ := Game.setState_fields g GameState.PAUSED
        rw [h1, hs, hg, hm, hf]
        exact ⟨i0, i1, i2, i3, i4⟩
      · rw [h1, tsc, tfe, tgs, tmt]
        exact ⟨i0, i1, i2, by omega, hlt⟩
      · obtain ⟨_, _, _, hs, hg, hm, hf, _⟩ := Game.handleGameOver_fields _ _ _ h1
        rw [hs, hg, hm, hf]
        simp only [tsc, tfe, tgs]
        exact ⟨i0, i1, i2, le_refl _, by omega⟩
      · obtain ⟨hf, hs, hm, _, _, _, _, hg⟩ := Game.eatFood_counters
          { g.tickInput f with moveTimer := 0, snake := (g.tickInput f).snake.move } f.draws
        rw [h1, hf, hs, hm, hg]
        simp only [tsc, tfe, tgs]
        rw [Int.tmod_eq_emod (by omega) (by decide)]
        refine ⟨by omega, by omega, ?_, le_refl _, ?_⟩
        · split_ifs <;> omega
        · split_ifs <;> omega
      · rw [h1]
        simp only [tsc, tfe, tgs]
        exact ⟨i0, i1, i2, le_refl _, by omega⟩
    · rw [Game.update_paused_eq g f hst] at hup
      cases hup
      obtain ⟨_, _, hs, hg, hm, hf, _⟩ := Game.updatePaused_fields g f
      rw [hs, hg, hm, hf]
      exact ⟨i0, i1, i2, i3, i4⟩

/-- C22: in every state reached from a fresh attempt (`resetCurrentPlayer`) by
any sequence of PLAYING ticks, `gameSpeed` is max(`MIN_GAME_SPEED`,
`INITIAL_GAME_SPEED` - floor(`foodEaten` / `SPEED_INCREASE_INTERVAL`)), that is
max(3, 8 - floor(`foodEaten` / 5)), and the score is 10 times `foodEaten`. -/
theorem Game.speed_and_score_formula (g : Game) (h : Game.InAttempt g) :
    g.gameSpeed =
        max Constants.MIN_GAME_SPEED
          (Constants.INITIAL_GAME_SPEED - g.foodEaten / Constants.SPEED_INCREASE_INTERVAL) ∧
      g.gameSpeed = max 3 (8 - g.foodEaten / 5) ∧
      0 ≤ g.foodEaten ∧
      g.score = 10 * g.foodEaten := by
  obtain ⟨h0, h1, h2, _, _⟩ := h.counters
  exact ⟨h2, h2, h0, h1⟩

theorem Game.nearGameAfter_inAttempt :
    ∀ k, k ≤ 7 → Game.InAttempt (nearGameAfter k) ∧
      (nearGameAfter k).currentState = GameState.PLAYING ∧
      (nearGameAfter k).moveTimer = (k : Int) ∧ (nearGameAfter k).gameSpeed = 8 := by
  intro k
  induction k with
  | zero =>
    intro _
    exact ⟨Game.InAttempt.fresh Game.new nearDraws, rfl, rfl, rfl⟩
  | succ k ih =>
    intro hk
    obtain ⟨h1, h2, h3, h4⟩ := ih (by omega)
    obtain ⟨_, _, tgs, _, _, _, tst, tmt, _⟩ := Game.tickInput_fields (nearGameAfter k) nearFrame
    refine ⟨Game.InAttempt.tick nearFrame h1 (Or.inl h2) ?_, ?_, ?_, ?_⟩
    · exact Game.update_playing_wait _ _ h2 rfl (by rw [h3, h4]; omega)
    · exact tst.trans h2
    · show ((nearGameAfter k).tickInput nearFrame).moveTimer = _
      rw [tmt, h3]
      push_cast
      rfl
    · exact tgs.trans h4

theorem Game.afterMeal_inAttempt : Game.InAttempt afterMeal :=
  Game.InAttempt.tick nearFrame (Game.nearGameAfter_inAttempt 7 (le_refl _)).1 (Or.inl rfl)
    (rfl : (nearGameAfter 7).update nearFrame = Except.ok afterMeal)

theorem Game.speed_and_score_formula_witness :
    Game.InAttempt afterMeal ∧
      afterMeal.foodEaten = 1 ∧ afterMeal.gameSpeed = 8 ∧ afterMeal.score = 10 ∧
      (afterMeal.gameSpeed =
          max Constants.MIN_GAME_SPEED
            (Constants.INITIAL_GAME_SPEED -
              afterMeal.foodEaten / Constants.SPEED_INCREASE_INTERVAL) ∧
        afterMeal.gameSpeed = max 3 (8 - afterMeal.foodEaten / 5) ∧
        0 ≤ afterMeal.foodEaten ∧
        afterMeal.score = 10 * afterMeal.foodEaten) :=
  ⟨Game.afterMeal_inAttempt, rfl, rfl, rfl,
    Game.speed_and_score_formula afterMeal Game.afterMeal_inAttempt⟩

/-! ## The move timer -/

theorem Game.updates_waiting (fs : List Frame) :
    ∀ g : Game, g.currentState = GameState.PLAYING →
      (∀ x ∈ fs, x.input.pausePressed = false) →
      g.moveTimer + (fs.length : Int) < g.gameSpeed →
      ∃ gk, g.updates fs = Except.ok gk ∧ gk.snake.segments = g.snake.segments ∧
        gk.moveTimer = g.moveTimer + (fs.length : Int) ∧
        gk.currentState = GameState.PLAYING ∧ gk.gameSpeed = g.gameSpeed ∧
        gk.currentPlayer = g.currentPlayer ∧ gk.snake.alive = g.snake.alive := by
  induction fs with
  | nil =>
    intro g _ _ _
    exact ⟨g, rfl, rfl, by simp, by assumption, rfl, rfl, rfl⟩
  | cons f fs ih =>
    intro g hstate hnp hlt
    simp only [List.length_cons, Nat.cast_add, Nat.cast_one] at hlt
    obtain ⟨_, _, tgs, _, tcp, _, tst, tmt, tal, tsg, _⟩ := Game.tickInput_fields g f
    have hup := Game.update_playing_wait g f hstate (hnp f (by simp)) (by omega)
    obtain ⟨gk, h1, h2, h3, h4, h5, h6, h7⟩ := ih (g.tickInput f) (tst.trans hstate)
      (fun x hx => hnp x (by simp [hx])) (by rw [tmt, tgs]; omega)
    refine ⟨gk, ?_, h2.trans tsg, ?_, h4, h5.trans tgs, h6.trans tcp, h7.trans tal⟩
    · unfold Game.updates
      rw [hup]
      exact h1
    · rw [h3, tmt]
      simp only [List.length_cons, Nat.cast_add, Nat.cast_one]
      omega

theorem Game.moveStep_segments (g g1 : Game) (f : Frame)
    (h : g.moveStep f = Except.ok g1) :
    g1.snake.segments = g.snake.move.segments ∧ g1.moveTimer = 0 := by
  by_cases hc : (g.snake.move.checkWallCollision || g.snake.move.checkSelfCollision) = true
  · rw [Game.moveStep_collision g f hc] at h
    obtain ⟨_, hs, _, _, _, hm, _⟩ := Game.handleGameOver_fields _ _ _ h
    rw [hs, hm]
    exact ⟨rfl, rfl⟩
  · have hcf : (g.snake.move.checkWallCollision || g.snake.move.checkSelfCollision) = false := by
      simpa using hc
    cases hseg : g.snake.move.segments with
    | nil =>
      unfold Game.moveStep at h
      simp only [hcf, hseg] at h
      simp at h
    | cons head tail =>
      rw [Game.moveStep_no_collision g f head tail hcf hseg] at h
      split at h
      · cases h
        exact ⟨hseg, rfl⟩
      · cases h
        exact ⟨hseg, rfl⟩

/-- C23: in the PLAYING state with `moveTimer` = 0 and `gameSpeed` ≥ 1 (it is
the number of frames of `fs` plus one), over `gameSpeed` consecutive ticks
without pause (the frames `fs`, then `f`) the
segments are unchanged during the first `gameSpeed` - 1 ticks and `move()` is
applied once, on the last tick, to the body as it was; and in every state of
an attempt 0 ≤ `moveTimer` < `gameSpeed`. -/
theorem Game.move_once_per_gameSpeed (g : Game) (fs : List Frame) (f : Frame)
    (hstate : g.currentState = GameState.PLAYING)
    (htimer : g.moveTimer = 0)
    (hlen : (fs.length : Int) + 1 = g.gameSpeed)
    (hnp : ∀ x ∈ fs, x.input.pausePressed = false)
    (hnpf : f.input.pausePressed = false) :
    (∀ k, k ≤ fs.length →
        ∃ gk, g.updates (fs.take k) = Except.ok gk ∧
          gk.snake.segments = g.snake.segments ∧ gk.moveTimer = (k : Int) ∧
          gk.currentState = GameState.PLAYING) ∧
      (∃ gk, g.updates fs = Except.ok gk ∧
        gk.snake.segments = g.snake.segments ∧
        (gk.tickInput f).snake.segments = g.snake.segments ∧
        gk.update f = Game.moveStep (gk.tickInput f) f ∧
        (∀ g1, gk.update f = Except.ok g1 →
          g1.snake.segments = (gk.tickInput f).snake.move.segments ∧ g1.moveTimer = 0) ∧
        ((g.currentPlayer = 1 ∨ g.currentPlayer = 2) → g.snake.segments ≠ [] →
          ∃ g1, gk.update f = Except.ok g1)) ∧
      (∀ ga, Game.InAttempt ga → 0 ≤ ga.moveTimer ∧ ga.moveTimer < ga.gameSpeed) := by
  refine ⟨?_, ?_, ?_⟩
  · intro k hk
    obtain ⟨gk, h1, h2, h3, h4, _⟩ := Game.updates_waiting (fs.take k) g hstate
      (fun x hx => hnp x (List.mem_of_mem_take hx))
      (by rw [List.length_take, htimer]; omega)
    refine ⟨gk, h1, h2, ?_, h4⟩
    rw [h3, htimer, List.length_take]
    simp only [zero_add, Nat.cast_inj]
    omega
  · obtain ⟨gk, h1, h2, h3, h4, h5, h6, _⟩ := Game.updates_waiting fs g hstate hnp
      (by rw [htimer]; omega)
    obtain ⟨_, _, _, _, tcp, _, _, _, _, tsg, _⟩ := Game.tickInput_fields gk f
    have hup := Game.update_playing_move gk f h4 hnpf (by rw [h3, h5, htimer]; omega)
    refine ⟨gk, h1, h2, tsg.trans h2, hup, ?_, ?_⟩
    · intro g1 hg1
      rw [hup] at hg1
      exact Game.moveStep_segments _ _ _ hg1
    · intro hp hne
      rw [hup]
      exact Game.moveStep_defined _ f (by rw [tcp, h6]; exact hp)
        (by rw [tsg, h2]; exact hne)
  · intro ga ha
    obtain ⟨_, _, _, h3, h4⟩ := ha.counters
    exact ⟨h3, h4⟩

theorem Game.move_once_per_gameSpeed_witness :
    nearGame.currentState = GameState.PLAYING ∧ nearGame.moveTimer = 0 ∧
      nearGame.gameSpeed = 8 ∧ sevenNearFrames.length = 7 ∧
      nearGame.updates sevenNearFrames = Except.ok (nearGameAfter 7) ∧
      (nearGameAfter 7).snake.segments = nearGame.snake.segments ∧
      (nearGameAfter 7).update nearFrame = Except.ok afterMeal ∧
      afterMeal.snake.segments = nearGame.snake.move.segments ∧
      (∃ gk, nearGame.updates sevenNearFrames = Except.ok gk ∧
        gk.snake.segments = nearGame.snake.segments ∧
        (gk.tickInput nearFrame).snake.segments = nearGame.snake.segments ∧
        gk.update nearFrame = Game.moveStep (gk.tickInput nearFrame) nearFrame ∧
        (∀ g1, gk.update nearFrame = Except.ok g1 →
          g1.snake.segments = (gk.tickInput nearFrame).snake.move.segments ∧
            g1.moveTimer = 0) ∧
        ((nearGame.currentPlayer = 1 ∨ nearGame.currentPlayer = 2) →
          nearGame.snake.segments ≠ [] →
          ∃ g1, gk.update nearFrame = Except.ok g1)) :=
  ⟨rfl, rfl, rfl, rfl, rfl, rfl, rfl, rfl,
    (Game.move_once_per_gameSpeed nearGame sevenNearFrames nearFrame rfl rfl (by decide)
      (fun x hx => by rw [List.eq_of_mem_replicate hx]; rfl) rfl).2.1⟩

/-! ## The body during an attempt -/

theorem Snake.step_adjacent (p : Position) (d : Direction) (hd : d ≠ Direction.NONE) :
    Adjacent (Snake.step p d) p := by
  cases d <;> simp_all [Snake.step, Adjacent]

theorem Snake.move_keeps (s : Snake) (hA : s.alive = true) (hne : s.segments ≠ []) :
    s.move.alive = true ∧ s.move.nextDirection = s.nextDirection ∧ s.move.segments ≠ [] := by
  obtain ⟨front, rest, hseg⟩ := List.exists_cons_of_ne_nil hne
  rw [Snake.move_of_alive_cons s front rest hA hseg]
  by_cases hE : s.hasEaten = true
  · rw [if_pos hE]
    exact ⟨hA, rfl, by simp⟩
  · rw [if_neg hE]
    exact ⟨hA, rfl, by simp [List.dropLast]⟩

/-- A move of an alive creature that ends without wall or self collision keeps
the body inside the grid, without repetition and connected. -/
theorem Snake.move_wellFormed (s : Snake) (hA : s.alive = true)
    (hN : s.nextDirection ≠ Direction.NONE) (hne : s.segments ≠ [])
    (hwf : WellFormedBody s.segments)
    (hcol : (s.move.checkWallCollision || s.move.checkSelfCollision) = false) :
    WellFormedBody s.move.segments := by
  obtain ⟨front, rest, hseg⟩ := List.exists_cons_of_ne_nil hne
  obtain ⟨hgrid, hnodup, hchain⟩ := hwf
  rw [hseg] at hgrid hnodup hchain
  have hfull : List.Chain' Adjacent (Snake.step front s.nextDirection :: front :: rest) :=
    List.Chain'.cons (Snake.step_adjacent front s.nextDirection hN) hchain
  have hshape : ∃ tl, s.move.segments = Snake.step front s.nextDirection :: tl ∧
      tl.Sublist (front :: rest) ∧
      List.Chain' Adjacent (Snake.step front s.nextDirection :: tl) := by
    rw [Snake.move_of_alive_cons s front rest hA hseg]
    by_cases hE : s.hasEaten = true
    · rw [if_pos hE]
      exact ⟨front :: rest, rfl, List.Sublist.refl _, hfull⟩
    · rw [if_neg hE]
      refine ⟨(front :: rest).dropLast, List.dropLast_cons₂, List.dropLast_sublist _, ?_⟩
      have := List.Chain'.init hfull
      rwa [List.dropLast_cons₂] at this
  obtain ⟨tl, hm, hsub, hch⟩ := hshape
  simp only [Bool.or_eq_false_iff] at hcol
  obtain ⟨hwall, hself⟩ := hcol
  unfold Snake.checkWallCollision at hwall
  unfold Snake.checkSelfCollision at hself
  rw [hm] at hwall hself
  simp only [Bool.or_eq_false_iff, decide_eq_false_iff_not] at hwall
  have hw : Constants.GRID_WIDTH = 40 := by decide
  have hh : Constants.GRID_HEIGHT = 27 := by decide
  rw [hw, hh] at hwall
  have hhead : InGrid (Snake.step front s.nextDirection) := by
    unfold InGrid
    omega
  have hnotin : Snake.step front s.nextDirection ∉ tl := by
    intro hin
    have := (List.any_eq_false.mp hself) _ hin
    simp at this
  rw [hm]
  refine ⟨?_, List.nodup_cons.mpr ⟨hnotin, List.Nodup.sublist hsub hnodup⟩, hch⟩
  intro p hp
  rcases List.mem_cons.mp hp with h | h
  · rw [h]
    exact hhead
  · exact hgrid p (hsub.subset h)

theorem Snake.fresh_wellFormed :
    Snake.fresh.alive = true ∧ Snake.fresh.nextDirection ≠ Direction.NONE ∧
      Snake.fresh.segments ≠ [] ∧ WellFormedBody Snake.fresh.segments := by
  refine ⟨by decide, by decide, by decide, ?_, by decide, ?_⟩
  · intro p hp
    have hp2 : p ∈ [({ x := 20, y := 13 } : Position), { x := 19, y := 13 },
        { x := 18, y := 13 }] := hp
    simp only [List.mem_cons, List.mem_singleton, List.not_mem_nil, or_false] at hp2
    rcases hp2 with h | h | h <;> rw [h] <;> unfold InGrid <;> decide
  · show List.Chain' Adjacent [({ x := 20, y := 13 } : Position), { x := 19, y := 13 },
      { x := 18, y := 13 }]
    simp [Adjacent]

/-- While an attempt is in PLAYING or PAUSED, the creature is alive, has a real
direction buffered, and its body is not empty and well formed. -/
theorem Game.InAttempt.snake_invariant {g : Game} (h : Game.InAttempt g) :
    (g.currentState = GameState.PLAYING ∨ g.currentState = GameState.PAUSED) →
      g.snake.alive = true ∧ g.snake.nextDirection ≠ Direction.NONE ∧
        g.snake.segments ≠ [] ∧ WellFormedBody g.snake.segments := by
  induction h with
  | fresh g0 draws =>
    intro _
    rw [(Game.setState_fields _ _).2.1]
    have hfresh : (g0.resetCurrentPlayer draws).snake = Snake.fresh := rfl
    rw [hfresh]
    exact Snake.fresh_wellFormed
  | @tick g g1 f _ hst hup ih =>
    intro hst1
    obtain ⟨iA, iN, iE, iW⟩ := ih hst
    have htick : (g.tickInput f).snake.alive = true ∧
        (g.tickInput f).snake.nextDirection ≠ Direction.NONE ∧
        (g.tickInput f).snake.segments ≠ [] ∧
        WellFormedBody (g.tickInput f).snake.segments := by
      rcases Game.tickInput_snake g f with h | ⟨hd, h⟩
      · rw [h]
        exact ⟨iA, iN, iE, iW⟩
      · rw [h]
        exact ⟨iA, hd, iE, iW⟩
    obtain ⟨tA, tN, tE, tW⟩ := htick
    rcases hst with hst | hst
    · rcases Game.update_playing_cases g g1 f hst hup with
        ⟨_, h1⟩ | ⟨_, _, h1⟩ | ⟨_, _, ⟨_, h1⟩ | ⟨hcf, head, tail, _, ⟨_, h1⟩ | ⟨_, h1⟩⟩⟩
      · rw [h1, (Game.setState_fields _ _).2.1]
        exact ⟨iA, iN, iE, iW⟩
      · rw [h1]
        exact ⟨tA, tN, tE, tW⟩
      · have hover := (Game.handleGameOver_fields _ _ _ h1).1
        rw [hover] at hst1
        rcases hst1 with h | h <;> cases h
      · obtain ⟨mA, mN, mE⟩ := Snake.move_keeps _ tA tE
        have mW := Snake.move_wellFormed _ tA tN tE tW hcf
        rw [h1, (Game.eatFood_counters _ _).2.2.2.2.1]
        exact ⟨mA, by rw [show ((g.tickInput f).snake.move.grow).nextDirection =
          (g.tickInput f).snake.move.nextDirection from rfl, mN]; exact tN, mE, mW⟩
      · obtain ⟨mA, mN, mE⟩ := Snake.move_keeps _ tA tE
        have mW := Snake.move_wellFormed _ tA tN tE tW hcf
        rw [h1]
        exact ⟨mA, by rw [show ({ g.tickInput f with
            moveTimer := 0, snake := (g.tickInput f).snake.move } : Game).snake.nextDirection =
          (g.tickInput f).snake.move.nextDirection from rfl, mN]; exact tN, mE, mW⟩
    · rw [Game.update_paused_eq g f hst] at hup
      cases hup
      rw [(Game.updatePaused_fields g f).1]
      exact ⟨iA, iN, iE, iW⟩

/-- C28: in every state that is in PLAYING and was reached from a fresh
attempt (`resetCurrentPlayer`) by ticks with any direction inputs and any food
draws, the creature is alive, all its segments lie inside the grid
[0,40) x [0,27), the segments are pairwise distinct, and consecutive segments
are at Manhattan distance 1. -/
theorem Game.body_well_formed (g : Game) (h : Game.InAttempt g)
    (hstate : g.currentState = GameState.PLAYING) :
    g.snake.alive = true ∧
      (∀ p ∈ g.snake.segments, 0 ≤ p.x ∧ p.x < 40 ∧ 0 ≤ p.y ∧ p.y < 27) ∧
      g.snake.segments.Nodup ∧
      g.snake.segments.Chain' (fun a b => |a.x - b.x| + |a.y - b.y| = 1) ∧
      WellFormedBody g.snake.segments := by
  obtain ⟨hA, _, _, hW⟩ := h.snake_invariant (Or.inl hstate)
  exact ⟨hA, hW.1, hW.2.1, hW.2.2, hW⟩

theorem Game.body_well_formed_witness :
    Game.InAttempt afterMeal ∧ afterMeal.currentState = GameState.PLAYING ∧
      afterMeal.snake.segments =
        [{ x := 21, y := 13 }, { x := 20, y := 13 }, { x := 19, y := 13 }] ∧
      (afterMeal.snake.alive = true ∧
        (∀ p ∈ afterMeal.snake.segments, 0 ≤ p.x ∧ p.x < 40 ∧ 0 ≤ p.y ∧ p.y < 27) ∧
        afterMeal.snake.segments.Nodup ∧
        afterMeal.snake.segments.Chain' (fun a b => |a.x - b.x| + |a.y - b.y| = 1) ∧
        WellFormedBody afterMeal.snake.segments) :=
  ⟨Game.afterMeal_inAttempt, rfl, rfl,
    Game.body_well_formed afterMeal Game.afterMeal_inAttempt rfl⟩

/-! ## The state machine: player fields and the unused state -/

theorem Game.updateEnterInitials_ok (g g1 : Game) (f : Frame) (hv : g.PlayersOK)
    (h : g.updateEnterInitials f = Except.ok g1) : g1.PlayersOK := by
  obtain ⟨hnp, hcp, hlen⟩ := hv
  have hfresh : ∀ s : Snake, 3 ≤ s.reset.segments.length := by
    intro s
    rw [Snake.reset_eq_fresh]
    decide
  unfold Game.updateEnterInitials at h
  simp only [bind, Except.bind, Game.playerAt, Game.setPlayerAt] at h
  by_cases hr : (g.menu.handleInitialsInput f.input).2 = true
  · rcases hcp with h1 | ⟨h2, hn2⟩
    · by_cases hn : g.numPlayers = 2
      · simp [hr, h1, hn] at h
        split_ifs at h <;> cases h <;> simp [Game.PlayersOK, hn, hlen]
      · simp [hr, h1, hn] at h
        split_ifs at h <;> cases h <;>
          simp [Game.PlayersOK, hnp, hlen, Game.startNewGame, Game.setState,
            Game.resetCurrentPlayer, hfresh]
    · simp [hr, h2, hn2] at h
      split_ifs at h <;> cases h <;>
          simp [Game.PlayersOK, hn2, hlen, Game.startNewGame, Game.setState,
            Game.resetCurrentPlayer, hfresh]
  · simp [hr] at h
    split_ifs at h <;> cases h <;>
      simp [Game.PlayersOK, hnp, hcp, hlen, Game.setState]

theorem Game.updateEnterInitials_defined (g : Game) (f : Frame)
    (hcp : g.currentPlayer = 1 ∨ g.currentPlayer = 2) :
    ∃ g1, g.updateEnterInitials f = Except.ok g1 := by
  unfold Game.updateEnterInitials
  simp only [bind, Except.bind, Game.playerAt, Game.setPlayerAt]
  by_cases hr : (g.menu.handleInitialsInput f.input).2 = true
  · rcases hcp with h1 | h2
    · by_cases hn : g.numPlayers = 2
      · simp [hr, h1, hn]
        split_ifs <;> exact ⟨_, rfl⟩
      · simp [hr, h1, hn]
        split_ifs <;> exact ⟨_, rfl⟩
    · simp [hr, h2]
      split_ifs <;> exact ⟨_, rfl⟩
  · simp [hr]
    split_ifs <;> exact ⟨_, rfl⟩

theorem Game.updateEnterInitials_state (g g1 : Game) (f : Frame)
    (h : g.updateEnterInitials f = Except.ok g1) :
    g1.currentState = g.currentState ∨ g1.currentState = GameState.PLAYING ∨
      g1.currentState = GameState.MENU := by
  unfold Game.updateEnterInitials at h
  simp only [bind, Except.bind, Game.playerAt, Game.setPlayerAt] at h
  by_cases hr : (g.menu.handleInitialsInput f.input).2 = true
  · by_cases h0 : g.currentPlayer - 1 = 0
    · simp [hr, h0] at h
      split_ifs at h <;> cases h <;> simp [Game.startNewGame, Game.setState]
    · by_cases h1 : g.currentPlayer - 1 = 1
      · simp [hr, h0, h1] at h
        split_ifs at h <;> cases h <;> simp [Game.startNewGame, Game.setState]
      · simp [hr, h0, h1] at h
  · simp [hr] at h
    split_ifs at h <;> cases h <;> simp [Game.setState]

theorem Game.updateMenu_ok (g : Game) (f : Frame) (hv : g.PlayersOK) :
    (g.updateMenu f).PlayersOK ∧
      ((g.updateMenu f).currentState = g.currentState ∨
        (g.updateMenu f).currentState = GameState.ENTER_INITIALS ∨
        (g.updateMenu f).currentState = GameState.HIGH_SCORES) := by
  obtain ⟨hnp, hcp, hlen⟩ := hv
  unfold Game.updateMenu
  simp only
  split_ifs <;> simp [Game.PlayersOK, Game.setState, hnp, hcp, hlen]

theorem Game.updateMenu_state (g : Game) (f : Frame) :
    (g.updateMenu f).currentState = g.currentState ∨
      (g.updateMenu f).currentState = GameState.ENTER_INITIALS ∨
      (g.updateMenu f).currentState = GameState.HIGH_SCORES := by
  unfold Game.updateMenu
  simp only
  split_ifs <;> simp [Game.setState]

theorem Game.updateGameOver_ok (g : Game) (f : Frame) (hv : g.PlayersOK) :
    (g.updateGameOver f).PlayersOK := by
  obtain ⟨hnp, hcp, hlen⟩ := hv
  unfold Game.updateGameOver
  simp only
  split_ifs with h1 h2 <;>
    simp_all [Game.PlayersOK, Game.setState, Game.switchToNextPlayer]

theorem Game.updateGameOver_state (g : Game) (f : Frame) :
    (g.updateGameOver f).currentState = g.currentState ∨
      (g.updateGameOver f).currentState = GameState.PLAYER_SWITCH ∨
      (g.updateGameOver f).currentState = GameState.FINAL_RESULTS ∨
      (g.updateGameOver f).currentState = GameState.MENU := by
  unfold Game.updateGameOver
  simp only
  split_ifs <;> simp [Game.setState, Game.switchToNextPlayer]

theorem Game.updatePlayerSwitch_ok (g : Game) (f : Frame) (hv : g.PlayersOK) :
    (g.updatePlayerSwitch f).PlayersOK ∧
      ((g.updatePlayerSwitch f).currentState = g.currentState ∨
        (g.updatePlayerSwitch f).currentState = GameState.PLAYING ∨
        (g.updatePlayerSwitch f).currentState = GameState.MENU) := by
  obtain ⟨hnp, hcp, hlen⟩ := hv
  have hfresh : 3 ≤ g.snake.reset.segments.length := by
    rw [Snake.reset_eq_fresh]
    decide
  unfold Game.updatePlayerSwitch
  simp only
  split_ifs <;>
    simp [Game.PlayersOK, Game.setState, Game.resetCurrentPlayer, hnp, hcp, hlen, hfresh]

theorem Game.updateSimple_ok (g : Game) (f : Frame) (hv : g.PlayersOK) :
    (g.updatePaused f).PlayersOK ∧ (g.updateHighScores f).PlayersOK ∧
      (g.updateFinalResults f).PlayersOK := by
  obtain ⟨hnp, hcp, hlen⟩ := hv
  refine ⟨?_, ?_, ?_⟩
  · unfold Game.updatePaused
    simp only
    split_ifs <;> simp [Game.PlayersOK, Game.setState, hnp, hcp, hlen]
  · unfold Game.updateHighScores
    split_ifs <;> simp [Game.PlayersOK, Game.setState, hnp, hcp, hlen]
  · unfold Game.updateFinalResults
    split_ifs <;> simp [Game.PlayersOK, Game.setState, hnp, hcp, hlen]

theorem Game.updateSimple_state (g : Game) (f : Frame) :
    ((g.updatePaused f).currentState = g.currentState ∨
        (g.updatePaused f).currentState = GameState.PLAYING ∨
        (g.updatePaused f).currentState = GameState.MENU) ∧
      ((g.updateHighScores f).currentState = g.currentState ∨
        (g.updateHighScores f).currentState = GameState.MENU) ∧
      ((g.updateFinalResults f).currentState = g.currentState ∨
        (g.updateFinalResults f).currentState = GameState.MENU) := by
  refine ⟨?_, ?_, ?_⟩
  · unfold Game.updatePaused
    simp only
    split_ifs <;> simp [Game.setState]
  · unfold Game.updateHighScores
    split_ifs <;> simp [Game.setState]
  · unfold Game.updateFinalResults
    split_ifs <;> simp [Game.setState]

theorem Game.update_playing_ok (g g1 : Game) (f : Frame)
    (hstate : g.currentState = GameState.PLAYING) (h : g.update f = Except.ok g1) :
    (g1.currentState = GameState.PLAYING ∨ g1.currentState = GameState.PAUSED ∨
        g1.currentState = GameState.GAME_OVER) ∧
      (g.PlayersOK → g1.PlayersOK) := by
  obtain ⟨_, _, _, _, tcp, tnp, tst, _, _, tsg, _⟩ := Game.tickInput_fields g f
  have hmove : g.snake.segments.length ≤ (g.tickInput f).snake.move.segments.length := by
    rw [← tsg]
    exact Snake.move_length_ge _
  rcases Game.update_playing_cases g g1 f hstate h with
    ⟨_, h1⟩ | ⟨_, _, h1⟩ | ⟨_, _, ⟨_, h1⟩ | ⟨_, head, tail, _, ⟨_, h1⟩ | ⟨_, h1⟩⟩⟩
  · rw [h1]
    refine ⟨Or.inr (Or.inl rfl), ?_⟩
    intro hv
    exact hv
  · rw [h1]
    refine ⟨Or.inl (tst.trans hstate), ?_⟩
    rintro ⟨hnp, hcp, hlen⟩
    exact ⟨by rw [tnp]; exact hnp, by rw [tcp, tnp]; exact hcp, by rw [tsg]; exact hlen⟩
  · obtain ⟨hs, hsn, _, _, _, _, _, hcp1, hnp1, _⟩ := Game.handleGameOver_fields _ _ _ h1
    refine ⟨Or.inr (Or.inr hs), ?_⟩
    rintro ⟨hnp, hcp, hlen⟩
    refine ⟨by rw [hnp1]; exact tnp ▸ hnp, ?_, ?_⟩
    · rw [hcp1, hnp1]
      show (g.tickInput f).currentPlayer = 1 ∨
        ((g.tickInput f).currentPlayer = 2 ∧ (g.tickInput f).numPlayers = 2)
      rw [tcp, tnp]
      exact hcp
    · rw [hsn]
      exact le_trans hlen hmove
  · rw [h1]
    refine ⟨Or.inl (tst.trans hstate), ?_⟩
    rintro ⟨hnp, hcp, hlen⟩
    exact ⟨tnp ▸ hnp, by
      show (g.tickInput f).currentPlayer = 1 ∨
        ((g.tickInput f).currentPlayer = 2 ∧ (g.tickInput f).numPlayers = 2)
      rw [tcp, tnp]
      exact hcp, le_trans hlen hmove⟩
  · rw [h1]
    refine ⟨Or.inl (tst.trans hstate), ?_⟩
    rintro ⟨hnp, hcp, hlen⟩
    exact ⟨tnp ▸ hnp, by
      show (g.tickInput f).currentPlayer = 1 ∨
        ((g.tickInput f).currentPlayer = 2 ∧ (g.tickInput f).numPlayers = 2)
      rw [tcp, tnp]
      exact hcp, le_trans hlen hmove⟩

theorem Game.updatePlayerSwitch_state (g : Game) (f : Frame) :
    (g.updatePlayerSwitch f).currentState = g.currentState ∨
      (g.updatePlayerSwitch f).currentState = GameState.PLAYING ∨
      (g.updatePlayerSwitch f).currentState = GameState.MENU := by
  unfold Game.updatePlayerSwitch
  simp only
  split_ifs <;> simp [Game.setState]

/-- No tick leads to PLAYER_SELECT from another state. -/
theorem Game.update_state_ne_playerSelect (g g1 : Game) (f : Frame)
    (hs : g.currentState ≠ GameState.PLAYER_SELECT) (h : g.update f = Except.ok g1) :
    g1.currentState ≠ GameState.PLAYER_SELECT := by
  cases hst : g.currentState with
  | MENU =>
    simp only [Game.update, hst] at h
    cases h
    rcases Game.updateMenu_state g f with h1 | h1 | h1 <;> rw [h1] <;> simp [hst]
  | PLAYER_SELECT => exact absurd hst hs
  | ENTER_INITIALS =>
    simp only [Game.update, hst] at h
    rcases Game.updateEnterInitials_state g g1 f h with h1 | h1 | h1 <;> rw [h1] <;>
      simp [hst]
  | PLAYING =>
    rcases (Game.update_playing_ok g g1 f hst h).1 with h1 | h1 | h1 <;> rw [h1] <;> simp
  | PAUSED =>
    simp only [Game.update, hst] at h
    cases h
    rcases (Game.updateSimple_state g f).1 with h1 | h1 | h1 <;> rw [h1] <;> simp [hst]
  | GAME_OVER =>
    simp only [Game.update, hst] at h
    cases h
    rcases Game.updateGameOver_state g f with h1 | h1 | h1 | h1 <;> rw [h1] <;> simp [hst]
  | HIGH_SCORES =>
    simp only [Game.update, hst] at h
    cases h
    rcases (Game.updateSimple_state g f).2.1 with h1 | h1 <;> rw [h1] <;> simp [hst]
  | PLAYER_SWITCH =>
    simp only [Game.update, hst] at h
    cases h
    have hv0 := Game.updatePlayerSwitch_state g f
    rcases hv0 with h1 | h1 | h1 <;> rw [h1] <;> simp [hst]
  | FINAL_RESULTS =>
    simp only [Game.update, hst] at h
    cases h
    rcases (Game.updateSimple_state g f).2.2 with h1 | h1 <;> rw [h1] <;> simp [hst]

theorem Game.update_ok (g g1 : Game) (f : Frame) (hv : g.PlayersOK)
    (hs : g.currentState ≠ GameState.PLAYER_SELECT) (h : g.update f = Except.ok g1) :
    g1.PlayersOK := by
  cases hst : g.currentState with
  | MENU =>
    simp only [Game.update, hst] at h
    cases h
    exact (Game.updateMenu_ok g f hv).1
  | PLAYER_SELECT => exact absurd hst hs
  | ENTER_INITIALS =>
    simp only [Game.update, hst] at h
    exact Game.updateEnterInitials_ok g g1 f hv h
  | PLAYING => exact (Game.update_playing_ok g g1 f hst h).2 hv
  | PAUSED =>
    simp only [Game.update, hst] at h
    cases h
    exact (Game.updateSimple_ok g f hv).1
  | GAME_OVER =>
    simp only [Game.update, hst] at h
    cases h
    exact Game.updateGameOver_ok g f hv
  | HIGH_SCORES =>
    simp only [Game.update, hst] at h
    cases h
    exact (Game.updateSimple_ok g f hv).2.1
  | PLAYER_SWITCH =>
    simp only [Game.update, hst] at h
    cases h
    exact (Game.updatePlayerSwitch_ok g f hv).1
  | FINAL_RESULTS =>
    simp only [Game.update, hst] at h
    cases h
    exact (Game.updateSimple_ok g f hv).2.2

/-- With the player fields in order, a tick is defined in every state. -/
theorem Game.update_defined (g : Game) (f : Frame) (hv : g.PlayersOK) :
    ∃ g1, g.update f = Except.ok g1 := by
  obtain ⟨_, hcp, hlen⟩ := hv
  have hcp2 : g.currentPlayer = 1 ∨ g.currentPlayer = 2 := by
    rcases hcp with h | ⟨h, _⟩
    · exact Or.inl h
    · exact Or.inr h
  have hne : g.snake.segments ≠ [] := by
    intro hnil
    rw [hnil] at hlen
    simp at hlen
  cases hst : g.currentState with
  | ENTER_INITIALS =>
    simp only [Game.update, hst]
    exact Game.updateEnterInitials_defined g f hcp2
  | PLAYING =>
    simp only [Game.update, hst]
    unfold Game.updatePlaying
    obtain ⟨_, _, _, _, tcp, _, _, _, _, tsg, _⟩ := Game.tickInput_fields g f
    split
    · exact ⟨_, rfl⟩
    · simp only
      split
      · exact Game.moveStep_defined _ f (by rw [tcp]; exact hcp2) (by rw [tsg]; exact hne)
      · exact ⟨_, rfl⟩
  | MENU =>
    simp only [Game.update, hst]
    exact ⟨_, rfl⟩
  | PLAYER_SELECT =>
    simp only [Game.update, hst]
    exact ⟨_, rfl⟩
  | PAUSED =>
    simp only [Game.update, hst]
    exact ⟨_, rfl⟩
  | GAME_OVER =>
    simp only [Game.update, hst]
    exact ⟨_, rfl⟩
  | HIGH_SCORES =>
    simp only [Game.update, hst]
    exact ⟨_, rfl⟩
  | PLAYER_SWITCH =>
    simp only [Game.update, hst]
    exact ⟨_, rfl⟩
  | FINAL_RESULTS =>
    simp only [Game.update, hst]
    exact ⟨_, rfl⟩

theorem Game.init_new (file : Option Str) (g : Game)
    (h : Game.init Game.new file = Except.ok g) :
    g.PlayersOK ∧ g.currentState = GameState.MENU := by
  unfold Game.init at h
  cases hl : HighScoreManager.load Game.new.highScores file with
  | error e =>
    rw [hl] at h
    simp [bind, Except.bind] at h
  | ok scores =>
    rw [hl] at h
    simp only [bind, Except.bind] at h
    cases h
    have h3 : 3 ≤ Game.new.snake.segments.length := by decide
    exact ⟨⟨Or.inl rfl, Or.inl rfl, h3⟩, rfl⟩

/-- In every reachable game state the player fields are in order and the state
is not PLAYER_SELECT. -/
theorem Game.Reachable.players_invariant {g : Game} (h : Game.Reachable g) :
    g.PlayersOK ∧ g.currentState ≠ GameState.PLAYER_SELECT := by
  induction h with
  | start file g hinit =>
    obtain ⟨h1, h2⟩ := Game.init_new file g hinit
    exact ⟨h1, by rw [h2]; decide⟩
  | @tick g g1 f _ hup ih =>
    exact ⟨Game.update_ok g g1 f ih.1 ih.2 hup,
      Game.update_state_ne_playerSelect g g1 f ih.2 hup⟩

/-- C27: in every state reachable from the initial game state (MENU,
`numPlayers` = 1, `currentPlayer` = 1) by any sequence of ticks with any
inputs, `numPlayers` is 1 or 2, `currentPlayer` is 1 or 2, and `currentPlayer`
is 2 only when `numPlayers` is 2; so `players[currentPlayer - 1]` is one of the
two slots, and every tick from such a state is defined. -/
theorem Game.player_index_in_bounds (g : Game) (h : Game.Reachable g) :
    (g.numPlayers = 1 ∨ g.numPlayers = 2) ∧
      (g.currentPlayer = 1 ∨ g.currentPlayer = 2) ∧
      (g.currentPlayer = 2 → g.numPlayers = 2) ∧
      (0 ≤ g.currentPlayer - 1 ∧ g.currentPlayer - 1 < 2) ∧
      (∃ slot, g.playerAt (g.currentPlayer - 1) = Except.ok slot) ∧
      (∀ f : Frame, ∃ g1, g.update f = Except.ok g1) := by
  obtain ⟨hv, _⟩ := h.players_invariant
  have hnp := hv.1
  have hcp := hv.2.1
  have hcp2 : g.currentPlayer = 1 ∨ g.currentPlayer = 2 := by
    rcases hcp with h1 | ⟨h2, _⟩
    · exact Or.inl h1
    · exact Or.inr h2
  refine ⟨hnp, hcp2, ?_, by omega, ?_, fun f => Game.update_defined g f hv⟩
  · intro h2
    rcases hcp with h1 | ⟨_, hn⟩
    · rw [h1] at h2
      cases h2
    · exact hn
  · rcases hcp2 with h1 | h2
    · exact ⟨g.players0, by simp [Game.playerAt, h1]⟩
    · exact ⟨g.players1, by simp [Game.playerAt, h2]⟩

/-- C30: the state PLAYER_SELECT is never reached: in every state reached from
the initial state MENU by any sequence of ticks the current state is not
PLAYER_SELECT, and no tick from another state leads to it. -/
theorem Game.player_select_unreachable (g : Game) (h : Game.Reachable g) :
    g.currentState ≠ GameState.PLAYER_SELECT ∧
      ∀ (g2 g3 : Game) (f : Frame), g2.currentState ≠ GameState.PLAYER_SELECT →
        g2.update f = Except.ok g3 → g3.currentState ≠ GameState.PLAYER_SELECT :=
  ⟨h.players_invariant.2, fun g2 g3 f hs hup => Game.update_state_ne_playerSelect g2 g3 f hs hup⟩

theorem Game.Reachable.updates (fs : List Frame) :
    ∀ {g g1 : Game}, Game.Reachable g → g.updates fs = Except.ok g1 → Game.Reachable g1 := by
  induction fs with
  | nil =>
    intro g g1 hr h
    cases h
    exact hr
  | cons f fs ih =>
    intro g g1 hr h
    unfold Game.updates at h
    cases hup : g.update f with
    | error e =>
      rw [hup] at h
      cases h
    | ok g2 =>
      rw [hup] at h
      exact ih (Game.Reachable.tick f hr hup) h

theorem Game.secondInitialsGame_reachable : Game.Reachable secondInitialsGame :=
  Game.Reachable.updates
    [downFrame, selectFrame, letterFrame 'A', letterFrame 'B', letterFrame 'C', selectFrame]
    (Game.Reachable.start none startedGame rfl) rfl

theorem Game.player_index_in_bounds_witness :
    Game.Reachable secondInitialsGame ∧
      secondInitialsGame.currentState = GameState.ENTER_INITIALS ∧
      secondInitialsGame.currentPlayer = 2 ∧
      ((secondInitialsGame.numPlayers = 1 ∨ secondInitialsGame.numPlayers = 2) ∧
        (secondInitialsGame.currentPlayer = 1 ∨ secondInitialsGame.currentPlayer = 2) ∧
        (secondInitialsGame.currentPlayer = 2 → secondInitialsGame.numPlayers = 2) ∧
        (0 ≤ secondInitialsGame.currentPlayer - 1 ∧ secondInitialsGame.currentPlayer - 1 < 2) ∧
        (∃ slot, secondInitialsGame.playerAt (secondInitialsGame.currentPlayer - 1) =
          Except.ok slot) ∧
        (∀ f : Frame, ∃ g1, secondInitialsGame.update f = Except.ok g1)) :=
  ⟨Game.secondInitialsGame_reachable, rfl, rfl,
    Game.player_index_in_bounds secondInitialsGame Game.secondInitialsGame_reachable⟩

theorem Game.player_select_unreachable_witness :
    Game.Reachable secondInitialsGame ∧
      secondInitialsGame.currentState ≠ GameState.PLAYER_SELECT :=
  ⟨Game.secondInitialsGame_reachable,
    (Game.player_select_unreachable secondInitialsGame Game.secondInitialsGame_reachable).1⟩

/-! ## High scores: the stored text is read back unchanged -/

theorem sizeAdd_eq {a b : Nat} (h : a + b < 2 ^ 64) : sizeAdd a b = a + b := by
  unfold sizeAdd
  exact Nat.mod_eq_of_lt h

theorem sizeSub_eq {a b : Nat} (hb : b ≤ a) (ha : a < 2 ^ 64) : sizeSub a b = a - b := by
  unfold sizeSub
  have h1 : b % 2 ^ 64 = b := Nat.mod_eq_of_lt (by omega)
  rw [h1]
  have h2 : a + 2 ^ 64 - b = (a - b) + 2 ^ 64 := by omega
  rw [h2, Nat.add_mod_right]
  exact Nat.mod_eq_of_lt (by omega)

theorem startsWith_append (pat rest : Str) : startsWith pat (pat ++ rest) = true := by
  induction pat with
  | nil => simp [startsWith]
  | cons p ps ih => simp [startsWith, ih]

theorem findAt_here (pat : Str) (c : Char) (cs : Str) (i : Nat)
    (h : startsWith pat (c :: cs) = true) : findAt pat (c :: cs) i = i := by
  simp [findAt, h]

theorem findAt_cons_ne (p : Char) (ps : Str) (c : Char) (cs : Str) (i : Nat) (h : p ≠ c) :
    findAt (p :: ps) (c :: cs) i = findAt (p :: ps) cs (i + 1) := by
  simp [findAt, startsWith, h]

theorem findAt_skip (p : Char) (ps : Str) (l rest : Str) (i : Nat) (h : ∀ c ∈ l, p ≠ c) :
    findAt (p :: ps) (l ++ rest) i = findAt (p :: ps) rest (i + l.length) := by
  induction l generalizing i with
  | nil => simp
  | cons c cs ih =>
    have hc : p ≠ c := h c (List.mem_cons_self _ _)
    have hcs : ∀ d ∈ cs, p ≠ d := fun d hd => h d (List.mem_cons_of_mem _ hd)
    rw [List.cons_append, findAt_cons_ne p ps c _ i hc, ih (i + 1) hcs, List.length_cons]
    congr 1
    omega

theorem findAt_absent (p : Char) (ps : Str) (l : Str) (i : Nat) (h : ∀ c ∈ l, p ≠ c) :
    findAt (p :: ps) l i = npos := by
  have := findAt_skip p ps l [] i h
  rw [List.append_nil] at this
  rw [this]
  simp [findAt]

theorem find_split (s pat : Str) (pos : Nat) (a b : Str) (hs : s = a ++ b)
    (hp : pos = a.length) : find s pat pos = findAt pat b pos := by
  subst hs hp
  simp [find]

theorem substr_split (s : Str) (pos len : Nat) (a m c : Str) (hs : s = a ++ (m ++ c))
    (hp : pos = a.length) (hl : len = m.length) : substr s pos len = Except.ok m := by
  subst hs hp hl
  simp [substr]

theorem substr_rest (s : Str) (pos : Nat) (a b : Str) (hs : s = a ++ b)
    (hp : pos = a.length) (hl : b.length ≤ npos) : substr s pos npos = Except.ok b := by
  subst hs hp
  simp [substr, List.take_of_length_le hl]

theorem digitChar_spec (k : Nat) (h : k < 10) :
    (Nat.digitChar k).isDigit = true ∧ ((Nat.digitChar k).toNat : Int) - 48 = k := by
  interval_cases k <;> exact ⟨by decide, by decide⟩

/-- With enough fuel `Nat.toDigitsCore` puts in front of `ds` a non-empty run of
decimal digits whose value, read as `std::stoi` reads it, is `n`. -/
theorem toDigitsCore_spec (fuel : Nat) : ∀ (n : Nat) (ds : Str), n < fuel →
    ∃ p : Str, Nat.toDigitsCore 10 fuel n ds = p ++ ds ∧ p ≠ [] ∧
      (∀ c ∈ p, c.isDigit = true) ∧
      p.foldl (fun acc c => acc * 10 + ((c.toNat : Int) - 48)) 0 = (n : Int) := by
  induction fuel with
  | zero => intro n ds h; omega
  | succ fuel ih =>
    intro n ds h
    have hd := digitChar_spec (n % 10) (Nat.mod_lt _ (by decide))
    by_cases h0 : n / 10 = 0
    · refine ⟨[Nat.digitChar (n % 10)], ?_, by simp, ?_, ?_⟩
      · simp [Nat.toDigitsCore, h0]
      · intro c hc
        rw [List.mem_singleton] at hc
        rw [hc]
        exact hd.1
      · simp only [List.foldl_cons, List.foldl_nil]
        rw [zero_mul, zero_add, hd.2]
        have : n % 10 = n := by omega
        rw [this]
    · have hlt : n / 10 < fuel := by omega
      obtain ⟨p, hp, hne, hdig, hval⟩ := ih (n / 10) (Nat.digitChar (n % 10) :: ds) hlt
      refine ⟨p ++ [Nat.digitChar (n % 10)], ?_, by simp, ?_, ?_⟩
      · simp [Nat.toDigitsCore, h0, hp]
      · intro c hc
        rcases List.mem_append.1 hc with hc | hc
        · exact hdig c hc
        · rw [List.mem_singleton] at hc
          rw [hc]
          exact hd.1
      · rw [List.foldl_append, hval]
        simp only [List.foldl_cons, List.foldl_nil]
        rw [hd.2]
        omega

theorem intToStr_spec (n : Int) (h : 0 < n) :
    intToStr n ≠ [] ∧ (∀ c ∈ intToStr n, c.isDigit = true) ∧
      (intToStr n).foldl (fun acc c => acc * 10 + ((c.toNat : Int) - 48)) 0 = n := by
  have hn : ¬ n < 0 := by omega
  obtain ⟨p, hp, hne, hdig, hval⟩ := toDigitsCore_spec (n.toNat + 1) n.toNat [] (by omega)
  have heq : intToStr n = p := by
    simp only [intToStr, hn, if_false, Nat.toDigits]
    rw [hp, List.append_nil]
  rw [heq]
  refine ⟨hne, hdig, ?_⟩
  rw [hval]
  omega

/-- The call `std::stoi` on a space, a run of digits and a comma returns the
value of the digits. -/
theorem stoi_number (ds rest : Str) (v : Int) (hne : ds ≠ [])
    (hdig : ∀ c ∈ ds, c.isDigit = true)
    (hval : ds.foldl (fun acc c => acc * 10 + ((c.toNat : Int) - 48)) 0 = v)
    (hpos : 0 < v) (hmax : v ≤ 2 ^ 31 - 1) :
    stoi (' ' :: (ds ++ ',' :: rest)) = Except.ok v := by
  obtain ⟨d, ds', rfl⟩ := List.exists_cons_of_ne_nil hne
  have hd : d.isDigit = true := hdig d (List.mem_cons_self _ _)
  have hsp : isSpace d = false := by
    unfold isSpace
    unfold Char.isDigit at hd
    simp only [Char.toNat]
    simp only [Bool.and_eq_true, decide_eq_true_eq] at hd
    have h1 := hd.1
    have h2 : (48 : UInt32) ≤ d.val := h1
    have h3 : 48 ≤ d.val.toNat := h2
    simp only [Bool.or_eq_false_iff, decide_eq_false_iff_not, Bool.and_eq_false_iff]
    omega
  have hminus : d ≠ '-' := by
    rintro rfl
    exact absurd hd (by decide)
  have hplus : d ≠ '+' := by
    rintro rfl
    exact absurd hd (by decide)
  have hdrop : (' ' :: (d :: ds' ++ ',' :: rest)).dropWhile isSpace
      = d :: (ds' ++ ',' :: rest) := by
    rw [List.dropWhile_cons_of_pos (by decide), List.cons_append,
      List.dropWhile_cons_of_neg (by simp [hsp])]
  have htake : (d :: (ds' ++ ',' :: rest)).takeWhile Char.isDigit = d :: ds' := by
    rw [← List.cons_append]
    rw [List.takeWhile_append_of_pos hdig]
    simp [List.takeWhile]
  unfold stoi
  simp only [hdrop]
  have hmatch : (match d :: (ds' ++ ',' :: rest) with
      | '-' :: r => (true, r)
      | '+' :: r => (false, r)
      | _ => (false, d :: (ds' ++ ',' :: rest))) = (false, d :: (ds' ++ ',' :: rest)) := by
    split
    · rename_i h; exact absurd (List.cons.inj h).1 hminus
    · rename_i h; exact absurd (List.cons.inj h).1 hplus
    · rfl
  rw [hmatch]
  simp only [htake, hval]
  simp
  constructor <;> omega

theorem HighScoreManager.keyInitials_eq : keyInitials = ['\x22', 'i', 'n', 'i', 't', 'i', 'a', 'l', 's', '\x22'] := rfl

theorem HighScoreManager.keyScore_eq : keyScore = ['\x22', 's', 'c', 'o', 'r', 'e', '\x22'] := rfl

theorem HighScoreManager.keyDate_eq : keyDate = ['\x22', 'd', 'a', 't', 'e', '\x22'] := rfl

theorem HighScoreManager.keyScores_eq : keyScores = ['\x22', 's', 'c', 'o', 'r', 'e', 's', '\x22'] := rfl

theorem HighScoreManager.chQuote_eq : chQuote = '\x22' := rfl

/-- The text between the first two quotes at or after `start` is returned when
neither it nor the text before the first quote holds a quote. -/
theorem HighScoreManager.quotedValue_spec (s a u val rest : Str) (start : Nat)
    (hs : s = a ++ (u ++ (chQuote :: (val ++ (chQuote :: rest)))))
    (hstart : start = a.length) (hu : ∀ c ∈ u, chQuote ≠ c) (hval : ∀ c ∈ val, chQuote ≠ c)
    (hlen : s.length < 2 ^ 64) :
    quotedValue s start = Except.ok (some val) := by
  have hl : s.length = a.length + (u.length + (val.length + (rest.length + 1) + 1)) := by
    rw [hs]
    simp only [List.length_append, List.length_cons]
  have h1 : findChar s chQuote start = a.length + u.length := by
    unfold findChar
    rw [find_split s [chQuote] start a _ hs hstart, findAt_skip chQuote [] u _ start hu,
      findAt_here _ _ _ _ (by simp [startsWith]), hstart]
  have h2 : sizeAdd (a.length + u.length) 1 = a.length + u.length + 1 :=
    sizeAdd_eq (by omega)
  have h3 : findChar s chQuote (a.length + u.length + 1)
      = a.length + u.length + 1 + val.length := by
    unfold findChar
    rw [find_split s [chQuote] _ (a ++ (u ++ [chQuote])) (val ++ (chQuote :: rest))
      (by rw [hs]; simp) (by simp; omega), findAt_skip chQuote [] val _ _ hval,
      findAt_here _ _ _ _ (by simp [startsWith])]
  unfold quotedValue
  simp only [h1, h2, h3]
  have hn1 : a.length + u.length ≠ npos := by unfold npos; omega
  have hn2 : a.length + u.length + 1 + val.length ≠ npos := by unfold npos; omega
  rw [if_pos ⟨hn1, hn2⟩]
  have h4 : sizeSub (a.length + u.length + 1 + val.length) (a.length + u.length)
      = val.length + 1 := by
    rw [sizeSub_eq (by omega) (by omega)]
    omega
  have h5 : sizeSub (val.length + 1) 1 = val.length := by
    rw [sizeSub_eq (by omega) (by omega)]
    omega
  rw [h4, h5, substr_split s _ _ (a ++ (u ++ [chQuote])) val (chQuote :: rest)
    (by rw [hs]; simp) (by simp; omega) rfl]
  rfl

theorem HighScoreManager.find_zero (s pat : Str) : find s pat 0 = findAt pat s 0 := by
  simp [find]

theorem HighScoreManager.parseInitialsField_spec (s val rest : Str)
    (hs : s = keyInitials ++ (':' :: ' ' :: chQuote :: (val ++ (chQuote :: rest))))
    (hval : ∀ c ∈ val, chQuote ≠ c) (hlen : s.length < 2 ^ 64) :
    parseInitialsField s = Except.ok (some val) := by
  have h1 : find s keyInitials 0 = 0 := by
    rw [find_zero, hs]
    exact findAt_here keyInitials chQuote _ 0 (startsWith_append keyInitials _)
  unfold parseInitialsField
  simp only [h1]
  rw [if_pos (by decide)]
  exact quotedValue_spec s keyInitials [':', ' '] val rest _ hs rfl
    (by intro c hc; simp at hc; rcases hc with rfl | rfl <;> decide) hval hlen

theorem HighScoreManager.parseScoreField_spec (s a digits rest : Str) (v : Int)
    (hs : s = a ++ (keyScore ++ (':' :: ' ' :: (digits ++ (',' :: rest)))))
    (hfind : find s keyScore 0 = a.length)
    (hne : digits ≠ []) (hdig : ∀ c ∈ digits, c.isDigit = true)
    (hval : digits.foldl (fun acc c => acc * 10 + ((c.toNat : Int) - 48)) 0 = v)
    (hpos : 0 < v) (hmax : v ≤ 2 ^ 31 - 1) (hlen : s.length < 2 ^ 64) :
    parseScoreField s = Except.ok (some v) := by
  have hl : s.length = a.length + (7 + (digits.length + (rest.length + 1) + 1 + 1)) := by
    rw [hs]
    simp only [List.length_append, List.length_cons, keyScore_eq, List.length_nil]
  have h1 : findChar s chColon a.length = a.length + 7 := by
    unfold findChar
    rw [find_split s [chColon] _ a _ hs rfl]
    simp [keyScore_eq, chColon, chQuote, findAt, startsWith]
  have h2 : sizeAdd (a.length + 7) 1 = a.length + 8 := sizeAdd_eq (by omega)
  have h3 : substr s (a.length + 8) npos = Except.ok (' ' :: (digits ++ (',' :: rest))) :=
    substr_rest s _ (a ++ (keyScore ++ [':'])) _ (by rw [hs]; simp)
      (by simp [keyScore_eq]) (by unfold npos; simp only [List.length_cons, List.length_append]; omega)
  have hn1 : a.length ≠ npos := by unfold npos; omega
  have hn2 : a.length + 7 ≠ npos := by unfold npos; omega
  unfold parseScoreField
  simp only [hfind, h1, h2, h3]
  rw [if_pos hn1, if_pos hn2]
  show (stoi (' ' :: (digits ++ (',' :: rest))) >>= fun v => Except.ok (some v))
    = Except.ok (some v)
  rw [stoi_number digits rest v hne hdig hval hpos hmax]
  rfl

theorem HighScoreManager.parseDateField_spec (s a val rest : Str)
    (hs : s = a ++ (keyDate ++ (':' :: ' ' :: chQuote :: (val ++ (chQuote :: rest)))))
    (hfind : find s keyDate 0 = a.length)
    (hval : ∀ c ∈ val, chQuote ≠ c) (hlen : s.length < 2 ^ 64) :
    parseDateField s = Except.ok (some val) := by
  have hl : s.length = a.length + (6 + (val.length + (rest.length + 1) + 1 + 1 + 1)) := by
    rw [hs]
    simp only [List.length_append, List.length_cons, keyDate_eq, List.length_nil]
  have hn1 : a.length ≠ npos := by unfold npos; omega
  have h2 : sizeAdd a.length 6 = a.length + 6 := sizeAdd_eq (by omega)
  unfold parseDateField
  simp only [hfind, h2]
  rw [if_pos hn1]
  exact quotedValue_spec s (a ++ keyDate) [':', ' '] val rest _ (by rw [hs]; simp)
    (by simp [keyDate_eq])
    (by intro c hc; simp at hc; rcases hc with rfl | rfl <;> decide) hval hlen

theorem HighScoreManager.find_keyScore_objectText (c0 : Char) (ini digits date : Str)
    (h0 : 's' ≠ c0) (hq : ∀ c ∈ c0 :: ini, chQuote ≠ c) :
    find (objectText (c0 :: ini) digits date) keyScore 0
      = (keyInitials ++ (':' :: ' ' :: chQuote :: (c0 :: ini ++ [chQuote, ',', ' ']))).length := by
  have hq0 : '\x22' ≠ c0 := hq c0 (List.mem_cons_self _ _)
  have hq1 : ∀ c ∈ ini, '\x22' ≠ c := fun c hc => hq c (List.mem_cons_of_mem _ hc)
  rw [find_zero]
  simp only [objectText, keyInitials_eq, keyScore_eq, keyDate_eq, chQuote_eq, List.cons_append,
    List.nil_append]
  simp [findAt, startsWith, h0, hq0]
  rw [findAt_skip _ _ _ _ _ hq1]
  simp [findAt, startsWith]
  omega

theorem HighScoreManager.find_keyDate_objectText (c0 : Char) (ini digits date : Str)
    (h0 : 'd' ≠ c0) (hq : ∀ c ∈ c0 :: ini, chQuote ≠ c) (hd : ∀ c ∈ digits, chQuote ≠ c) :
    find (objectText (c0 :: ini) digits date) keyDate 0
      = (keyInitials ++ (':' :: ' ' :: chQuote :: (c0 :: ini ++ (chQuote :: ',' :: ' ' ::
          (keyScore ++ (':' :: ' ' :: (digits ++ [',', ' ']))))))).length := by
  have hq0 : '\x22' ≠ c0 := hq c0 (List.mem_cons_self _ _)
  have hq1 : ∀ c ∈ ini, '\x22' ≠ c := fun c hc => hq c (List.mem_cons_of_mem _ hc)
  have hd1 : ∀ c ∈ digits, '\x22' ≠ c := hd
  rw [find_zero]
  simp only [objectText, keyInitials_eq, keyScore_eq, keyDate_eq, chQuote_eq, List.cons_append,
    List.nil_append]
  simp [findAt, startsWith, h0, hq0]
  rw [findAt_skip _ _ _ _ _ hq1]
  simp [findAt, startsWith]
  rw [findAt_skip _ _ _ _ _ hd1]
  simp [findAt, startsWith]
  omega

theorem isDateForm_chars (s : Str) (h : isDateForm s = true) :
    ∀ c ∈ s, c.isDigit = true ∨ c = '-' := by
  intro c hc
  unfold isDateForm at h
  split at h
  · simp only [Bool.and_eq_true, beq_iff_eq] at h
    simp only [List.mem_cons, List.mem_singleton, List.not_mem_nil, or_false] at hc
    obtain ⟨⟨⟨⟨⟨⟨⟨⟨⟨h1, h2⟩, h3⟩, h4⟩, h5⟩, h6⟩, h7⟩, h8⟩, h9⟩, h10⟩ := h
    rcases hc with rfl | rfl | rfl | rfl | rfl | rfl | rfl | rfl | rfl | rfl
    · exact Or.inl h1
    · exact Or.inl h2
    · exact Or.inl h3
    · exact Or.inl h4
    · exact Or.inr h5
    · exact Or.inl h6
    · exact Or.inl h7
    · exact Or.inr h8
    · exact Or.inl h9
    · exact Or.inl h10
  · exact absurd h (by simp)

theorem ne_of_upper_or_space (k c : Char) (hk : k.isUpper = false) (hk2 : k ≠ ' ')
    (h : c.isUpper = true ∨ c = ' ') : k ≠ c := by
  rintro rfl
  rcases h with h | h
  · rw [h] at hk
    exact absurd hk (by simp)
  · exact hk2 h

theorem ne_of_digit_or_dash (k c : Char) (hk : k.isDigit = false) (hk2 : k ≠ '-')
    (h : c.isDigit = true ∨ c = '-') : k ≠ c := by
  rintro rfl
  rcases h with h | h
  · rw [h] at hk
    exact absurd hk (by simp)
  · exact hk2 h

/-- The three fields of an object that `toJson` wrote are read back as the
entry it was written for. -/
theorem HighScoreManager.parseObject_objectText (e : HighScoreEntry) (he : StorableEntry e)
    (hlen : (objectText e.initials (intToStr e.score) e.date).length < 2 ^ 64) :
    parseObject (objectText e.initials (intToStr e.score) e.date) = Except.ok (some e) := by
  obtain ⟨hpos, hmax, hne, hini, hdate⟩ := he
  obtain ⟨dne, ddig, dval⟩ := intToStr_spec e.score hpos
  obtain ⟨initials, score, date⟩ := e
  obtain ⟨c0, ini, rfl⟩ := List.exists_cons_of_ne_nil hne
  simp only at hpos hmax hini hdate hlen dne ddig dval ⊢
  have hiq : ∀ c ∈ c0 :: ini, chQuote ≠ c := fun c hc =>
    ne_of_upper_or_space _ c (by decide) (by decide) (hini c hc)
  have hdq : ∀ c ∈ intToStr score, chQuote ≠ c := fun c hc =>
    ne_of_digit_or_dash _ c (by decide) (by decide) (Or.inl (ddig c hc))
  have htq : ∀ c ∈ date, chQuote ≠ c := fun c hc =>
    ne_of_digit_or_dash _ c (by decide) (by decide) (isDateForm_chars date hdate c hc)
  have hs0 : 's' ≠ c0 :=
    ne_of_upper_or_space _ c0 (by decide) (by decide) (hini c0 (List.mem_cons_self _ _))
  have hd0 : 'd' ≠ c0 :=
    ne_of_upper_or_space _ c0 (by decide) (by decide) (hini c0 (List.mem_cons_self _ _))
  have h1 := parseInitialsField_spec (objectText (c0 :: ini) (intToStr score) date)
    (c0 :: ini) _ rfl hiq hlen
  have h2 := parseScoreField_spec (objectText (c0 :: ini) (intToStr score) date)
    (keyInitials ++ (':' :: ' ' :: chQuote :: (c0 :: ini ++ [chQuote, ',', ' '])))
    (intToStr score) (' ' :: (keyDate ++ (':' :: ' ' :: chQuote :: (date ++ [chQuote]))))
    score (by simp [objectText])
    (find_keyScore_objectText c0 ini (intToStr score) date hs0 hiq) dne ddig dval hpos hmax hlen
  have h3 := parseDateField_spec (objectText (c0 :: ini) (intToStr score) date)
    (keyInitials ++ (':' :: ' ' :: chQuote :: (c0 :: ini ++ (chQuote :: ',' :: ' ' ::
      (keyScore ++ (':' :: ' ' :: (intToStr score ++ [',', ' '])))))))
    date [] (by simp [objectText])
    (find_keyDate_objectText c0 ini (intToStr score) date hd0 hiq hdq) htq hlen
  unfold parseObject
  rw [h1, h2, h3]
  simp [finishEntry, hpos, bind, Except.bind]

theorem HighScoreManager.objectText_segments (initials digits date : Str) :
    objectText initials digits date
      = ['\x22', 'i', 'n', 'i', 't', 'i', 'a', 'l', 's', '\x22', ':', ' ', '\x22'] ++ (initials ++
        (['\x22', ',', ' ', '\x22', 's', 'c', 'o', 'r', 'e', '\x22', ':', ' '] ++ (digits ++
          ([',', ' ', '\x22', 'd', 'a', 't', 'e', '\x22', ':', ' ', '\x22'] ++ (date ++ ['\x22']))))) :=
  rfl

theorem HighScoreManager.objectText_chars (k : Char) (initials digits date : Str)
    (hk : k = chLBrace ∨ k = chRBrace ∨ k = chRBracket)
    (hini : ∀ c ∈ initials, c.isUpper = true ∨ c = ' ')
    (hdig : ∀ c ∈ digits, c.isDigit = true)
    (hdate : ∀ c ∈ date, c.isDigit = true ∨ c = '-') :
    ∀ c ∈ objectText initials digits date, k ≠ c := by
  have hk1 : k.isUpper = false := by rcases hk with rfl | rfl | rfl <;> decide
  have hk2 : k ≠ ' ' := by rcases hk with rfl | rfl | rfl <;> decide
  have hk3 : k.isDigit = false := by rcases hk with rfl | rfl | rfl <;> decide
  have hk4 : k ≠ '-' := by rcases hk with rfl | rfl | rfl <;> decide
  have h1 : ∀ c ∈ initials, k ≠ c := fun c hc =>
    ne_of_upper_or_space k c hk1 hk2 (hini c hc)
  have h2 : ∀ c ∈ digits, k ≠ c := fun c hc =>
    ne_of_digit_or_dash k c hk3 hk4 (Or.inl (hdig c hc))
  have h3 : ∀ c ∈ date, k ≠ c := fun c hc =>
    ne_of_digit_or_dash k c hk3 hk4 (hdate c hc)
  rw [objectText_segments]
  refine List.forall_mem_append.2 ⟨?_, List.forall_mem_append.2 ⟨h1,
    List.forall_mem_append.2 ⟨?_, List.forall_mem_append.2 ⟨h2,
      List.forall_mem_append.2 ⟨?_, List.forall_mem_append.2 ⟨h3, ?_⟩⟩⟩⟩⟩⟩
  all_goals rcases hk with rfl | rfl | rfl <;> decide

theorem HighScoreManager.entryToJson_eq (e : HighScoreEntry) :
    entryToJson e = ' ' :: ' ' :: ' ' :: ' ' :: chLBrace ::
      (objectText e.initials (intToStr e.score) e.date ++ [chRBrace]) := by
  rw [objectText_segments]
  simp [entryToJson, chLBrace, chRBrace]

theorem HighScoreManager.parseLoop_done (content : Str) (fuel pos : Nat) (acc : List HighScoreEntry)
    (hpos : pos < content.length) (h1 : findChar content chLBrace pos = npos) :
    parseLoop content (fuel + 1) pos acc = Except.ok acc := by
  rw [parseLoop, if_pos hpos]
  simp [h1]

theorem HighScoreManager.parseLoop_step (content : Str) (fuel pos : Nat) (acc : List HighScoreEntry)
    (objStart objEnd : Nat) (obj : Str) (e : HighScoreEntry)
    (hpos : pos < content.length) (h1 : findChar content chLBrace pos = objStart)
    (h2 : findChar content chRBrace objStart = objEnd)
    (hn1 : objStart ≠ npos) (hn2 : objEnd ≠ npos)
    (h3 : substr content (sizeAdd objStart 1) (sizeSub (sizeSub objEnd objStart) 1)
      = Except.ok obj)
    (h4 : parseObject obj = Except.ok (some e)) :
    parseLoop content (fuel + 1) pos acc
      = parseLoop content fuel (sizeAdd objEnd 1) (acc ++ [e]) := by
  rw [parseLoop, if_pos hpos]
  simp only [h1, h2]
  rw [if_neg (by simp [hn1, hn2]), h3]
  show (parseObject obj >>= fun entry? => _) = _
  rw [h4]
  rfl

theorem HighScoreManager.toJsonLoop_cons (e : HighScoreEntry) (rest : List HighScoreEntry) :
    toJsonLoop (e :: rest)
      = ' ' :: ' ' :: ' ' :: ' ' :: chLBrace ::
        (objectText e.initials (intToStr e.score) e.date ++ (chRBrace ::
          ((if rest ≠ [] then [','] else []) ++ ('\n' :: toJsonLoop rest)))) := by
  rw [toJsonLoop, entryToJson_eq]
  simp

/-- The invariant of the loop of `parseJson` on the text of `toJson`: at
position `pre.length`, after a separator without a brace, the entries `rest`
are still to be read, and the loop appends exactly them. -/
theorem HighScoreManager.parseLoop_toJsonLoop (content : Str) (hlen : content.length < 2 ^ 64) :
    ∀ (rest : List HighScoreEntry) (pre sep : Str) (acc : List HighScoreEntry) (fuel : Nat),
      (∀ e ∈ rest, StorableEntry e) →
      content = pre ++ (sep ++ (toJsonLoop rest ++ [' ', ' '])) →
      (∀ c ∈ sep, chLBrace ≠ c) → rest.length < fuel →
      parseLoop content fuel pre.length acc = Except.ok (acc ++ rest) := by
  intro rest
  induction rest with
  | nil =>
    intro pre sep acc fuel _ hc hsep hfuel
    obtain ⟨f, rfl⟩ : ∃ f, fuel = f + 1 := ⟨fuel - 1, by omega⟩
    have hpos : pre.length < content.length := by
      rw [hc]
      simp
    have h1 : findChar content chLBrace pre.length = npos := by
      unfold findChar
      rw [find_split content _ _ pre _ hc rfl]
      apply findAt_absent
      intro c hm
      simp only [toJsonLoop, List.nil_append, List.mem_append, List.mem_cons,
        List.mem_singleton, List.not_mem_nil, or_false] at hm
      rcases hm with hm | rfl | rfl
      · exact hsep c hm
      · decide
      · decide
    rw [parseLoop_done content f _ acc hpos h1, List.append_nil]
  | cons e rest ih =>
    intro pre sep acc fuel hall hc hsep hfuel
    obtain ⟨f, rfl⟩ : ∃ f, fuel = f + 1 := ⟨fuel - 1, by simp at hfuel; omega⟩
    have he : StorableEntry e := hall e (List.mem_cons_self _ _)
    have hrest : ∀ x ∈ rest, StorableEntry x := fun x hx => hall x (List.mem_cons_of_mem _ hx)
    obtain ⟨_, _, _, hini, hdate⟩ := id he
    obtain ⟨_, ddig, _⟩ := intToStr_spec e.score he.1
    rw [toJsonLoop_cons] at hc
    generalize hobj : objectText e.initials (intToStr e.score) e.date = obj at hc
    generalize hsep2 : (if rest ≠ [] then [','] else []) ++ ('\n' :: toJsonLoop rest) = tail
      at hc
    simp only [List.cons_append, List.append_assoc] at hc
    have hl : content.length
        = pre.length + (sep.length + (obj.length + (tail.length + 2 + 1) + 5)) := by
      have hcl := congrArg List.length hc
      simp only [List.length_append, List.length_cons, List.length_nil] at hcl
      omega
    have hpos : pre.length < content.length := by omega
    have h1 : findChar content chLBrace pre.length = pre.length + sep.length + 4 := by
      unfold findChar
      rw [find_split content _ _ pre _ hc rfl, findAt_skip _ _ _ _ _ hsep]
      simp [findAt, startsWith, chLBrace]
    have h2 : findChar content chRBrace (pre.length + sep.length + 4)
        = pre.length + sep.length + 4 + 1 + obj.length := by
      unfold findChar
      rw [find_split content _ _ (pre ++ (sep ++ [' ', ' ', ' ', ' ']))
        (chLBrace :: (obj ++ (chRBrace :: (tail ++ [' ', ' ']))))
        (by rw [hc]; simp) (by simp; omega),
        findAt_cons_ne chRBrace [] chLBrace _ _ (by decide),
        findAt_skip _ _ _ _ _ (by
          rw [← hobj]
          exact objectText_chars chRBrace _ _ _ (Or.inr (Or.inl rfl)) hini ddig
            (isDateForm_chars _ hdate)),
        findAt_here _ _ _ _ (by simp [startsWith])]
    have h3 : substr content (sizeAdd (pre.length + sep.length + 4) 1)
        (sizeSub (sizeSub (pre.length + sep.length + 4 + 1 + obj.length)
          (pre.length + sep.length + 4)) 1) = Except.ok obj := by
      have h5 : sizeSub (pre.length + sep.length + 4 + 1 + obj.length)
          (pre.length + sep.length + 4) = obj.length + 1 := by
        rw [sizeSub_eq (by omega) (by omega)]
        omega
      have h6 : sizeSub (obj.length + 1) 1 = obj.length := by
        rw [sizeSub_eq (by omega) (by omega)]
        omega
      rw [sizeAdd_eq (by omega), h5, h6]
      exact substr_split content _ _ (pre ++ (sep ++ [' ', ' ', ' ', ' ', chLBrace])) obj
        (chRBrace :: (tail ++ [' ', ' '])) (by rw [hc]; simp) (by simp; omega) (by omega)
    have h4 : parseObject obj = Except.ok (some e) := by
      rw [← hobj]
      exact parseObject_objectText e he (by rw [hobj]; omega)
    rw [parseLoop_step content f _ acc _ _ obj e hpos h1 h2 (by unfold npos; omega)
      (by unfold npos; omega) h3 h4, sizeAdd_eq (by omega)]
    have hnext := ih (pre ++ (sep ++ (' ' :: ' ' :: ' ' :: ' ' :: chLBrace :: (obj ++ [chRBrace]))))
      ((if rest ≠ [] then [','] else []) ++ ['\n']) (acc ++ [e]) f hrest
      (by rw [hc, ← hsep2]; simp)
      (by
        intro c hm
        by_cases hr : rest = []
        · simp [hr] at hm
          rw [hm]
          decide
        · simp [hr] at hm
          rcases hm with rfl | rfl <;> decide)
      (by simp at hfuel; omega)
    have hpl : (pre ++ (sep ++ (' ' :: ' ' :: ' ' :: ' ' :: chLBrace :: (obj ++ [chRBrace])))).length
        = pre.length + sep.length + 4 + 1 + obj.length + 1 := by
      simp only [List.length_append, List.length_cons, List.length_nil]
      omega
    rw [hpl] at hnext
    rw [hnext]
    simp

theorem HighScoreManager.toJsonLoop_chars (scores : List HighScoreEntry) (hall : ∀ e ∈ scores, StorableEntry e) :
    ∀ c ∈ toJsonLoop scores, chRBracket ≠ c := by
  induction scores with
  | nil => intro c hc; simp [toJsonLoop] at hc
  | cons e rest ih =>
    have he : StorableEntry e := hall e (List.mem_cons_self _ _)
    have hrest : ∀ x ∈ rest, StorableEntry x := fun x hx => hall x (List.mem_cons_of_mem _ hx)
    obtain ⟨_, ddig, _⟩ := intToStr_spec e.score he.1
    have hobj := objectText_chars chRBracket e.initials (intToStr e.score) e.date
      (Or.inr (Or.inr rfl)) he.2.2.2.1 ddig (isDateForm_chars _ he.2.2.2.2)
    have hsep : ∀ c ∈ (if rest ≠ [] then [','] else []), chRBracket ≠ c := by
      intro c hm
      by_cases hr : rest = []
      · simp [hr] at hm
      · simp [hr] at hm
        rw [hm]
        decide
    rw [toJsonLoop_cons]
    have hlit : ∀ c ∈ [' ', ' ', ' ', ' ', chLBrace], chRBracket ≠ c := by decide
    have hbrace : ∀ c ∈ [chRBrace], chRBracket ≠ c := by decide
    have hnl : ∀ c ∈ ['\n'], chRBracket ≠ c := by decide
    exact List.forall_mem_append.2 ⟨hlit, List.forall_mem_append.2 ⟨hobj,
      List.forall_mem_append.2 ⟨hbrace, List.forall_mem_append.2 ⟨hsep,
        List.forall_mem_append.2 ⟨hnl, ih hrest⟩⟩⟩⟩⟩

theorem HighScoreManager.toJsonLoop_length (scores : List HighScoreEntry) :
    scores.length ≤ (toJsonLoop scores).length := by
  induction scores with
  | nil => simp
  | cons e rest ih =>
    rw [toJsonLoop_cons]
    simp only [List.length_append, List.length_cons]
    omega

theorem HighScoreManager.sortInsert_of_ge (a : HighScoreEntry) (l : List HighScoreEntry)
    (h : ∀ b ∈ l, a.score ≥ b.score) : sortInsert byScore a l = a :: l := by
  cases l with
  | nil => rfl
  | cons b l =>
    have hb : ¬ b.score > a.score := by
      have := h b (List.mem_cons_self _ _)
      omega
    simp [sortInsert, byScore, hb]

/-- The sort leaves a list that is in descending order of score as it is. -/
theorem HighScoreManager.stdSort_of_sorted (l : List HighScoreEntry) (h : SortedDescending l) :
    stdSort byScore l = l := by
  induction l with
  | nil => rfl
  | cons a l ih =>
    unfold SortedDescending at h
    rw [List.pairwise_cons] at h
    rw [stdSort, ih h.2, sortInsert_of_ge a l h.1]

theorem HighScoreManager.sortAndTrim_of_sorted (l : List HighScoreEntry) (h : SortedDescending l)
    (hlen : l.length ≤ Constants.MAX_HIGH_SCORES) : sortAndTrim l = l := by
  unfold sortAndTrim
  simp only [stdSort_of_sorted l h]
  rw [if_neg (by omega)]

theorem HighScoreManager.toJson_eq (scores : List HighScoreEntry) :
    toJson scores = chLBrace :: '\n' :: ' ' :: ' ' :: (keyScores ++ (':' :: ' ' ::
      chLBracket :: '\n' :: (toJsonLoop scores ++ [' ', ' ', chRBracket, '\n', chRBrace]))) := by
  simp [toJson, keyScores_eq, chLBrace, chRBrace, chLBracket, chRBracket]

/-- C29: the text that `toJson` writes for a list that is sorted descending,
has at most 10 entries, and whose entries have a positive `int` score,
non-empty initials of uppercase letters and spaces and a date of the form
YYYY-MM-DD, is parsed by `parseJson` on an empty manager into exactly that
list, in the same order. The text fits a `std::string` (fewer than 2^64
characters), and `std::sort` is the stable `stdSort`; for a list without two
equal scores the result of any sort is the same. -/
theorem HighScoreManager.toJson_round_trip (scores : List HighScoreEntry) (hsorted : SortedDescending scores)
    (hlen : scores.length ≤ Constants.MAX_HIGH_SCORES) (hall : ∀ e ∈ scores, StorableEntry e)
    (hsize : (toJson scores).length < 2 ^ 64) :
    parseJson [] (toJson scores) = Except.ok scores := by
  have hjson := toJson_eq scores
  generalize toJson scores = json at hjson hsize
  generalize hL : toJsonLoop scores = body at hjson
  have hl : json.length = body.length + 21 := by
    have hcl := congrArg List.length hjson
    simp only [List.length_append, List.length_cons, List.length_nil, keyScores_eq] at hcl
    omega
  have h1 : find json keyScores 0 = 4 := by
    rw [find_zero, hjson]
    simp [findAt, startsWith, keyScores_eq, chLBrace]
  have h2 : findChar json chLBracket 4 = 14 := by
    unfold findChar
    rw [find_split json _ 4 [chLBrace, '\n', ' ', ' '] _ hjson rfl]
    simp [findAt, startsWith, keyScores_eq, chLBracket, chQuote]
  have h3 : findChar json chRBracket 14 = body.length + 18 := by
    unfold findChar
    rw [find_split json _ 14 (chLBrace :: '\n' :: ' ' :: ' ' :: (keyScores ++ [':', ' ']))
      (chLBracket :: '\n' :: (body ++ [' ', ' ', chRBracket, '\n', chRBrace]))
      (by rw [hjson]; simp) rfl,
      findAt_cons_ne chRBracket [] chLBracket _ _ (by decide),
      findAt_cons_ne chRBracket [] '\n' _ _ (by decide),
      findAt_skip _ _ _ _ _ (by rw [← hL]; exact toJsonLoop_chars scores hall)]
    simp [findAt, startsWith, chRBracket]
    omega
  have h4 : sizeAdd 14 1 = 15 := rfl
  have h5 : sizeSub (sizeSub (body.length + 18) 14) 1 = body.length + 3 := by
    have h : sizeSub (body.length + 18) 14 = body.length + 4 := by
      rw [sizeSub_eq (by omega) (by omega)]
      omega
    rw [h, sizeSub_eq (by omega) (by omega)]
    omega
  have h6 : substr json 15 (body.length + 3) = Except.ok ('\n' :: (body ++ [' ', ' '])) :=
    substr_split json _ _
      (chLBrace :: '\n' :: ' ' :: ' ' :: (keyScores ++ [':', ' ', chLBracket]))
      ('\n' :: (body ++ [' ', ' '])) [chRBracket, '\n', chRBrace]
      (by rw [hjson]; simp) rfl (by simp)
  have h7 : parseLoop ('\n' :: (body ++ [' ', ' '])) (('\n' :: (body ++ [' ', ' '])).length + 1)
      0 [] = Except.ok scores := by
    have hfuel : scores.length < ('\n' :: (body ++ [' ', ' '])).length + 1 := by
      have := toJsonLoop_length scores
      rw [hL] at this
      simp only [List.length_append, List.length_cons, List.length_nil]
      omega
    have := parseLoop_toJsonLoop ('\n' :: (body ++ [' ', ' ']))
      (by simp only [List.length_append, List.length_cons, List.length_nil]; omega)
      scores [] ['\n'] [] _ hall (by rw [hL]; simp) (by decide) hfuel
    simpa using this
  unfold parseJson
  simp only [h1, h2, h3, h4, h5]
  rw [if_neg (by decide), if_neg (by unfold npos; omega), h6]
  show (parseLoop _ _ 0 [] >>= fun scores => Except.ok (sortAndTrim scores)) = _
  rw [h7]
  show Except.ok (sortAndTrim scores) = _
  rw [sortAndTrim_of_sorted scores hsorted hlen]

set_option maxRecDepth 100000 in
theorem HighScoreManager.toJson_round_trip_witness :
    (SortedDescending storedScores ∧ storedScores.length ≤ Constants.MAX_HIGH_SCORES ∧
      (∀ e ∈ storedScores, StorableEntry e) ∧ (toJson storedScores).length < 2 ^ 64) ∧
      parseJson [] (toJson storedScores) = Except.ok storedScores :=
  have hsorted : SortedDescending storedScores := by
    unfold SortedDescending
    decide
  have hlen : storedScores.length ≤ Constants.MAX_HIGH_SCORES := by decide
  have hall : ∀ e ∈ storedScores, StorableEntry e := by decide
  have hsize : (toJson storedScores).length < 2 ^ 64 := by decide
  ⟨⟨hsorted, hlen, hall, hsize⟩, toJson_round_trip storedScores hsorted hlen hall hsize⟩

set_option maxRecDepth 100000 in
theorem HighScoreManager.toJson_exampleScores :
    toJson exampleScores =
      ("\x7b\n  \"scores\": [\n" ++
        "    \x7b\"initials\": \"BBB\", \"score\": 300, \"date\": \"2025-12-13\"\x7d,\n" ++
        "    \x7b\"initials\": \"ZED\", \"score\": 200, \"date\": \"2026-01-01\"\x7d,\n" ++
        "    \x7b\"initials\": \"AAA\", \"score\": 100, \"date\": \"2025-12-12\"\x7d\n" ++
        "  ]\n\x7d").toList := by
  decide

theorem HighScoreManager.toJson_nil : toJson [] = "\x7b\n  \"scores\": [\n  ]\n\x7d".toList := by
  decide

end SnakeGame
